import Mathlib

/-!
# Trade-setup consistency checker: scoring and contradiction analysis

A shallow embedding of the scoring engine of `校验主方法1.0.cpp`.

Conventions of the embedding.

* `std::string` is `String`, `int` is `Int`, `std::vector` is `List`.  An `int` has 32 bits and
  a `size_t` 64 bits (the LP64 data model of x86-64 and AArch64 Linux); an `int` result that
  overflows is reduced modulo `2^32` (`wrapInt`), as the compiled program does.  This matters
  in `calculateEMAConsistency` and `calculateKSTConsistency` only, whose counters and whose
  product `maxCount * 100` grow with the list; the other `int` values of the engine are input
  fields that are only compared or converted, sums of at most three ones, and scores between
  0 and 100.
* A `double` field of the input record is a rational number: every finite binary64 value is a
  rational, and the engine only compares these fields with literals (`1.0`, `3.0`, `8.0`,
  `10.0`, `40.0`, `60.0`) that binary64 represents exactly.
* The `double` arithmetic of the engine, the weighted sum of `calculateTotalConsistency`,
  is modelled bit-exactly (round to nearest, ties to even, 53-bit significand) on binary64
  values written as integer multiples of `2^-54`.
* The `double` arithmetic of the input step `inputTradeParams` and of the support and
  resistance calculator is modelled bit-exactly as well, every operation yielding its exact
  rational value rounded by `binary64`.
* An output parameter `bool&` becomes a second component of the result.
-/

set_option linter.unusedVariables false

namespace TradeCheck

/-! ## Data model -/

/-- K-line period of an indicator reading (`enum class Timeframe`). -/
inductive Timeframe where
  | TF_4H
  | TF_DAY
  | TF_WEEK
  deriving DecidableEq, Repr

/-- Duration class of a price pattern (`enum class PatternTimeframe`). -/
inductive PatternTimeframe where
  | SHORT
  | MEDIUM
  | LONG
  deriving DecidableEq, Repr

/-- Breakout direction of a triangle pattern (`enum class TriangleBreakDir`). -/
inductive TriangleBreakDir where
  | UP
  | DOWN
  | NONE
  deriving DecidableEq, Repr

/-- One EMA reading (`struct EMAData`). -/
structure EMAData where
  tf : Timeframe
  period : Int
  trend : String
  isTurn : Bool
  deriving DecidableEq, Repr

/-- One KST reading (`struct KSTData`). -/
structure KSTData where
  tf : Timeframe
  periods : List Int
  cross : String
  deriving DecidableEq, Repr

/-- One price pattern (`struct PricePattern`). -/
structure PricePattern where
  name : String
  tf : PatternTimeframe
  breakDir : TriangleBreakDir
  deriving DecidableEq, Repr

/-- The root record of the analysis (`struct TradeAnalysis`). -/
structure TradeAnalysis where
  coinType : String
  openDir : String
  leverage : Int
  openPrice : ℚ
  liquidPrice : ℚ
  stopLoss : ℚ
  stopLossRate : ℚ
  leverStopLossRisk : ℚ
  longTrend : String
  midTrend : String
  shortTrend : String
  shortTrendLineBreakTimes : Int
  rsiLevel : String
  rsiDuration : Int
  rsiUnit : String
  pricePatterns : List PricePattern
  emaList : List EMAData
  kstList : List KSTData

/-- Text of a pattern duration class (`patternTfToString`). -/
def patternTfToString (ptf : PatternTimeframe) : String :=
  match ptf with
  | PatternTimeframe.SHORT => "短期（≤1周）"
  | PatternTimeframe.MEDIUM => "中期（1-4周）"
  | PatternTimeframe.LONG => "长期（＞4周）"

/-! ## Sub-scores that read scalar fields -/

/-- Score of the plain stop-loss rate (`calculateBaseStopLossScore`). -/
def calculateBaseStopLossScore (ta : TradeAnalysis) : Int :=
  let rate := ta.stopLossRate
  if rate ≥ 3 ∧ rate ≤ 8 then 10
  else if (rate ≥ 1 ∧ rate < 3) ∨ (rate > 8 ∧ rate ≤ 10) then 5
  else 0

/-- Score of the leveraged stop-loss risk (`calculateLeverStopLossScore`).  The first argument
after the record is the value the caller's `isHighRisk` variable holds before the call; the
second component of the result is the value it holds afterwards. -/
def calculateLeverStopLossScore (ta : TradeAnalysis) (isHighRisk : Bool) : Int × Bool :=
  let leverRisk := ta.leverStopLossRisk
  let isHighRisk : Bool := false
  if leverRisk ≤ 40 then (10, isHighRisk)
  else if leverRisk > 40 ∧ leverRisk ≤ 60 then (5, isHighRisk)
  else (0, true)

/-- Score of the agreement between the open direction and the three Dow trends, with the
deduction for short-term trend-line breaks (`calculateDirTrendMatchScore`). -/
def calculateDirTrendMatchScore (ta : TradeAnalysis) : Int :=
  let matchCount₀ : Int := 0
  let matchCount : Int :=
    if ta.openDir = "多" then
      let m₁ := if ta.longTrend = "上升" then matchCount₀ + 1 else matchCount₀
      let m₂ := if ta.midTrend = "上升" then m₁ + 1 else m₁
      if ta.shortTrend = "上升" then m₂ + 1 else m₂
    else
      let m₁ := if ta.longTrend = "下降" then matchCount₀ + 1 else matchCount₀
      let m₂ := if ta.midTrend = "下降" then m₁ + 1 else m₁
      if ta.shortTrend = "下降" then m₂ + 1 else m₂
  let baseScore : Int :=
    if matchCount = 3 then 20
    else if matchCount = 2 then 15
    else if matchCount = 1 then 5
    else 0
  let breakTimes := ta.shortTrendLineBreakTimes
  let penalty : Int :=
    if breakTimes = 3 then 3
    else if breakTimes = 5 then 8
    else if breakTimes ≥ 7 then 15
    else 0
  max (baseScore - penalty) 0

/-! ## Consistency of the EMA and KST readings -/

/-- Order of `std::string` keys: lexicographic on the code units (for UTF-8 this is the
lexicographic order of the code points). -/
def keyLt : List Char → List Char → Bool
  | [], [] => false
  | [], _ :: _ => true
  | _ :: _, [] => false
  | a :: as, b :: bs =>
    if a.toNat < b.toNat then true
    else if b.toNat < a.toNat then false
    else keyLt as bs

/-- The `int` that a computation with the mathematical result `z` yields: `z` itself when it
lies in `-2^31 .. 2^31 - 1`, and otherwise `z` reduced modulo `2^32` into this range.  The same
reduction converts a `size_t` to `int`. -/
def wrapInt (z : Int) : Int := (z + 2147483648) % 4294967296 - 2147483648

/-- Conversion of an `int` to `size_t`: reduction modulo `2^64`. -/
def toSizeT (z : Int) : Int := z % 18446744073709551616

/-- A `std::map<string, int>` of counters: its entries in key order. -/
abbrev CountMap := List (String × Int)

/-- Insertion of a fresh entry at its place in key order. -/
def CountMap.insertNew (k : String) (v : Int) : CountMap → CountMap
  | [] => [(k, v)]
  | (k₁, v₁) :: rest =>
    if keyLt k.data k₁.data then (k, v) :: (k₁, v₁) :: rest
    else (k₁, v₁) :: CountMap.insertNew k v rest

/-- The statement `m[k]++`: `operator[]` finds the entry of `k`, or inserts one with the
value-initialised counter `0`, and the counter is incremented. -/
def CountMap.increment (m : CountMap) (k : String) : CountMap :=
  if m.any (fun p => p.1 == k) then
    m.map (fun p => if p.1 == k then (p.1, wrapInt (p.2 + 1)) else p)
  else
    CountMap.insertNew k (wrapInt (0 + 1)) m

/-- Consistency score of the EMA trends (`calculateEMAConsistency`).  In the returned
expression the `int` product `maxCount * 100` is converted to `size_t` for the division by
`emaList.size()`, and the quotient is converted back to `int`. -/
def calculateEMAConsistency (emaList : List EMAData) : Int :=
  if emaList.isEmpty then 0
  else
    let trendCount : CountMap := emaList.foldl (fun m ema => m.increment ema.trend) []
    let maxCount : Int := trendCount.foldl (fun mx pair => max mx pair.2) 0
    wrapInt (toSizeT (wrapInt (maxCount * 100)) / (emaList.length : Int))

/-- Consistency score of the KST cross states (`calculateKSTConsistency`), with the same
conversions. -/
def calculateKSTConsistency (kstList : List KSTData) : Int :=
  if kstList.isEmpty then 0
  else
    let crossCount : CountMap := kstList.foldl (fun m kst => m.increment kst.cross) []
    let maxCount : Int := crossCount.foldl (fun mx pair => max mx pair.2) 0
    wrapInt (toSizeT (wrapInt (maxCount * 100)) / (kstList.length : Int))

/-! ## The binary64 arithmetic of the weighted sum

All values that occur in the weighted sum of `calculateTotalConsistency` are integer
multiples of `2^-54`: the products of an `int` with the literal `0.3` (zero, or of magnitude
at least `1/4`), the `int` values, and the sums of such values.  A value `x` is represented
by the integer `x * 2^54`; a multiple of `2^-54` is a binary64 value when it has at most 53
significant binary digits, and is rounded to 53 digits otherwise. -/

/-- Number of low-order binary digits that do not fit in a 53-bit significand: the least `sh`
with `n / 2^sh < 2^53`, found by halving at most `fuel` times. -/
def excessBits : Nat → Nat → Nat
  | 0, _ => 0
  | fuel + 1, n => if n < 2 ^ 53 then 0 else excessBits fuel (n / 2) + 1

/-- Rounding of a natural number to 53 significant binary digits, to nearest, ties to the even
significand. -/
def roundSig53 (n : Nat) : Nat :=
  if n < 2 ^ 53 then n
  else
    let sh := excessBits n n
    let q := n / 2 ^ sh
    let r := n % 2 ^ sh
    let half := 2 ^ (sh - 1)
    if r < half then q * 2 ^ sh
    else if half < r then (q + 1) * 2 ^ sh
    else if q % 2 = 0 then q * 2 ^ sh
    else (q + 1) * 2 ^ sh

/-- Rounding of a real number `z / 2^54` to binary64 (symmetric in the sign). -/
def roundBinary64 (z : Int) : Int :=
  if 0 ≤ z then (roundSig53 z.toNat : Int) else -(roundSig53 (-z).toNat : Int)

/-- The binary64 literal `0.3` is `5404319552844595 / 2^54`. -/
def literal03 : Int := 5404319552844595

/-- Conversion `int → double` (exact). -/
def doubleOfInt (i : Int) : Int := i * 2 ^ 54

/-- The product `i * 0.3` of an `int` with the literal, in binary64. -/
def doubleMul03 (i : Int) : Int := roundBinary64 (i * literal03)

/-- The sum of two binary64 values. -/
def doubleAdd (x y : Int) : Int := roundBinary64 (x + y)

/-- Conversion `double → int`: the fractional part is discarded (truncation toward zero). -/
def doubleToInt (x : Int) : Int := Int.tdiv x (2 ^ 54)

/-- Composite consistency score (`calculateTotalConsistency`).  The second component is the
value of the caller's `isHighLeverRisk` variable after the call. -/
def calculateTotalConsistency (ta : TradeAnalysis) (isHighLeverRisk : Bool) : Int × Bool :=
  let emaScore : Int := calculateEMAConsistency ta.emaList
  let kstScore : Int := calculateKSTConsistency ta.kstList
  let baseSLScore := calculateBaseStopLossScore ta
  let lever := calculateLeverStopLossScore ta isHighLeverRisk
  let leverSLScore := lever.1
  let dirMatchScore := calculateDirTrendMatchScore ta
  (doubleToInt
    (doubleAdd
      (doubleAdd
        (doubleAdd (doubleAdd (doubleMul03 emaScore) (doubleMul03 kstScore))
          (doubleOfInt baseSLScore))
        (doubleOfInt leverSLScore))
      (doubleOfInt dirMatchScore)),
   lever.2)

/-- The binary64 value of `e * 0.3 + k * 0.3` for non-negative `e`, `k`, as a multiple of
`2^-54`. -/
def emaKstSumNat (e k : Nat) : Nat :=
  roundSig53 (roundSig53 (e * 5404319552844595) + roundSig53 (k * 5404319552844595))

/-- The binary64 value of the whole weighted sum for non-negative scores, as a multiple of
`2^-54`. -/
def weightedSumNat (e k b l d : Nat) : Nat :=
  roundSig53 (roundSig53 (roundSig53 (emaKstSumNat e k + b * 2 ^ 54) + l * 2 ^ 54) + d * 2 ^ 54)

/-- Invariant of the counting loop: the map holds exactly the keys seen so far, each with the
number of times it was seen, as an `int`. -/
def CountsOf (m : CountMap) (seen : List String) : Prop :=
  (∀ p ∈ m, p.1 ∈ seen ∧ p.2 = wrapInt (seen.count p.1)) ∧
    ∀ k ∈ seen, (k, wrapInt (seen.count k)) ∈ m

/-! ## Contradiction analysis -/

/-- Finding of rule 1: rising long/mid trend with overbought RSI. -/
def msgRsiOverbought : String := "长/中期趋势向上，但RSI超买，趋势延续性存疑"

/-- Finding of rule 1: falling long/mid trend with oversold RSI. -/
def msgRsiOversold : String := "长/中期趋势向下，但RSI超卖，趋势延续性存疑"

/-- Finding of rule 2: the short-term trend line was broken at least twice. -/
def msgBreakWeakened : String :=
  "短期趋势线突破次数≥2次，趋势有效性减弱，开单逻辑一致性下降"

/-- Finding of rule 2: the short-term trend line was broken at least three times. -/
def msgBreakInvalidated : String :=
  "【高风险提醒】短期趋势线突破次数≥3次，趋势已失效，开单逻辑缺乏支撑"

/-- Label of the trend that a pattern of the given duration class is compared with. -/
def spanLabel (ptf : PatternTimeframe) : String :=
  if ptf = PatternTimeframe.LONG then "长期"
  else if ptf = PatternTimeframe.MEDIUM then "中期"
  else "短期"

/-- Finding of rule 3: bullish pattern against a falling trend of its duration class. -/
def msgBullishConflict (pat : PricePattern) : String :=
  patternTfToString pat.tf ++ "「" ++ pat.name ++ "」（看涨形态）与对应周期" ++
    spanLabel pat.tf ++ "下降趋势冲突"

/-- Finding of rule 3: bearish pattern against a rising trend of its duration class. -/
def msgBearishConflict (pat : PricePattern) : String :=
  patternTfToString pat.tf ++ "「" ++ pat.name ++ "」（看跌形态）与对应周期" ++
    spanLabel pat.tf ++ "上升趋势冲突"

/-- Finding of rule 3: converging triangle while the long trend is sideways. -/
def msgConvNeedsTrend (pat : PricePattern) : String :=
  patternTfToString pat.tf ++ "「收敛三角形」需依托明确趋势，长期横盘下形态有效性存疑"

/-- Finding of rule 3: converging triangle broke down while the short trend is up. -/
def msgConvBrokeDown (pat : PricePattern) : String :=
  patternTfToString pat.tf ++ "「收敛三角形」短期趋势向上，但向下突破下沿，趋势延续性矛盾"

/-- Finding of rule 3: converging triangle broke up while the short trend is down. -/
def msgConvBrokeUp (pat : PricePattern) : String :=
  patternTfToString pat.tf ++ "「收敛三角形」短期趋势向下，但向上突破上沿，趋势延续性矛盾"

/-- Finding of rule 3: diverging triangle without a breakout. -/
def msgDivNoBreakout (pat : PricePattern) : String :=
  patternTfToString pat.tf ++ "「发散三角形」预示趋势反转，但未突破，形态信号无效"

/-- Finding of rule 3: diverging triangle broke up against a short position. -/
def msgDivUpVsShort (pat : PricePattern) : String :=
  patternTfToString pat.tf ++ "「发散三角形」向上突破，与空单开单方向冲突"

/-- Finding of rule 3: diverging triangle broke down against a long position. -/
def msgDivDownVsLong (pat : PricePattern) : String :=
  patternTfToString pat.tf ++ "「发散三角形」向下突破，与多单开单方向冲突"

/-- Finding of rule 4: low EMA consistency. -/
def msgEmaLow : String := "EMA多时间跨度信号一致性低（<60分），趋势判断混乱"

/-- Finding of rule 4: low KST consistency. -/
def msgKstLow : String := "KST多时间跨度信号一致性低（<60分），穿越信号混乱"

/-- Finding of rule 5: stop-loss rate above 10%. -/
def msgStopTooWide : String := "基础止损率超过10%，无杠杆时风险已偏高"

/-- Finding of rule 5: stop-loss rate below 1%. -/
def msgStopTooTight : String := "基础止损率低于1%，易被小幅波动扫损"

/-- Finding of rule 6: leveraged stop-loss risk above 60%. -/
def msgLeverStrong : String :=
  "【高风险提醒】杠杆止损风险率＞60%，触发止损将亏损超60%保证金，极端风险！"

/-- Finding of rule 6: leveraged stop-loss risk between 40% and 60%. -/
def msgLeverModerate : String := "杠杆止损风险率40%-60%，止损风险偏高，需谨慎开单"

/-- Finding of rule 7: the direction/trend match score is zero. -/
def msgNoSupport : String :=
  "开单方向与趋势匹配度为0，且短期趋势线突破频繁，开单逻辑无效"

/-- Body of the loop of `analyzeContradictions` over the price patterns: the findings list
after the iteration for `pat`, given the list before it. -/
def analyzePatternStep (ta : TradeAnalysis) (contradictions : List String)
    (pat : PricePattern) : List String :=
  if pat.name = "无" then contradictions
  else
    let c₁ :=
      if (pat.name = "头肩底" ∨ pat.name = "向上旗形" ∨ pat.name = "双重底") ∧
          ((pat.tf = PatternTimeframe.LONG ∧ ta.longTrend = "下降") ∨
           (pat.tf = PatternTimeframe.MEDIUM ∧ ta.midTrend = "下降") ∨
           (pat.tf = PatternTimeframe.SHORT ∧ ta.shortTrend = "下降")) then
        contradictions ++ [msgBullishConflict pat]
      else contradictions
    let c₂ :=
      if (pat.name = "头肩顶" ∨ pat.name = "向下旗形" ∨ pat.name = "双重顶") ∧
          ((pat.tf = PatternTimeframe.LONG ∧ ta.longTrend = "上升") ∨
           (pat.tf = PatternTimeframe.MEDIUM ∧ ta.midTrend = "上升") ∨
           (pat.tf = PatternTimeframe.SHORT ∧ ta.shortTrend = "上升")) then
        c₁ ++ [msgBearishConflict pat]
      else c₁
    let c₃ :=
      if pat.name = "三角形（收敛）" then
        let d₁ := if ta.longTrend = "横盘" then c₂ ++ [msgConvNeedsTrend pat] else c₂
        let d₂ :=
          if ta.shortTrend = "上升" ∧ pat.breakDir = TriangleBreakDir.DOWN then
            d₁ ++ [msgConvBrokeDown pat]
          else d₁
        if ta.shortTrend = "下降" ∧ pat.breakDir = TriangleBreakDir.UP then
          d₂ ++ [msgConvBrokeUp pat]
        else d₂
      else c₂
    if pat.name = "三角形（发散）" then
      let d₁ :=
        if ta.longTrend ≠ "横盘" ∧ pat.breakDir = TriangleBreakDir.NONE then
          c₃ ++ [msgDivNoBreakout pat]
        else c₃
      let d₂ :=
        if pat.breakDir = TriangleBreakDir.UP ∧ ta.openDir = "空" then
          d₁ ++ [msgDivUpVsShort pat]
        else d₁
      if pat.breakDir = TriangleBreakDir.DOWN ∧ ta.openDir = "多" then
        d₂ ++ [msgDivDownVsLong pat]
      else d₂
    else c₃

/-- List of contradictions between the inputs (`analyzeContradictions`); every `push_back`
appends at the end of the list built so far. -/
def analyzeContradictions (ta : TradeAnalysis) (isHighLeverRisk : Bool) : List String :=
  let contradictions : List String := []
  let emaScore := calculateEMAConsistency ta.emaList
  let kstScore := calculateKSTConsistency ta.kstList
  let baseSLRate := ta.stopLossRate
  let leverSLRisk := ta.leverStopLossRisk
  let shortBreakTimes := ta.shortTrendLineBreakTimes
  let c₁ :=
    if (ta.longTrend = "上升" ∨ ta.midTrend = "上升") ∧ ta.rsiLevel = "超买" then
      contradictions ++ [msgRsiOverbought]
    else contradictions
  let c₂ :=
    if (ta.longTrend = "下降" ∨ ta.midTrend = "下降") ∧ ta.rsiLevel = "超卖" then
      c₁ ++ [msgRsiOversold]
    else c₁
  let c₃ := if shortBreakTimes ≥ 2 then c₂ ++ [msgBreakWeakened] else c₂
  let c₄ := if shortBreakTimes ≥ 3 then c₃ ++ [msgBreakInvalidated] else c₃
  let c₅ := ta.pricePatterns.foldl (analyzePatternStep ta) c₄
  let c₆ := if emaScore < 60 then c₅ ++ [msgEmaLow] else c₅
  let c₇ := if kstScore < 60 then c₆ ++ [msgKstLow] else c₆
  let c₈ := if baseSLRate > 10 then c₇ ++ [msgStopTooWide] else c₇
  let c₉ := if baseSLRate < 1 then c₈ ++ [msgStopTooTight] else c₈
  let c₁₀ :=
    if leverSLRisk > 60 then c₉ ++ [msgLeverStrong]
    else if leverSLRisk > 40 then c₉ ++ [msgLeverModerate]
    else c₉
  let dirMatch := calculateDirTrendMatchScore ta
  if dirMatch = 0 then c₁₀ ++ [msgNoSupport] else c₁₀

/-! ## Reference definitions: the rules as the specification words them -/

/-- Weighted sum of the five sub-scores in exact arithmetic. -/
def specWeightedSum (ta : TradeAnalysis) (isHighLeverRisk : Bool) : ℚ :=
  (3 / 10 : ℚ) * (calculateEMAConsistency ta.emaList : ℚ) +
    (3 / 10 : ℚ) * (calculateKSTConsistency ta.kstList : ℚ) +
    (calculateBaseStopLossScore ta : ℚ) +
    ((calculateLeverStopLossScore ta isHighLeverRisk).1 : ℚ) +
    (calculateDirTrendMatchScore ta : ℚ)

/-- The composite score as the specification states it: the weighted sum rounded to the
nearest integer. -/
def specTotal (ta : TradeAnalysis) (isHighLeverRisk : Bool) : Int :=
  round (specWeightedSum ta isHighLeverRisk)

/-- Number of the three Dow trends that agree with the open direction: rising trends for a
long position, falling trends for a short one. -/
def specMatchCount (ta : TradeAnalysis) : Nat :=
  if ta.openDir = "多" then [ta.longTrend, ta.midTrend, ta.shortTrend].count "上升"
  else if ta.openDir = "空" then [ta.longTrend, ta.midTrend, ta.shortTrend].count "下降"
  else 0

/-- Base score of the direction/trend match: 0, 5, 15, 20 for 0, 1, 2, 3 agreeing trends. -/
def specBaseScore : Nat → Int
  | 0 => 0
  | 1 => 5
  | 2 => 15
  | _ => 20

/-- Deduction for short-term trend-line breaks: 3 at exactly 3 breaks, 8 at exactly 5, 15 from
7 on, nothing otherwise. -/
def specPenalty (breakTimes : Int) : Int :=
  if breakTimes = 3 then 3
  else if breakTimes = 5 then 8
  else if 7 ≤ breakTimes then 15
  else 0

/-- Size of the largest group of equal entries of a list of keys. -/
def largestGroup (keys : List String) : Nat :=
  (keys.map (fun k => keys.count k)).foldr max 0

/-- The EMA reading that carries a KST cross state as its trend. -/
def emaOfKst (period : Int) (isTurn : Bool) (kst : KSTData) : EMAData :=
  ⟨kst.tf, period, kst.cross, isTurn⟩

/-- Rule 1: trend against RSI; the overbought finding, then the oversold finding. -/
def specRule1 (ta : TradeAnalysis) : List String :=
  (if (ta.longTrend = "上升" ∨ ta.midTrend = "上升") ∧ ta.rsiLevel = "超买"
    then [msgRsiOverbought] else []) ++
  (if (ta.longTrend = "下降" ∨ ta.midTrend = "下降") ∧ ta.rsiLevel = "超卖"
    then [msgRsiOversold] else [])

/-- Rule 2: breakout erosion; the weakened finding, then the invalidated finding. -/
def specRule2 (ta : TradeAnalysis) : List String :=
  (if 2 ≤ ta.shortTrendLineBreakTimes then [msgBreakWeakened] else []) ++
  (if 3 ≤ ta.shortTrendLineBreakTimes then [msgBreakInvalidated] else [])

/-- The trend field that a pattern duration class selects. -/
def spanTrend (ta : TradeAnalysis) (ptf : PatternTimeframe) : String :=
  match ptf with
  | PatternTimeframe.LONG => ta.longTrend
  | PatternTimeframe.MEDIUM => ta.midTrend
  | PatternTimeframe.SHORT => ta.shortTrend

/-- Rule 3, bullish or bearish pattern against the trend of its duration class. -/
def specTrendConflict (ta : TradeAnalysis) (pat : PricePattern) : List String :=
  (if (pat.name = "头肩底" ∨ pat.name = "向上旗形" ∨ pat.name = "双重底") ∧
      spanTrend ta pat.tf = "下降" then [msgBullishConflict pat] else []) ++
  (if (pat.name = "头肩顶" ∨ pat.name = "向下旗形" ∨ pat.name = "双重顶") ∧
      spanTrend ta pat.tf = "上升" then [msgBearishConflict pat] else [])

/-- Rule 3, findings of a converging triangle. -/
def specConverging (ta : TradeAnalysis) (pat : PricePattern) : List String :=
  if pat.name = "三角形（收敛）" then
    (if ta.longTrend = "横盘" then [msgConvNeedsTrend pat] else []) ++
    (if ta.shortTrend = "上升" ∧ pat.breakDir = TriangleBreakDir.DOWN
      then [msgConvBrokeDown pat] else []) ++
    (if ta.shortTrend = "下降" ∧ pat.breakDir = TriangleBreakDir.UP
      then [msgConvBrokeUp pat] else [])
  else []

/-- Rule 3, findings of a diverging triangle. -/
def specDiverging (ta : TradeAnalysis) (pat : PricePattern) : List String :=
  if pat.name = "三角形（发散）" then
    (if ta.longTrend ≠ "横盘" ∧ pat.breakDir = TriangleBreakDir.NONE
      then [msgDivNoBreakout pat] else []) ++
    (if pat.breakDir = TriangleBreakDir.UP ∧ ta.openDir = "空"
      then [msgDivUpVsShort pat] else []) ++
    (if pat.breakDir = TriangleBreakDir.DOWN ∧ ta.openDir = "多"
      then [msgDivDownVsLong pat] else [])
  else []

/-- Rule 3: the findings of one pattern; the sentinel pattern has none. -/
def specPatternFindings (ta : TradeAnalysis) (pat : PricePattern) : List String :=
  if pat.name = "无" then []
  else specTrendConflict ta pat ++ specConverging ta pat ++ specDiverging ta pat

/-- Rule 4: low consistency; the EMA finding, then the KST finding. -/
def specRule4 (ta : TradeAnalysis) : List String :=
  (if calculateEMAConsistency ta.emaList < 60 then [msgEmaLow] else []) ++
  (if calculateKSTConsistency ta.kstList < 60 then [msgKstLow] else [])

/-- Rule 5: stop-loss rate too wide or too tight. -/
def specRule5 (ta : TradeAnalysis) : List String :=
  (if ta.stopLossRate > 10 then [msgStopTooWide] else []) ++
  (if ta.stopLossRate < 1 then [msgStopTooTight] else [])

/-- Rule 6: leveraged stop-loss risk, strong or else moderate. -/
def specRule6 (ta : TradeAnalysis) : List String :=
  if ta.leverStopLossRisk > 60 then [msgLeverStrong]
  else if ta.leverStopLossRisk > 40 then [msgLeverModerate]
  else []

/-- Rule 7: no technical support for the direction. -/
def specRule7 (ta : TradeAnalysis) : List String :=
  if calculateDirTrendMatchScore ta = 0 then [msgNoSupport] else []

/-! ## Sample records -/

/-- A record of Scenario A: long position, all trends rising, no breaks, stop-loss rate 5%,
leverage 5, all EMA rising, all KST crossing up. -/
def scenarioA : TradeAnalysis where
  coinType := "BTC/USDT"
  openDir := "多"
  leverage := 5
  openPrice := 100
  liquidPrice := 81
  stopLoss := 95
  stopLossRate := 5
  leverStopLossRisk := 25
  longTrend := "上升"
  midTrend := "上升"
  shortTrend := "上升"
  shortTrendLineBreakTimes := 0
  rsiLevel := "正常"
  rsiDuration := 3
  rsiUnit := "天"
  pricePatterns := []
  emaList := [⟨Timeframe.TF_4H, 12, "上升", false⟩, ⟨Timeframe.TF_DAY, 26, "上升", false⟩,
    ⟨Timeframe.TF_WEEK, 50, "上升", false⟩]
  kstList := [⟨Timeframe.TF_4H, [10, 15, 20, 30], "向上穿越"⟩,
    ⟨Timeframe.TF_DAY, [10, 15, 20, 30], "向上穿越"⟩,
    ⟨Timeframe.TF_WEEK, [10, 15, 20, 30], "向上穿越"⟩]

/-- Scenario A with one dissenting EMA reading and one dissenting KST reading: both
consistency scores are 66. -/
def mixedReadings : TradeAnalysis :=
  { scenarioA with
    emaList := [⟨Timeframe.TF_4H, 12, "上升", false⟩, ⟨Timeframe.TF_DAY, 26, "上升", false⟩,
      ⟨Timeframe.TF_WEEK, 50, "下降", false⟩]
    kstList := [⟨Timeframe.TF_4H, [10, 15, 20, 30], "向上穿越"⟩,
      ⟨Timeframe.TF_DAY, [10, 15, 20, 30], "向上穿越"⟩,
      ⟨Timeframe.TF_WEEK, [10, 15, 20, 30], "向下穿越"⟩] }

/-- A head-and-shoulders top of long duration. -/
def bearishLong : PricePattern := ⟨"头肩顶", PatternTimeframe.LONG, TriangleBreakDir.NONE⟩

/-- A diverging triangle of short duration that broke down. -/
def divergingDown : PricePattern :=
  ⟨"三角形（发散）", PatternTimeframe.SHORT, TriangleBreakDir.DOWN⟩

/-- Scenario A with a bearish pattern and a diverging triangle, in this order. -/
def twoPatterns : TradeAnalysis :=
  { scenarioA with pricePatterns := [bearishLong, divergingDown] }

/-- The findings that the loop iteration for `pat` contributes: the loop body of
`analyzeContradictions` run on the empty list of findings. -/
def patternContribution (ta : TradeAnalysis) (pat : PricePattern) : List String :=
  analyzePatternStep ta [] pat

/-- Scenario A with an overbought RSI. -/
def overboughtA : TradeAnalysis :=
  { scenarioA with rsiLevel := "超买" }

/-- Scenario B: Scenario A with 7 breaks of the short-term trend line. -/
def scenarioB : TradeAnalysis :=
  { scenarioA with shortTrendLineBreakTimes := 7 }

/-- A diverging triangle of short duration that broke up. -/
def divergingUp : PricePattern :=
  ⟨"三角形（发散）", PatternTimeframe.SHORT, TriangleBreakDir.UP⟩

/-- Scenario C: a short position with a diverging triangle that broke up. -/
def scenarioC : TradeAnalysis :=
  { scenarioA with openDir := "空", pricePatterns := [divergingUp] }

/-- A converging triangle of medium duration that broke down. -/
def convergingDown : PricePattern :=
  ⟨"三角形（收敛）", PatternTimeframe.MEDIUM, TriangleBreakDir.DOWN⟩

/-- Scenario A with a converging triangle that broke down. -/
def withConverging : TradeAnalysis :=
  { scenarioA with pricePatterns := [convergingDown] }

/-- Scenario A with three pairwise different EMA trends and three pairwise different KST cross
states. -/
def scatteredReadings : TradeAnalysis :=
  { scenarioA with
    emaList := [⟨Timeframe.TF_4H, 12, "上升", false⟩, ⟨Timeframe.TF_DAY, 26, "下降", false⟩,
      ⟨Timeframe.TF_WEEK, 50, "横盘", false⟩]
    kstList := [⟨Timeframe.TF_4H, [10, 15, 20, 30], "向上穿越"⟩,
      ⟨Timeframe.TF_DAY, [10, 15, 20, 30], "向下穿越"⟩,
      ⟨Timeframe.TF_WEEK, [10, 15, 20, 30], "未穿越"⟩] }

/-- Scenario A with a stop at 15% of the entry price: stop-loss rate 15, leveraged risk 75. -/
def wideStop : TradeAnalysis :=
  { scenarioA with stopLoss := 85, stopLossRate := 15, leverStopLossRisk := 75 }

/-! ## The binary64 rounding of a rational

Where the result of `double` arithmetic on arbitrary prices matters, a finite double is the
rational number it denotes, and every arithmetic operation of the source yields its exact
value rounded by `binary64` (to nearest, ties to even, as on IEEE 754 hardware).  A result
that is not finite (an infinity or a NaN) is `none`.  Signed zeros are not told apart (they
compare equal). -/

/-- The power of two with an integer exponent. -/
def pow2 (e : ℤ) : ℚ :=
  if 0 ≤ e then ((2 ^ e.toNat : ℕ) : ℚ) else 1 / ((2 ^ (-e).toNat : ℕ) : ℚ)

/-- Upward search of the binade: the exponent `e` is raised while
`2 ^ (e + 1) ≤ a`, at most `fuel` times. -/
def binadeUp : Nat → ℤ → ℚ → ℤ
  | 0, e, _ => e
  | fuel + 1, e, a => if pow2 (e + 1) ≤ a then binadeUp fuel (e + 1) a else e

/-- Downward search of the binade: the exponent `e` is lowered while
`a < 2 ^ e`, at most `fuel` times. -/
def binadeDown : Nat → ℤ → ℚ → ℤ
  | 0, e, _ => e
  | fuel + 1, e, a => if a < pow2 e then binadeDown fuel (e - 1) a else e

/-- The binary64 exponent of a magnitude: the `e` in `-1022 .. 1023` with
`2 ^ e ≤ a < 2 ^ (e + 1)`, the lowest one for the subnormal range and the
highest one beyond the largest binade. -/
def exponentOf (a : ℚ) : ℤ :=
  if 1 ≤ a then binadeUp 1023 0 a else binadeDown 1021 (-1) a

/-- Rounding of a rational to the nearest integer, ties to the even one. -/
def roundHalfEven (q : ℚ) : ℤ :=
  if q - ⌊q⌋ < 1 / 2 then ⌊q⌋
  else if 1 / 2 < q - ⌊q⌋ then ⌊q⌋ + 1
  else if ⌊q⌋ % 2 = 0 then ⌊q⌋ else ⌊q⌋ + 1

/-- A magnitude rounded to 53 significant bits (to a multiple of `2 ^ -1074`
in the subnormal range), to nearest, ties to even. -/
def roundMagnitude (a : ℚ) : ℚ :=
  (roundHalfEven (a / pow2 (exponentOf a - 52)) : ℚ) * pow2 (exponentOf a - 52)

/-- The binary64 result of an arithmetic operation whose exact value is `q`:
`q` rounded to nearest, ties to even; `none` when the rounded magnitude
reaches `2 ^ 1024`, where the double is an infinity. -/
def binary64 (q : ℚ) : Option ℚ :=
  if pow2 1024 ≤ roundMagnitude |q| then none
  else some (if q < 0 then -roundMagnitude |q| else roundMagnitude |q|)

/-- Arithmetic without rounding: every operation yields its exact value. -/
def noRounding (q : ℚ) : Option ℚ := some q

/-- Use of the result of an operation on doubles: an infinite result (and the
infinities and NaNs computed from it) is `none`. -/
def andThen {α : Type} (x : Option ℚ) (f : ℚ → Option α) : Option α :=
  match x with
  | none => none
  | some a => f a

/-- What the order of the levels needs of a rounding `fl`: zero is kept, a
larger exact value never yields a smaller result, and a result is kept when
rounded again. -/
structure RoundsMonotonically (fl : ℚ → Option ℚ) : Prop where
  zero : fl 0 = some 0
  mono : ∀ x y a b, x ≤ y → fl x = some a → fl y = some b → a ≤ b
  fixed : ∀ x a, fl x = some a → fl a = some a

/-! ## Input steps and report of the checker -/

/-- The first input step (`inputTradeParams`).  The arguments after the record are the values
that the prompts accept (the direction is `多` or `空`, the leverage is at least 1, the prices
are positive doubles); the step stores them and computes the stop-loss rate and the leveraged
risk.  Every arithmetic operation of the source is one line, its exact value passed through
the rounding `fl`: `binary64` for the doubles of the program, `noRounding` for the formulas
over the rationals; `fabs` does not round, and the `int` leverage converts to `double`
exactly.  The result is `none` when the rate or the risk is not finite.  The warnings that
the step prints are not modelled. -/
def inputTradeParams (fl : ℚ → Option ℚ) (ta : TradeAnalysis) (coinType openDir : String)
    (leverage : Int) (openPrice liquidPrice stopLoss : ℚ) : Option TradeAnalysis :=
  let ta₁ : TradeAnalysis :=
    { ta with
      coinType := coinType, openDir := openDir, leverage := leverage,
      openPrice := openPrice, liquidPrice := liquidPrice, stopLoss := stopLoss }
  let quotient : Option ℚ :=
    if ta₁.openDir = "多" then
      andThen (fl (ta₁.openPrice - ta₁.stopLoss)) fun diff => fl (diff / ta₁.openPrice)
    else
      andThen (fl (ta₁.stopLoss - ta₁.openPrice)) fun diff => fl (diff / ta₁.openPrice)
  andThen quotient fun q =>
  andThen (fl (|q| * 100)) fun stopLossRate =>
  andThen (fl (stopLossRate * (ta₁.leverage : ℚ))) fun leverStopLossRisk =>
  some { ta₁ with stopLossRate := stopLossRate, leverStopLossRisk := leverStopLossRisk }

/-- The menu of `inputPricePatterns`. -/
def patternMenu : List String :=
  ["头肩顶（看跌）", "头肩底（看涨）", "向上旗形（看涨）", "向下旗形（看跌）",
    "三角形（收敛，延续趋势）", "三角形（发散，反转趋势）", "双重顶（看跌）", "双重底（看涨）", "无"]

/-- Whether `text` starts with `sub`. -/
def startsWithChars : List Char → List Char → Bool
  | [], _ => true
  | _ :: _, [] => false
  | a :: as, b :: bs => a == b && startsWithChars as bs

/-- The test `text.find(sub) != string::npos`: `sub` occurs somewhere in `text`. -/
def containsChars (sub : List Char) : List Char → Bool
  | [] => startsWithChars sub []
  | b :: bs => startsWithChars sub (b :: bs) || containsChars sub bs

/-- The clean-up of a menu text, `patName.substr(0, patName.find("（"))`: the text before its
first opening bracket, the whole text when there is none. -/
def cutAtBracket (patName : String) : String :=
  ⟨patName.data.takeWhile (fun ch => ch != '（')⟩

/-- One round of the selection loop of `inputPricePatterns`: the number read as `choice`,
and the duration class and breakout direction that the follow-up prompts end up accepting
(read only when the round records a pattern, the breakout only for a triangle). -/
structure PatternChoice where
  choice : Int
  tf : PatternTimeframe
  breakDir : TriangleBreakDir
  deriving DecidableEq, Repr

/-- The selection loop of `inputPricePatterns` on the rounds still to come and the pattern
list built so far; the loop also ends when the input is exhausted. -/
def selectPatterns : List PatternChoice → List PricePattern → List PricePattern
  | [], pricePatterns => pricePatterns
  | round :: rest, pricePatterns =>
    if round.choice = 0 then pricePatterns
    else if round.choice ≥ 1 ∧ round.choice ≤ (patternMenu.length : Int) then
      let patName := patternMenu.getD (round.choice - 1).toNat ""
      if patName = "无" then
        [⟨"无", PatternTimeframe.SHORT, TriangleBreakDir.NONE⟩]
      else
        let breakDir :=
          if containsChars "三角形".data patName.data then round.breakDir
          else TriangleBreakDir.NONE
        selectPatterns rest (pricePatterns ++ [⟨cutAtBracket patName, round.tf, breakDir⟩])
    else selectPatterns rest pricePatterns

/-- The fourth input step (`inputPricePatterns`). -/
def inputPricePatterns (ta : TradeAnalysis) (rounds : List PatternChoice) : TradeAnalysis :=
  { ta with pricePatterns := selectPatterns rounds ta.pricePatterns }

/-- The assessment that `outputAnalysis` prints for a composite score. -/
def consistencyAssessment (totalScore : Int) : String :=
  if totalScore ≥ 80 then "评价：信号高度一致，风险控制合理，开单逻辑具备强技术支撑"
  else if totalScore ≥ 60 then "评价：信号基本一致，风险控制尚可，开单逻辑有一定技术支撑"
  else "评价：信号混乱或风险控制不合理，开单逻辑支撑弱，建议观望"

/-! ## The leverage and position calculator (`杠杆与仓位控制.cpp`)

The `double` values of the calculator are rationals and its arithmetic is exact; a quotient by
zero, which in `double` is an infinity or a NaN, is no value (`none`). -/

/-- Traded coin (`enum class CryptoCurrency`). -/
inductive CryptoCurrency where
  | BTC
  | ETH
  | SOL
  | DOGE
  | UNKNOWN
  deriving DecidableEq, Repr

/-- Trade direction (`enum class TradeDirection`). -/
inductive TradeDirection where
  | LONG
  | SHORT
  deriving DecidableEq, Repr

/-- The fields of `class CryptoRiskCalculator`. -/
structure CryptoRiskCalculator where
  currency : CryptoCurrency
  leverage : ℚ
  positionRatio : ℚ
  entryPrice : ℚ
  direction : TradeDirection
  totalCapital : ℚ

/-- The maintenance margin rate `0.005`. -/
def MAINTENANCE_MARGIN_RATE : ℚ := 5 / 1000

/-- Division of `double` values: no value when the divisor is zero. -/
def divDouble (a b : ℚ) : Option ℚ :=
  if b = 0 then none else some (a / b)

/-- The constructor of `CryptoRiskCalculator`: an `invalid_argument` exception is an error. -/
def CryptoRiskCalculator.create (cc : CryptoCurrency) (lev posRatio entryP : ℚ)
    (dir : TradeDirection) (totalCap : ℚ) : Except String CryptoRiskCalculator :=
  if lev < 1 then Except.error "杠杆倍数不能小于1（主流交易所最低1x）"
  else if posRatio < 0 ∨ posRatio > 100 then Except.error "仓位占比需在0~100之间（百分比）"
  else if entryP ≤ 0 then Except.error "入场价格必须大于0"
  else if totalCap ≤ 0 then Except.error "总资金量必须大于0"
  else Except.ok ⟨cc, lev, posRatio, entryP, dir, totalCap⟩

/-- Initial margin (`getInitialMargin`). -/
def CryptoRiskCalculator.getInitialMargin (c : CryptoRiskCalculator) : ℚ :=
  c.totalCapital * (c.positionRatio / 100)

/-- Position value (`getPositionValue`). -/
def CryptoRiskCalculator.getPositionValue (c : CryptoRiskCalculator) : ℚ :=
  c.getInitialMargin * c.leverage

/-- Position amount in coins (`getPositionAmount`). -/
def CryptoRiskCalculator.getPositionAmount (c : CryptoRiskCalculator) : Option ℚ :=
  divDouble c.getPositionValue c.entryPrice

/-- Maintenance margin (`getMaintenanceMargin`). -/
def CryptoRiskCalculator.getMaintenanceMargin (c : CryptoRiskCalculator) : ℚ :=
  c.getPositionValue * MAINTENANCE_MARGIN_RATE

/-- Liquidation price (`calculateLiquidationPrice`). -/
def CryptoRiskCalculator.calculateLiquidationPrice (c : CryptoRiskCalculator) : Option ℚ :=
  let im := c.getInitialMargin
  let pv := c.getPositionValue
  let mmr := MAINTENANCE_MARGIN_RATE
  (c.getPositionAmount).bind fun amount =>
    if c.direction = TradeDirection.LONG then
      (divDouble (im - pv * mmr) amount).map fun q => c.entryPrice - q
    else
      (divDouble (im - pv * mmr) amount).map fun q => c.entryPrice + q

/-- Unrealized loss at the liquidation price (`getUnrealizedLoss`). -/
def CryptoRiskCalculator.getUnrealizedLoss (c : CryptoRiskCalculator) : Option ℚ :=
  (c.calculateLiquidationPrice).bind fun liqPrice =>
    (c.getPositionAmount).map fun amount =>
      if c.direction = TradeDirection.LONG then (c.entryPrice - liqPrice) * amount
      else (liqPrice - c.entryPrice) * amount

/-- Margin to add (`calculateMarginToAdd`).  For a calculator that the constructor accepts
the only division by zero is `0 / 0` in the liquidation price of a position of amount 0; the
unrealized loss is then a NaN, so is `needAdd`, the comparison `needAdd > 0` is false and the
function returns `0.0`. -/
def CryptoRiskCalculator.calculateMarginToAdd (c : CryptoRiskCalculator) : Option ℚ :=
  match c.getUnrealizedLoss with
  | some loss =>
    let surplusMargin := c.getInitialMargin - loss
    let needAdd := c.getMaintenanceMargin - surplusMargin
    some (if needAdd > 0 then needAdd else 0)
  | none => some 0

/-! ## Reference definitions and sample data for the input steps and the calculator -/

/-- The error kind of the specification. -/
inductive CoreError where
  | InvalidPrecondition
  deriving DecidableEq, Repr

/-- Consistency score as section 7 of the specification words it: a non-empty list whose
length is not 3 is an `InvalidPrecondition`; the empty list scores 0. -/
def specCheckedConsistency (keys : List String) : Except CoreError Nat :=
  if keys = [] then Except.ok 0
  else if keys.length ≠ 3 then Except.error CoreError.InvalidPrecondition
  else Except.ok (100 * largestGroup keys / 3)

/-- Liquidation price in closed form: `entryPrice * (1 - 1/leverage + 0.005)` for a long and
`entryPrice * (1 + 1/leverage - 0.005)` for a short position. -/
def specLiquidationPrice (dir : TradeDirection) (entryPrice leverage : ℚ) : ℚ :=
  match dir with
  | TradeDirection.LONG => entryPrice * (1 - 1 / leverage + 5 / 1000)
  | TradeDirection.SHORT => entryPrice * (1 + 1 / leverage - 5 / 1000)

/-- Two EMA readings with the same trend. -/
def twoEmaReadings : List EMAData :=
  [⟨Timeframe.TF_4H, 12, "上升", false⟩, ⟨Timeframe.TF_DAY, 26, "上升", false⟩]

/-- Two KST readings with the same cross state. -/
def twoKstReadings : List KSTData :=
  [⟨Timeframe.TF_4H, [10, 15, 20, 30], "向上穿越"⟩,
    ⟨Timeframe.TF_DAY, [10, 15, 20, 30], "向上穿越"⟩]

/-- The sentinel entry that the selection loop stores for the menu entry `无`. -/
def noneSentinel : PricePattern :=
  ⟨"无", PatternTimeframe.SHORT, TriangleBreakDir.NONE⟩

/-- Scenario A after the pattern step with the rounds: converging triangle of medium duration
that broke down, then the end of the selection. -/
def enteredConverging : TradeAnalysis :=
  inputPricePatterns scenarioA
    [⟨5, PatternTimeframe.MEDIUM, TriangleBreakDir.DOWN⟩,
      ⟨0, PatternTimeframe.SHORT, TriangleBreakDir.NONE⟩]

/-- Scenario A with leverage 20: stop-loss rate 5, leveraged risk 100. -/
def highLeverage : TradeAnalysis :=
  { scenarioA with leverage := 20, leverStopLossRisk := 100 }

/-- An EMA reading with a rising trend. -/
def risingEma : EMAData := ⟨Timeframe.TF_4H, 12, "上升", false⟩

/-- A KST reading that crosses up. -/
def crossingKst : KSTData := ⟨Timeframe.TF_4H, [10, 15, 20, 30], "向上穿越"⟩

/-- Scenario A with 21474837 equal EMA readings and as many equal KST readings: the product
`maxCount * 100` is 2147483700, above the largest `int` 2147483647. -/
def manyReadings : TradeAnalysis :=
  { scenarioA with
    emaList := List.replicate 21474837 risingEma
    kstList := List.replicate 21474837 crossingKst }

/-- Scenario A with 21474837 equal EMA readings and the KST readings of `mixedReadings`. -/
def manyEmaReadings : TradeAnalysis :=
  { mixedReadings with emaList := List.replicate 21474837 risingEma }

/-- The record `highLeverage` with 21528659 equal EMA readings. -/
def manyReadingsHighRisk : TradeAnalysis :=
  { highLeverage with emaList := List.replicate 21528659 risingEma }

/-- A long calculator: 10x leverage, 20% of 10000 USDT, entry at 50000. -/
def sampleLong : CryptoRiskCalculator :=
  ⟨CryptoCurrency.BTC, 10, 20, 50000, TradeDirection.LONG, 10000⟩

/-- The short calculator with the same parameters. -/
def sampleShort : CryptoRiskCalculator :=
  ⟨CryptoCurrency.BTC, 10, 20, 50000, TradeDirection.SHORT, 10000⟩

/-- A calculator without a position: position share 0. -/
def zeroPosition : CryptoRiskCalculator :=
  ⟨CryptoCurrency.BTC, 10, 0, 50000, TradeDirection.LONG, 10000⟩

/-! ## The support and resistance calculator (支撑与阻力位.cpp)

The prices of this calculator are doubles, and the order of the levels it
computes depends on how the doubles round: every arithmetic operation of the
source yields its exact value rounded by `binary64`.  The same code read with
`noRounding` gives the formulas over the rationals. -/

/-- Time frame of the K-lines (`enum class TimeFrame`). -/
inductive TimeFrame where
  | DAILY
  | FOUR_HOUR
  deriving DecidableEq, Repr

/-- One K-line (`struct KlineData`).  The field `open` of the source is called
`openPrice` here, `open` being a keyword.  The fields hold finite doubles. -/
structure KlineData where
  openPrice : ℚ
  high : ℚ
  low : ℚ
  close : ℚ
  volume : ℚ
  deriving DecidableEq

/-- The seven levels written by `calculatePivotPoint`. -/
structure PivotLevels where
  pivotPoint : ℚ
  s1 : ℚ
  s2 : ℚ
  s3 : ℚ
  r1 : ℚ
  r2 : ℚ
  r3 : ℚ
  deriving DecidableEq

/-- Method `SupportResistanceCalculator::validateKlineList`; a thrown
`std::invalid_argument` is `Except.error` with its message. -/
def validateKlineList (klineList : List KlineData) : Except String Unit :=
  if klineList.isEmpty then Except.error "K线数据不能为空"
  else if klineList.any (fun kd => kd.high < kd.low) then
    Except.error "存在最高价低于最低价的无效K线"
  else Except.ok ()

/-- Method `SupportResistanceCalculator::calculateHistoryHighLow`: the pair
`(highestHigh, lowestLow)`; `none` for the empty list, where `klineList[0]`
does not exist.  `std::max` and `std::min` do not round. -/
def calculateHistoryHighLow (klineList : List KlineData) : Option (ℚ × ℚ) :=
  match klineList with
  | [] => none
  | k0 :: _ =>
    some (klineList.foldl (fun hl kd => (max hl.1 kd.high, min hl.2 kd.low)) (k0.high, k0.low))

/-- Method `SupportResistanceCalculator::calculatePivotPoint` on the latest
K-line.  Every arithmetic operation of the source is one line, its exact value
passed through the rounding `fl`: `binary64` for the doubles of the program,
`noRounding` for the formulas over the rationals.  The literals `3.0` and `2`
are doubles; a product by `2` is exact, so that fusing it with the sum or
difference that follows gives the same double.  The result is `none` when one
of the seven levels is not finite. -/
def calculatePivotPoint (fl : ℚ → Option ℚ) (latestKline : KlineData) : Option PivotLevels :=
  andThen (fl (latestKline.high + latestKline.low)) fun sumHL =>
  andThen (fl (sumHL + latestKline.close)) fun sumHLC =>
  andThen (fl (sumHLC / 3)) fun pivotPoint =>
  andThen (fl (latestKline.high - latestKline.low)) fun range =>
  andThen (fl (2 * pivotPoint)) fun twoP1 =>
  andThen (fl (twoP1 - latestKline.high)) fun s1 =>
  andThen (fl (pivotPoint - range)) fun s2 =>
  andThen (fl (2 * range)) fun twoR1 =>
  andThen (fl (pivotPoint - twoR1)) fun s3 =>
  andThen (fl (2 * pivotPoint)) fun twoP2 =>
  andThen (fl (twoP2 - latestKline.low)) fun r1 =>
  andThen (fl (pivotPoint + range)) fun r2 =>
  andThen (fl (2 * range)) fun twoR2 =>
  andThen (fl (pivotPoint + twoR2)) fun r3 =>
  some ⟨pivotPoint, s1, s2, s3, r1, r2, r3⟩

/-- The part of `SupportResistanceCalculator` that the constructor fills before
the dense-area step: `levels` stands for the seven fields `pivotPoint`, `s1`,
`s2`, `s3`, `r1`, `r2`, `r3`, and is `none` when they are not all finite.
The four dense-area fields (`avgClose`, `stdClose`, `denseSupport`,
`denseResist`) are left out: `calculateDenseArea` runs last, throws nothing and
writes no other field. -/
structure SupportResistanceCalculator where
  klineList : List KlineData
  timeframe : TimeFrame
  klineCount : Int
  highestHigh : ℚ
  lowestLow : ℚ
  levels : Option PivotLevels

/-- The constructor of `SupportResistanceCalculator`: `validateKlineList`, then
`calculateHistoryHighLow`, then `calculatePivotPoint` on `klineList.back()`.
The last branch is never taken: a validated list has a first and a last
K-line. -/
def SupportResistanceCalculator.create (fl : ℚ → Option ℚ) (klList : List KlineData)
    (tf : TimeFrame) : Except String SupportResistanceCalculator :=
  match validateKlineList klList with
  | Except.error e => Except.error e
  | Except.ok _ =>
    match calculateHistoryHighLow klList, klList.getLast? with
    | some hl, some latestKline =>
      Except.ok ⟨klList, tf, (klList.length : Int), hl.1, hl.2, calculatePivotPoint fl latestKline⟩
    | _, _ => Except.error "K线数据不能为空"

/-- The double nearest to the decimal `0.1`, as `std::cin >> value` reads it. -/
def double01 : ℚ := 3602879701896397 / 36028797018963968

/-- A flat K-line at `0.1` USDT: open, high, low and close all equal. -/
def flatBar : KlineData := ⟨double01, double01, double01, double01, 0⟩

/-- The levels the program computes for `flatBar`: the pivot
`0.10000000000000002` is above the price, `s1` and `r1` are
`0.10000000000000003`. -/
def flatLevels : PivotLevels :=
  ⟨7205759403792795 / 72057594037927936, 1801439850948199 / 18014398509481984,
    7205759403792795 / 72057594037927936, 7205759403792795 / 72057594037927936,
    1801439850948199 / 18014398509481984, 7205759403792795 / 72057594037927936,
    7205759403792795 / 72057594037927936⟩

/-- The double nearest to the decimal `0.7`. -/
def double07 : ℚ := 3152519739159347 / 4503599627370496

/-- A flat K-line at `0.7` USDT. -/
def flatBar07 : KlineData := ⟨double07, double07, double07, double07, 0⟩

/-- The levels the program computes for `flatBar07`: the pivot
`0.6999999999999998` is below the price, `s1` and `r1` are
`0.6999999999999997`. -/
def flatLevels07 : PivotLevels :=
  ⟨6305039478318693 / 9007199254740992, 1576259869579673 / 2251799813685248,
    6305039478318693 / 9007199254740992, 6305039478318693 / 9007199254740992,
    1576259869579673 / 2251799813685248, 6305039478318693 / 9007199254740992,
    6305039478318693 / 9007199254740992⟩

/-- Two daily K-lines (open, high, low, close, volume) whose prices are
doubles. -/
def sampleKlines : List KlineData :=
  [⟨100, 110, 95, 105, 0⟩, ⟨105, 108, 101, 205 / 2, 0⟩]

/-- The levels the program computes for the last of `sampleKlines`. -/
def sampleLevels : PivotLevels :=
  ⟨7306621270447445 / 70368744177664, 3506709084853589 / 35184372088832,
    6814040061203797 / 70368744177664, 6321458851960149 / 70368744177664,
    3752999689475413 / 35184372088832, 7799202479691093 / 70368744177664,
    8291783688934741 / 70368744177664⟩

/-- The calculator built from `sampleKlines`. -/
def sampleCalculator : SupportResistanceCalculator :=
  ⟨sampleKlines, TimeFrame.DAILY, 2, 110, 95, some sampleLevels⟩

/-! # Auxiliary lemmas -/

/-! ## Direction/trend match score -/

/-- The direction/trend score is the clipped difference of base score and deduction. -/
theorem dirTrendMatch_eq (ta : TradeAnalysis) (h : ta.openDir = "多" ∨ ta.openDir = "空") :
    calculateDirTrendMatchScore ta =
      max (specBaseScore (specMatchCount ta) - specPenalty ta.shortTrendLineBreakTimes) 0 := by
  have hne : ("空" : String) ≠ "多" := by decide
  rcases h with h | h
  · simp only [calculateDirTrendMatchScore, specMatchCount, specPenalty, h, if_true,
      List.count_cons, List.count_nil]
    by_cases h1 : ta.longTrend = "上升" <;> by_cases h2 : ta.midTrend = "上升" <;>
      by_cases h3 : ta.shortTrend = "上升" <;> simp [h1, h2, h3, specBaseScore]
  · simp only [calculateDirTrendMatchScore, specMatchCount, specPenalty, h, hne, if_false,
      if_true, List.count_cons, List.count_nil]
    by_cases h1 : ta.longTrend = "下降" <;> by_cases h2 : ta.midTrend = "下降" <;>
      by_cases h3 : ta.shortTrend = "下降" <;> simp [h1, h2, h3, specBaseScore]

theorem specBaseScore_range (m : Nat) : 0 ≤ specBaseScore m ∧ specBaseScore m ≤ 20 := by
  rcases m with _ | _ | _ | m <;> simp [specBaseScore]

theorem specPenalty_range (b : Int) : 0 ≤ specPenalty b ∧ specPenalty b ≤ 15 := by
  unfold specPenalty; split_ifs <;> omega

/-- The direction/trend score splits into a base score, which ignores the break count, and the
deduction, which reads nothing else. -/
theorem dirTrendMatch_split (ta : TradeAnalysis) :
    ∃ base : Int, (base = 0 ∨ base = 5 ∨ base = 15 ∨ base = 20) ∧
      ∀ n : Int, calculateDirTrendMatchScore { ta with shortTrendLineBreakTimes := n } =
        max (base - specPenalty n) 0 := by
  refine ⟨calculateDirTrendMatchScore { ta with shortTrendLineBreakTimes := 0 }, ?_, ?_⟩
  · by_cases h : ta.openDir = "多"
    · by_cases h1 : ta.longTrend = "上升" <;> by_cases h2 : ta.midTrend = "上升" <;>
        by_cases h3 : ta.shortTrend = "上升" <;>
        simp [calculateDirTrendMatchScore, h, h1, h2, h3]
    · by_cases h1 : ta.longTrend = "下降" <;> by_cases h2 : ta.midTrend = "下降" <;>
        by_cases h3 : ta.shortTrend = "下降" <;>
        simp [calculateDirTrendMatchScore, h, h1, h2, h3]
  · intro n
    by_cases h : ta.openDir = "多"
    · by_cases h1 : ta.longTrend = "上升" <;> by_cases h2 : ta.midTrend = "上升" <;>
        by_cases h3 : ta.shortTrend = "上升" <;>
        simp [calculateDirTrendMatchScore, specPenalty, h, h1, h2, h3]
    · by_cases h1 : ta.longTrend = "下降" <;> by_cases h2 : ta.midTrend = "下降" <;>
        by_cases h3 : ta.shortTrend = "下降" <;>
        simp [calculateDirTrendMatchScore, specPenalty, h, h1, h2, h3]

theorem dirTrendMatch_range (ta : TradeAnalysis) :
    0 ≤ calculateDirTrendMatchScore ta ∧ calculateDirTrendMatchScore ta ≤ 20 := by
  obtain ⟨base, hb, hn⟩ := dirTrendMatch_split ta
  have h := hn ta.shortTrendLineBreakTimes
  have hp := specPenalty_range ta.shortTrendLineBreakTimes
  have e : ({ ta with shortTrendLineBreakTimes := ta.shortTrendLineBreakTimes } : TradeAnalysis) = ta := rfl
  rw [e] at h
  rw [h]
  omega

/-! ## Counting map and consistency scores -/

theorem wrapInt_of_range (z : Int) (h0 : -2147483648 ≤ z) (h1 : z < 2147483648) :
    wrapInt z = z := by
  unfold wrapInt
  omega

theorem wrapInt_succ (a : Int) : wrapInt (wrapInt a + 1) = wrapInt (a + 1) := by
  unfold wrapInt
  omega

theorem mem_insertNew (k : String) (v : Int) (m : CountMap) (p : String × Int) :
    p ∈ CountMap.insertNew k v m ↔ p = (k, v) ∨ p ∈ m := by
  induction m with
  | nil => simp [CountMap.insertNew]
  | cons hd tl ih =>
    obtain ⟨k₁, v₁⟩ := hd
    unfold CountMap.insertNew
    split_ifs
    · simp
    · simp only [List.mem_cons, ih]
      tauto

theorem count_snoc_self (seen : List String) (k : String) :
    (seen ++ [k]).count k = seen.count k + 1 := by
  rw [List.count_append, List.count_singleton]
  simp

theorem count_snoc_ne (seen : List String) (k k' : String) (h : k' ≠ k) :
    (seen ++ [k]).count k' = seen.count k' := by
  rw [List.count_append, List.count_singleton]
  have : (k == k') = false := by simpa using fun e => h e.symm
  simp [this]

theorem countsOf_increment (m : CountMap) (seen : List String) (k : String)
    (h : CountsOf m seen) : CountsOf (m.increment k) (seen ++ [k]) := by
  obtain ⟨ha, hb⟩ := h
  unfold CountMap.increment
  by_cases hany : m.any (fun p => p.1 == k) = true
  · rw [if_pos hany]
    obtain ⟨q, hq, hqk⟩ := List.any_eq_true.mp hany
    have hqk' : q.1 = k := by simpa using hqk
    constructor
    · intro p hp
      obtain ⟨p₀, hp₀, rfl⟩ := List.mem_map.mp hp
      obtain ⟨h1, h2⟩ := ha p₀ hp₀
      by_cases hk : p₀.1 = k
      · have hb' : (p₀.1 == k) = true := by simpa using hk
        rw [if_pos hb']
        refine ⟨List.mem_append_left _ h1, ?_⟩
        show wrapInt (p₀.2 + 1) = wrapInt ((seen ++ [k]).count p₀.1 : Nat)
        rw [hk, count_snoc_self, ← hk, h2, Nat.cast_add, Nat.cast_one, wrapInt_succ]
      · have hb' : ¬ (p₀.1 == k) = true := by simpa using hk
        rw [if_neg hb']
        exact ⟨List.mem_append_left _ h1, by rw [count_snoc_ne _ _ _ hk]; exact h2⟩
    · intro k' hk'
      by_cases hk : k' = k
      · subst hk
        refine List.mem_map.mpr ⟨q, hq, ?_⟩
        have hb' : (q.1 == k') = true := by simpa using hqk'
        rw [if_pos hb', count_snoc_self, ← hqk', (ha q hq).2, Nat.cast_add, Nat.cast_one,
          wrapInt_succ]
      · have hmem : k' ∈ seen := by
          rcases List.mem_append.mp hk' with h | h
          · exact h
          · exact absurd (by simpa using h) hk
        refine List.mem_map.mpr ⟨(k', wrapInt (seen.count k')), hb k' hmem, ?_⟩
        have hb' : ¬ (k' == k) = true := by simpa using hk
        show (if (k' == k) = true then _ else _) = _
        rw [if_neg hb', count_snoc_ne _ _ _ hk]
  · rw [if_neg hany]
    have hno : ∀ p ∈ m, p.1 ≠ k := by
      intro p hp e
      exact hany (List.any_eq_true.mpr ⟨p, hp, by simpa using e⟩)
    have hk0 : k ∉ seen := fun hmem => hno _ (hb k hmem) rfl
    constructor
    · intro p hp
      rcases (mem_insertNew k (wrapInt (0 + 1)) m p).mp hp with rfl | hp
      · refine ⟨by simp, ?_⟩
        show wrapInt (0 + 1) = wrapInt ((seen ++ [k]).count k : Nat)
        rw [count_snoc_self, List.count_eq_zero_of_not_mem hk0]
        rfl
      · obtain ⟨h1, h2⟩ := ha p hp
        exact ⟨List.mem_append_left _ h1, by rw [count_snoc_ne _ _ _ (hno p hp)]; exact h2⟩
    · intro k' hk'
      apply (mem_insertNew k (wrapInt (0 + 1)) m _).mpr
      by_cases hk : k' = k
      · subst hk
        left
        rw [count_snoc_self, List.count_eq_zero_of_not_mem hk0]
        rfl
      · right
        have hmem : k' ∈ seen := by
          rcases List.mem_append.mp hk' with h | h
          · exact h
          · exact absurd (by simpa using h) hk
        rw [count_snoc_ne _ _ _ hk]
        exact hb k' hmem

theorem countsOf_foldl (keys : List String) :
    ∀ (m : CountMap) (seen : List String), CountsOf m seen →
      CountsOf (keys.foldl CountMap.increment m) (seen ++ keys) := by
  induction keys with
  | nil => intro m seen h; simpa using h
  | cons k ks ih =>
    intro m seen h
    have := ih (m.increment k) (seen ++ [k]) (countsOf_increment m seen k h)
    simpa using this

theorem countsOf_build (keys : List String) :
    CountsOf (keys.foldl CountMap.increment []) keys := by
  have := countsOf_foldl keys [] [] ⟨by simp, by simp⟩
  simpa using this

theorem foldl_max_ge_init (m : CountMap) (a : Int) :
    a ≤ m.foldl (fun mx pair => max mx pair.2) a := by
  induction m generalizing a with
  | nil => simp
  | cons hd tl ih => exact le_trans (le_max_left _ _) (ih _)

theorem foldl_max_ge_mem (m : CountMap) (a : Int) (p : String × Int) (hp : p ∈ m) :
    p.2 ≤ m.foldl (fun mx pair => max mx pair.2) a := by
  induction m generalizing a with
  | nil => simp at hp
  | cons hd tl ih =>
    rcases List.mem_cons.mp hp with rfl | h
    · exact le_trans (le_max_right _ _) (foldl_max_ge_init tl _)
    · exact ih _ h

theorem foldl_max_le (m : CountMap) (a b : Int) (ha : a ≤ b) (hm : ∀ p ∈ m, p.2 ≤ b) :
    m.foldl (fun mx pair => max mx pair.2) a ≤ b := by
  induction m generalizing a with
  | nil => simpa using ha
  | cons hd tl ih =>
    exact ih _ (max_le ha (hm hd (List.mem_cons_self _ _)))
      (fun p hp => hm p (List.mem_cons_of_mem _ hp))

theorem foldr_max_ge_mem (l : List Nat) (x : Nat) (hx : x ∈ l) : x ≤ l.foldr max 0 := by
  induction l with
  | nil => simp at hx
  | cons hd tl ih =>
    rcases List.mem_cons.mp hx with rfl | h
    · exact le_max_left _ _
    · exact le_trans (ih h) (le_max_right _ _)

theorem foldr_max_le (l : List Nat) (b : Nat) (hl : ∀ x ∈ l, x ≤ b) : l.foldr max 0 ≤ b := by
  induction l with
  | nil => simp
  | cons hd tl ih =>
    exact max_le (hl hd (List.mem_cons_self _ _)) (ih (fun x hx => hl x (List.mem_cons_of_mem _ hx)))

/-- While no counter overflows, the largest counter of the map built from a list of keys is
the size of the largest group of equal keys. -/
theorem maxCount_eq_largestGroup (keys : List String) (hlen : keys.length < 2147483648) :
    (keys.foldl CountMap.increment []).foldl (fun mx pair => max mx pair.2) 0 =
      (largestGroup keys : Int) := by
  obtain ⟨ha, hb⟩ := countsOf_build keys
  have hw : ∀ k : String, wrapInt (keys.count k : Nat) = ((keys.count k : Nat) : Int) := by
    intro k
    have := List.count_le_length k keys
    exact wrapInt_of_range _ (by omega) (by omega)
  apply le_antisymm
  · apply foldl_max_le _ _ _ (Int.natCast_nonneg _)
    intro p hp
    obtain ⟨h1, h2⟩ := ha p hp
    rw [h2, hw]
    have hle : keys.count p.1 ≤ largestGroup keys :=
      foldr_max_ge_mem (keys.map (fun k => keys.count k)) _ (List.mem_map.mpr ⟨p.1, h1, rfl⟩)
    exact_mod_cast hle
  · have h0 := foldl_max_ge_init (keys.foldl CountMap.increment []) 0
    have hF : ∀ k ∈ keys, ((keys.count k : Nat) : Int) ≤
        (keys.foldl CountMap.increment []).foldl (fun mx pair => max mx pair.2) 0 := by
      intro k hk
      have := foldl_max_ge_mem (keys.foldl CountMap.increment []) 0 _ (hb k hk)
      rw [hw] at this
      exact this
    generalize (keys.foldl CountMap.increment []).foldl (fun mx pair => max mx pair.2) 0 = F
      at h0 hF ⊢
    have hle : largestGroup keys ≤ F.toNat := by
      apply foldr_max_le
      intro x hx
      obtain ⟨k, hk, rfl⟩ := List.mem_map.mp hx
      have := hF k hk
      omega
    omega

theorem largestGroup_le_length (keys : List String) : largestGroup keys ≤ keys.length := by
  apply foldr_max_le
  intro x hx
  obtain ⟨k, _, rfl⟩ := List.mem_map.mp hx
  exact List.count_le_length _ _

theorem largestGroup_pos (k : String) (ks : List String) : 1 ≤ largestGroup (k :: ks) := by
  apply le_trans _ (foldr_max_ge_mem _ ((k :: ks).count k) (List.mem_map.mpr ⟨k, by simp, rfl⟩))
  simp

/-- The consistency score in terms of the largest group, while no counter overflows. -/
theorem emaConsistency_wrapped (emaList : List EMAData) (hlen : emaList.length < 2147483648) :
    calculateEMAConsistency emaList =
      wrapInt (toSizeT (wrapInt ((largestGroup (emaList.map (fun e => e.trend)) : Int) * 100)) /
        (emaList.length : Int)) := by
  unfold calculateEMAConsistency
  cases emaList with
  | nil => decide
  | cons e es =>
    have h := maxCount_eq_largestGroup ((e :: es).map (fun e => e.trend))
      (by rw [List.length_map]; exact hlen)
    rw [List.foldl_map] at h
    simp only [List.isEmpty_cons, Bool.false_eq_true, if_false]
    rw [h]

theorem kstConsistency_wrapped (kstList : List KSTData) (hlen : kstList.length < 2147483648) :
    calculateKSTConsistency kstList =
      wrapInt (toSizeT (wrapInt ((largestGroup (kstList.map (fun e => e.cross)) : Int) * 100)) /
        (kstList.length : Int)) := by
  unfold calculateKSTConsistency
  cases kstList with
  | nil => decide
  | cons e es =>
    have h := maxCount_eq_largestGroup ((e :: es).map (fun e => e.cross))
      (by rw [List.length_map]; exact hlen)
    rw [List.foldl_map] at h
    simp only [List.isEmpty_cons, Bool.false_eq_true, if_false]
    rw [h]

/-- The conversions of the returned expression change nothing while `100 * m` fits an `int`:
the result is the quotient of the natural numbers. -/
theorem wrapped_quotient (m n : Nat) (hm : m ≤ n) (hn : n ≤ 21474836) :
    wrapInt (toSizeT (wrapInt ((m : Int) * 100)) / (n : Int)) = ((m * 100 / n : Nat) : Int) := by
  have h1 : wrapInt ((m : Int) * 100) = ((m * 100 : Nat) : Int) := by
    rw [wrapInt_of_range _ (by omega) (by omega)]
    push_cast
    rfl
  have h2 : toSizeT ((m * 100 : Nat) : Int) = ((m * 100 : Nat) : Int) := by
    unfold toSizeT
    omega
  rw [h1, h2, ← Int.natCast_div]
  have h3 : m * 100 / n ≤ m * 100 := Nat.div_le_self _ _
  generalize m * 100 / n = q at h3 ⊢
  exact wrapInt_of_range _ (by omega) (by omega)

/-- For a list of at most 21474836 readings the consistency score is the integer part of
`100 * m / n`, with `m` the size of the largest group and `n` the length. -/
theorem emaConsistency_eq (emaList : List EMAData) (hlen : emaList.length ≤ 21474836) :
    calculateEMAConsistency emaList =
      ((largestGroup (emaList.map (fun e => e.trend)) * 100 / emaList.length : Nat) : Int) := by
  have h := largestGroup_le_length (emaList.map (fun e => e.trend))
  rw [List.length_map] at h
  rw [emaConsistency_wrapped emaList (by omega), wrapped_quotient _ _ h hlen]

theorem kstConsistency_eq (kstList : List KSTData) (hlen : kstList.length ≤ 21474836) :
    calculateKSTConsistency kstList =
      ((largestGroup (kstList.map (fun e => e.cross)) * 100 / kstList.length : Nat) : Int) := by
  have h := largestGroup_le_length (kstList.map (fun e => e.cross))
  rw [List.length_map] at h
  rw [kstConsistency_wrapped kstList (by omega), wrapped_quotient _ _ h hlen]

theorem groupScore_le (keys : List String) : largestGroup keys * 100 / keys.length ≤ 100 := by
  have h := largestGroup_le_length keys
  rcases Nat.eq_zero_or_pos keys.length with h0 | h0
  · simp [h0]
  · exact Nat.div_le_of_le_mul (by nlinarith)

/-- For a list of at most 21474836 readings the consistency score is a natural number of at
most 100. -/
theorem emaConsistency_nat (emaList : List EMAData) (hlen : emaList.length ≤ 21474836) :
    ∃ e : Nat, calculateEMAConsistency emaList = (e : Int) ∧ e ≤ 100 := by
  refine ⟨_, emaConsistency_eq emaList hlen, ?_⟩
  have := groupScore_le (emaList.map (fun e => e.trend))
  rwa [List.length_map] at this

theorem kstConsistency_nat (kstList : List KSTData) (hlen : kstList.length ≤ 21474836) :
    ∃ k : Nat, calculateKSTConsistency kstList = (k : Int) ∧ k ≤ 100 := by
  refine ⟨_, kstConsistency_eq kstList hlen, ?_⟩
  have := groupScore_le (kstList.map (fun e => e.cross))
  rwa [List.length_map] at this

theorem emaConsistency_le (emaList : List EMAData) (hlen : emaList.length ≤ 21474836) :
    calculateEMAConsistency emaList ≤ 100 := by
  obtain ⟨e, he, h⟩ := emaConsistency_nat emaList hlen
  omega

theorem kstConsistency_le (kstList : List KSTData) (hlen : kstList.length ≤ 21474836) :
    calculateKSTConsistency kstList ≤ 100 := by
  obtain ⟨e, he, h⟩ := kstConsistency_nat kstList hlen
  omega

/-- The largest group of a list of equal keys is the whole list. -/
theorem largestGroup_replicate (n : Nat) (s : String) :
    largestGroup (List.replicate n s) = n := by
  apply le_antisymm
  · have := largestGroup_le_length (List.replicate n s)
    rwa [List.length_replicate] at this
  · rcases Nat.eq_zero_or_pos n with h0 | h0
    · omega
    · have := foldr_max_ge_mem ((List.replicate n s).map (fun k => (List.replicate n s).count k))
        ((List.replicate n s).count s)
        (List.mem_map.mpr ⟨s, List.mem_replicate.mpr ⟨by omega, rfl⟩, rfl⟩)
      rw [List.count_replicate_self] at this
      exact this

/-! ## Properties of the binary64 rounding -/

theorem excessBits_pow_le (fuel : Nat) :
    ∀ n : Nat, 2 ^ 53 ≤ n → 2 ^ (52 + excessBits fuel n) ≤ n := by
  induction fuel with
  | zero =>
    intro n h
    simp only [excessBits, Nat.add_zero]
    exact le_trans (by norm_num) h
  | succ f ih =>
    intro n h
    have hn : ¬ n < 2 ^ 53 := not_lt.mpr h
    simp only [excessBits, hn, if_false]
    by_cases h2 : 2 ^ 53 ≤ n / 2
    · have := ih (n / 2) h2
      have e : 52 + (excessBits f (n / 2) + 1) = (52 + excessBits f (n / 2)) + 1 := by ring
      rw [e, pow_succ]
      omega
    · have hz : excessBits f (n / 2) = 0 := by
        cases f with
        | zero => rfl
        | succ g => simp only [excessBits, not_le.mp h2, if_true]
      rw [hz]
      exact h

/-- The fuel `n` is enough: the significand left after dropping the excess digits of `n` has at
most 53 binary digits. -/
theorem excessBits_significand (fuel : Nat) :
    ∀ n : Nat, n < 2 ^ (53 + fuel) → n / 2 ^ excessBits fuel n < 2 ^ 53 := by
  induction fuel with
  | zero =>
    intro n h
    simpa [excessBits] using h
  | succ f ih =>
    intro n h
    by_cases hn : n < 2 ^ 53
    · simp only [excessBits, hn, if_true, pow_zero, Nat.div_one]
    · simp only [excessBits, hn, if_false]
      have h2 : n / 2 < 2 ^ (53 + f) := by
        have e : 2 ^ (53 + (f + 1)) = 2 ^ (53 + f) * 2 := by
          rw [← pow_succ]; rfl
        rw [e] at h
        omega
      have := ih (n / 2) h2
      rw [pow_succ, mul_comm, ← Nat.div_div_eq_div_mul]
      exact this

theorem roundSig53_significand (n : Nat) : n / 2 ^ excessBits n n < 2 ^ 53 := by
  apply excessBits_significand
  calc n < 2 ^ n := Nat.lt_two_pow n
    _ ≤ 2 ^ (53 + n) := Nat.pow_le_pow_right (by norm_num) (by omega)

theorem excessBits_pos (n : Nat) (h : 2 ^ 53 ≤ n) : 1 ≤ excessBits n n := by
  cases n with
  | zero => simp at h
  | succ m =>
    have hn : ¬ m + 1 < 2 ^ 53 := not_lt.mpr h
    simp only [excessBits, hn, if_false]
    omega

theorem excessBits_le_nine (n : Nat) (h : 2 ^ 53 ≤ n) (hn : n < 2 ^ 62) :
    excessBits n n ≤ 9 := by
  have h1 := excessBits_pow_le n n h
  have h2 : 2 ^ (52 + excessBits n n) < 2 ^ 62 := lt_of_le_of_lt h1 hn
  have := (Nat.pow_lt_pow_iff_right (by norm_num : 1 < 2)).mp h2
  omega

/-- The rounded value is one of the two neighbours of `n` on the grid of step `2^sh`, and the
upper one only when `n` lies in the upper half of the cell. -/
theorem roundSig53_cases (n : Nat) (h : 2 ^ 53 ≤ n) :
    roundSig53 n = n / 2 ^ excessBits n n * 2 ^ excessBits n n ∨
    (roundSig53 n = (n / 2 ^ excessBits n n + 1) * 2 ^ excessBits n n ∧
      2 ^ (excessBits n n - 1) ≤ n % 2 ^ excessBits n n) := by
  have hn : ¬ n < 2 ^ 53 := not_lt.mpr h
  unfold roundSig53
  simp only [hn, if_false]
  split_ifs with h1 h2 h3
  · left; rfl
  · right; exact ⟨rfl, le_of_lt h2⟩
  · left; rfl
  · right; exact ⟨rfl, not_lt.mp h1⟩

theorem roundSig53_lower (n g : Nat) (hn : n < 2 ^ 62) (h : g * 2 ^ 54 ≤ n) :
    g * 2 ^ 54 ≤ roundSig53 n := by
  by_cases hs : n < 2 ^ 53
  · simp only [roundSig53, hs, if_true]; exact h
  · have hs' : 2 ^ 53 ≤ n := not_lt.mp hs
    have h9 := excessBits_le_nine n hs' hn
    have hc := roundSig53_cases n hs'
    generalize excessBits n n = sh at h9 hc
    have hP : 0 < 2 ^ sh := pow_pos (by norm_num) _
    have hdiv : 2 ^ sh ∣ g * 2 ^ 54 :=
      Dvd.dvd.mul_left (Nat.pow_dvd_pow 2 (by omega)) g
    obtain ⟨c, hc'⟩ := hdiv
    have hq : c ≤ n / 2 ^ sh := by
      rw [Nat.le_div_iff_mul_le hP, mul_comm, ← hc']
      exact h
    have hfloor : g * 2 ^ 54 ≤ n / 2 ^ sh * 2 ^ sh := by
      rw [hc', mul_comm]
      exact Nat.mul_le_mul_right _ hq
    rcases hc with e | ⟨e, _⟩
    · rw [e]; exact hfloor
    · rw [e]
      exact le_trans hfloor (Nat.mul_le_mul_right _ (Nat.le_succ _))

theorem roundSig53_upper (n g : Nat) (hn : n < 2 ^ 62) (h : n ≤ g * 2 ^ 54) :
    roundSig53 n ≤ g * 2 ^ 54 := by
  by_cases hs : n < 2 ^ 53
  · simp only [roundSig53, hs, if_true]; exact h
  · have hs' : 2 ^ 53 ≤ n := not_lt.mp hs
    have h9 := excessBits_le_nine n hs' hn
    have h1 := excessBits_pos n hs'
    have hc := roundSig53_cases n hs'
    generalize excessBits n n = sh at h9 h1 hc
    have hP : 0 < 2 ^ sh := pow_pos (by norm_num) _
    have hdiv : 2 ^ sh ∣ g * 2 ^ 54 :=
      Dvd.dvd.mul_left (Nat.pow_dvd_pow 2 (by omega)) g
    obtain ⟨c, hc'⟩ := hdiv
    rcases hc with e | ⟨e, hr⟩
    · rw [e]
      exact le_trans (Nat.div_mul_le_self _ _) h
    · rw [e, hc', mul_comm (2 ^ sh) c]
      apply Nat.mul_le_mul_right
      have hpos : 0 < n % 2 ^ sh := lt_of_lt_of_le (pow_pos (by norm_num) _) hr
      have hdm := Nat.div_add_mod n (2 ^ sh)
      have hlt : 2 ^ sh * (n / 2 ^ sh) < 2 ^ sh * c := by
        rw [← hc']
        omega
      have := Nat.lt_of_mul_lt_mul_left hlt
      omega

theorem roundSig53_error (n : Nat) (hn : n < 2 ^ 62) : roundSig53 n ≤ n + 2 ^ 8 := by
  by_cases hs : n < 2 ^ 53
  · simp only [roundSig53, hs, if_true]; omega
  · have hs' : 2 ^ 53 ≤ n := not_lt.mp hs
    have h9 := excessBits_le_nine n hs' hn
    have h1 := excessBits_pos n hs'
    have hc := roundSig53_cases n hs'
    generalize excessBits n n = sh at h9 h1 hc
    rcases hc with e | ⟨e, hr⟩
    · rw [e]
      exact le_trans (Nat.div_mul_le_self _ _) (Nat.le_add_right _ _)
    · rw [e]
      have hdm := Nat.div_add_mod n (2 ^ sh)
      have hsplit : 2 ^ sh = 2 ^ (sh - 1) + 2 ^ (sh - 1) := by
        have : sh = (sh - 1) + 1 := by omega
        conv_lhs => rw [this, pow_succ]
        ring
      have hle : 2 ^ (sh - 1) ≤ 2 ^ 8 := Nat.pow_le_pow_right (by norm_num) (by omega)
      rw [add_mul, one_mul, mul_comm]
      generalize 2 ^ sh * (n / 2 ^ sh) = a at hdm ⊢
      generalize n % 2 ^ sh = r at hdm hr
      generalize 2 ^ (sh - 1) = hf at hsplit hle hr
      generalize 2 ^ sh = P at hsplit ⊢
      omega

/-! ## The weighted sum on non-negative scores -/

set_option maxRecDepth 100000 in
/-- For consistency scores up to 100, the binary64 value of `e * 0.3 + k * 0.3` lies in the
integer cell of the exact value `(3 e + 3 k) / 10`, at a distance from its upper end, or the
exact value is an integer and the binary64 value is at most one below it. -/
theorem emaKstSumNat_cell : ∀ e < 101, ∀ k < 101,
    ((3 * e + 3 * k) / 10 * 2 ^ 54 ≤ emaKstSumNat e k ∧
      emaKstSumNat e k + 2 ^ 10 ≤ ((3 * e + 3 * k) / 10 + 1) * 2 ^ 54) ∨
    ((3 * e + 3 * k) % 10 = 0 ∧ emaKstSumNat e k ≤ (3 * e + 3 * k) / 10 * 2 ^ 54 ∧
      (3 * e + 3 * k) / 10 * 2 ^ 54 ≤ emaKstSumNat e k + 2 ^ 54) := by
  decide!

theorem addInt_inside (x g i s : Nat) (hg : g + i ≤ 200) (hs : 2 ^ 8 ≤ s)
    (h1 : g * 2 ^ 54 ≤ x) (h2 : x + s ≤ (g + 1) * 2 ^ 54) :
    (g + i) * 2 ^ 54 ≤ roundSig53 (x + i * 2 ^ 54) ∧
    roundSig53 (x + i * 2 ^ 54) + (s - 2 ^ 8) ≤ (g + i + 1) * 2 ^ 54 := by
  have hn : x + i * 2 ^ 54 < 2 ^ 62 := by omega
  have hlo := roundSig53_lower (x + i * 2 ^ 54) (g + i) hn (by omega)
  have herr := roundSig53_error (x + i * 2 ^ 54) hn
  constructor
  · exact hlo
  · omega

theorem addInt_atInteger (x g i : Nat) (hg : g + i ≤ 200)
    (h1 : x ≤ g * 2 ^ 54) (h2 : g * 2 ^ 54 ≤ x + 2 ^ 54) :
    roundSig53 (x + i * 2 ^ 54) ≤ (g + i) * 2 ^ 54 ∧
    (g + i) * 2 ^ 54 ≤ roundSig53 (x + i * 2 ^ 54) + 2 ^ 54 := by
  have hn : x + i * 2 ^ 54 < 2 ^ 62 := by omega
  have hup := roundSig53_upper (x + i * 2 ^ 54) (g + i) hn (by omega)
  have hlo := roundSig53_lower (x + i * 2 ^ 54) (g + i - 1) hn (by omega)
  constructor
  · exact hup
  · omega

/-- Adding the three integer scores keeps the sum inside the integer cell: the integer part of
the result is the integer part of the first two terms plus the three scores. -/
theorem weightedSumNat_inside (e k b l d f : Nat) (hf : f ≤ 100) (hb : b ≤ 10) (hl : l ≤ 10)
    (hd : d ≤ 20) (h1 : f * 2 ^ 54 ≤ emaKstSumNat e k)
    (h2 : emaKstSumNat e k + 2 ^ 10 ≤ (f + 1) * 2 ^ 54) :
    weightedSumNat e k b l d / 2 ^ 54 = f + b + l + d := by
  unfold weightedSumNat
  obtain ⟨a1, a2⟩ := addInt_inside (emaKstSumNat e k) f b (2 ^ 10) (by omega) (by norm_num) h1 h2
  obtain ⟨b1, b2⟩ := addInt_inside _ (f + b) l (2 ^ 10 - 2 ^ 8) (by omega) (by norm_num) a1 a2
  obtain ⟨c1, c2⟩ := addInt_inside _ (f + b + l) d (2 ^ 10 - 2 ^ 8 - 2 ^ 8) (by omega)
    (by norm_num) b1 b2
  generalize roundSig53 (roundSig53 (roundSig53 (emaKstSumNat e k + b * 2 ^ 54) + l * 2 ^ 54) +
    d * 2 ^ 54) = t at c1 c2
  omega

/-- When the first two terms are at most one below an integer, so is the whole sum. -/
theorem weightedSumNat_atInteger (e k b l d f : Nat) (hf : f ≤ 100) (hb : b ≤ 10)
    (hl : l ≤ 10) (hd : d ≤ 20) (h1 : emaKstSumNat e k ≤ f * 2 ^ 54)
    (h2 : f * 2 ^ 54 ≤ emaKstSumNat e k + 2 ^ 54) :
    weightedSumNat e k b l d / 2 ^ 54 = f + b + l + d ∨
    weightedSumNat e k b l d / 2 ^ 54 + 1 = f + b + l + d := by
  unfold weightedSumNat
  obtain ⟨a1, a2⟩ := addInt_atInteger (emaKstSumNat e k) f b (by omega) h1 h2
  obtain ⟨b1, b2⟩ := addInt_atInteger _ (f + b) l (by omega) a1 a2
  obtain ⟨c1, c2⟩ := addInt_atInteger _ (f + b + l) d (by omega) b1 b2
  generalize roundSig53 (roundSig53 (roundSig53 (emaKstSumNat e k + b * 2 ^ 54) + l * 2 ^ 54) +
    d * 2 ^ 54) = t at c1 c2
  omega

/-- Integer part of the binary64 weighted sum: the integer part of the exact sum, or one less
when the exact value of the first two terms is an integer. -/
theorem weightedSumNat_div (e k b l d : Nat) (he : e ≤ 100) (hk : k ≤ 100) (hb : b ≤ 10)
    (hl : l ≤ 10) (hd : d ≤ 20) :
    weightedSumNat e k b l d / 2 ^ 54 = (3 * e + 3 * k) / 10 + b + l + d ∨
    ((3 * e + 3 * k) % 10 = 0 ∧
      weightedSumNat e k b l d / 2 ^ 54 + 1 = (3 * e + 3 * k) / 10 + b + l + d) := by
  have hf : (3 * e + 3 * k) / 10 ≤ 100 := by omega
  rcases emaKstSumNat_cell e (by omega) k (by omega) with ⟨h1, h2⟩ | ⟨h0, h1, h2⟩
  · left
    exact weightedSumNat_inside e k b l d _ hf hb hl hd h1 h2
  · rcases weightedSumNat_atInteger e k b l d _ hf hb hl hd h1 h2 with h | h
    · left; exact h
    · right; exact ⟨h0, h⟩

theorem roundBinary64_natCast (n : Nat) : roundBinary64 (n : Int) = (roundSig53 n : Int) := by
  unfold roundBinary64
  simp

/-- The composite score is the integer part of the binary64 weighted sum of the sub-scores. -/
theorem total_eq_weightedSumNat (ta : TradeAnalysis) (before : Bool) (e k b l d : Nat)
    (he : calculateEMAConsistency ta.emaList = e)
    (hk : calculateKSTConsistency ta.kstList = k)
    (hb : calculateBaseStopLossScore ta = b)
    (hl : (calculateLeverStopLossScore ta before).1 = l)
    (hd : calculateDirTrendMatchScore ta = d) :
    (calculateTotalConsistency ta before).1 =
      ((weightedSumNat e k b l d / 2 ^ 54 : Nat) : Int) := by
  simp only [calculateTotalConsistency, he, hk, hb, hl, hd, doubleAdd, doubleMul03, doubleOfInt,
    literal03, doubleToInt, weightedSumNat, emaKstSumNat]
  have e2 : ∀ n : Nat, (n : Int) * 2 ^ 54 = ((n * 2 ^ 54 : Nat) : Int) := by
    intro n; push_cast; rfl
  have e3 : ∀ n : Nat, (n : Int) * 5404319552844595 = ((n * 5404319552844595 : Nat) : Int) := by
    intro n; push_cast; rfl
  simp only [e2, e3, roundBinary64_natCast, ← Nat.cast_add]
  rw [Int.tdiv_eq_ediv (by positivity) (by positivity)]
  norm_cast

/-! ## The composite score -/

theorem baseStopLossScore_nat (ta : TradeAnalysis) :
    ∃ b : Nat, calculateBaseStopLossScore ta = (b : Int) ∧ b ≤ 10 := by
  unfold calculateBaseStopLossScore
  simp only []
  split_ifs
  · exact ⟨10, rfl, le_refl _⟩
  · exact ⟨5, rfl, by norm_num⟩
  · exact ⟨0, rfl, by norm_num⟩

theorem leverStopLossScore_nat (ta : TradeAnalysis) (before : Bool) :
    ∃ l : Nat, (calculateLeverStopLossScore ta before).1 = (l : Int) ∧ l ≤ 10 := by
  unfold calculateLeverStopLossScore
  simp only []
  split_ifs
  · exact ⟨10, rfl, le_refl _⟩
  · exact ⟨5, rfl, by norm_num⟩
  · exact ⟨0, rfl, by norm_num⟩

theorem dirTrendMatchScore_nat (ta : TradeAnalysis) :
    ∃ d : Nat, calculateDirTrendMatchScore ta = (d : Int) ∧ d ≤ 20 := by
  obtain ⟨h0, h1⟩ := dirTrendMatch_range ta
  exact ⟨(calculateDirTrendMatchScore ta).toNat, by omega, by omega⟩

/-- The composite score against the integer part of the exact weighted sum, for lists of at
most 21474836 readings. -/
theorem total_cases (ta : TradeAnalysis) (before : Bool)
    (hema : ta.emaList.length ≤ 21474836) (hkst : ta.kstList.length ≤ 21474836) :
    (calculateTotalConsistency ta before).1 =
      (3 * calculateEMAConsistency ta.emaList + 3 * calculateKSTConsistency ta.kstList) / 10 +
        calculateBaseStopLossScore ta +
        (calculateLeverStopLossScore ta before).1 + calculateDirTrendMatchScore ta ∨
    ((3 * calculateEMAConsistency ta.emaList + 3 * calculateKSTConsistency ta.kstList) % 10 = 0 ∧
      (calculateTotalConsistency ta before).1 =
        (3 * calculateEMAConsistency ta.emaList + 3 * calculateKSTConsistency ta.kstList) / 10 +
          calculateBaseStopLossScore ta +
          (calculateLeverStopLossScore ta before).1 + calculateDirTrendMatchScore ta - 1) := by
  obtain ⟨e, he, he'⟩ := emaConsistency_nat ta.emaList hema
  obtain ⟨k, hk, hk'⟩ := kstConsistency_nat ta.kstList hkst
  obtain ⟨b, hb, hb'⟩ := baseStopLossScore_nat ta
  obtain ⟨l, hl, hl'⟩ := leverStopLossScore_nat ta before
  obtain ⟨d, hd, hd'⟩ := dirTrendMatchScore_nat ta
  rw [total_eq_weightedSumNat ta before e k b l d he hk hb hl hd, he, hk, hb, hl, hd]
  rcases weightedSumNat_div e k b l d he' hk' hb' hl' hd' with h | ⟨h0, h⟩
  · left
    rw [h]
    omega
  · right
    omega

/-- The composite score when the first two terms lie inside an integer cell. -/
theorem total_of_inside (ta : TradeAnalysis) (before : Bool) (e k : Nat)
    (he : calculateEMAConsistency ta.emaList = e) (hk : calculateKSTConsistency ta.kstList = k)
    (he' : e ≤ 100) (hk' : k ≤ 100)
    (h1 : (3 * e + 3 * k) / 10 * 2 ^ 54 ≤ emaKstSumNat e k)
    (h2 : emaKstSumNat e k + 2 ^ 10 ≤ ((3 * e + 3 * k) / 10 + 1) * 2 ^ 54) :
    (calculateTotalConsistency ta before).1 =
      (3 * calculateEMAConsistency ta.emaList + 3 * calculateKSTConsistency ta.kstList) / 10 +
        calculateBaseStopLossScore ta +
        (calculateLeverStopLossScore ta before).1 + calculateDirTrendMatchScore ta := by
  obtain ⟨b, hb, hb'⟩ := baseStopLossScore_nat ta
  obtain ⟨l, hl, hl'⟩ := leverStopLossScore_nat ta before
  obtain ⟨d, hd, hd'⟩ := dirTrendMatchScore_nat ta
  rw [total_eq_weightedSumNat ta before e k b l d he hk hb hl hd, he, hk, hb, hl, hd,
    weightedSumNat_inside e k b l d _ (by omega) hb' hl' hd' h1 h2]
  omega

/-- Integer part of the exact weighted sum, and when the exact sum is an integer. -/
theorem floor_specWeightedSum (ta : TradeAnalysis) (before : Bool) :
    ⌊specWeightedSum ta before⌋ =
      (3 * calculateEMAConsistency ta.emaList + 3 * calculateKSTConsistency ta.kstList) / 10 +
        calculateBaseStopLossScore ta +
        (calculateLeverStopLossScore ta before).1 + calculateDirTrendMatchScore ta ∧
    ((3 * calculateEMAConsistency ta.emaList + 3 * calculateKSTConsistency ta.kstList) % 10 = 0 →
      ((⌊specWeightedSum ta before⌋ : Int) : ℚ) = specWeightedSum ta before) := by
  generalize hE : calculateEMAConsistency ta.emaList = e
  generalize hK : calculateKSTConsistency ta.kstList = k
  have hdm := Int.ediv_add_emod (3 * e + 3 * k) 10
  have hr0 := Int.emod_nonneg (3 * e + 3 * k) (by norm_num : (10 : Int) ≠ 0)
  have hr := Int.emod_lt_of_pos (3 * e + 3 * k) (by norm_num : (0 : Int) < 10)
  generalize (3 * e + 3 * k) / 10 = q at hdm ⊢
  generalize (3 * e + 3 * k) % 10 = r at hdm hr hr0 ⊢
  have hx : specWeightedSum ta before =
      (q : ℚ) + (r : ℚ) / 10 +
      (calculateBaseStopLossScore ta : ℚ) + ((calculateLeverStopLossScore ta before).1 : ℚ) +
      (calculateDirTrendMatchScore ta : ℚ) := by
    unfold specWeightedSum
    rw [hE, hK]
    have : (3 : ℚ) * e + 3 * k = 10 * q + r := by exact_mod_cast hdm.symm
    linarith
  have hr0' : (0 : ℚ) ≤ (r : ℚ) := by exact_mod_cast hr0
  have hr1 : (r : ℚ) < 10 := by exact_mod_cast hr
  have hfl : ⌊specWeightedSum ta before⌋ =
      (q : Int) + calculateBaseStopLossScore ta +
        (calculateLeverStopLossScore ta before).1 + calculateDirTrendMatchScore ta := by
    rw [Int.floor_eq_iff, hx]
    push_cast
    constructor <;> linarith
  refine ⟨hfl, ?_⟩
  intro h0
  rw [hfl, hx, h0]
  push_cast
  ring

theorem largestGroup_three (a b c : String) :
    largestGroup [a, b, c] = 1 ∨ largestGroup [a, b, c] = 2 ∨ largestGroup [a, b, c] = 3 := by
  have h1 := largestGroup_pos a [b, c]
  have h2 := largestGroup_le_length [a, b, c]
  simp only [List.length_cons, List.length_nil] at h2
  omega

theorem emaConsistency_three (emaList : List EMAData) (h : emaList.length = 3) :
    calculateEMAConsistency emaList = 33 ∨ calculateEMAConsistency emaList = 66 ∨
      calculateEMAConsistency emaList = 100 := by
  match emaList, h with
  | [a, b, c], _ =>
    rw [emaConsistency_eq _ (by simp)]
    simp only [List.map_cons, List.map_nil, List.length_cons, List.length_nil]
    rcases largestGroup_three a.trend b.trend c.trend with h | h | h <;> rw [h] <;> simp

theorem kstConsistency_three (kstList : List KSTData) (h : kstList.length = 3) :
    calculateKSTConsistency kstList = 33 ∨ calculateKSTConsistency kstList = 66 ∨
      calculateKSTConsistency kstList = 100 := by
  match kstList, h with
  | [a, b, c], _ =>
    rw [kstConsistency_eq _ (by simp)]
    simp only [List.map_cons, List.map_nil, List.length_cons, List.length_nil]
    rcases largestGroup_three a.cross b.cross c.cross with h | h | h <;> rw [h] <;> simp

/-- For the consistency scores of three readings the binary64 value of the first two terms
lies inside the integer cell of their exact value. -/
theorem emaKstSumNat_cell_three (e k : Nat) (he : e = 33 ∨ e = 66 ∨ e = 100)
    (hk : k = 33 ∨ k = 66 ∨ k = 100) :
    (3 * e + 3 * k) / 10 * 2 ^ 54 ≤ emaKstSumNat e k ∧
      emaKstSumNat e k + 2 ^ 10 ≤ ((3 * e + 3 * k) / 10 + 1) * 2 ^ 54 := by
  rcases he with rfl | rfl | rfl <;> rcases hk with rfl | rfl | rfl <;> decide

/-! ## Contradiction analysis as a concatenation -/

theorem ite_push {α : Type} (p : Prop) [Decidable p] (c x : List α) :
    (if p then c ++ x else c) = c ++ (if p then x else []) := by
  split_ifs <;> simp

theorem ite_push_three {α : Type} (p : Prop) [Decidable p] (c x y z : List α) :
    (if p then ((c ++ x) ++ y) ++ z else c) = c ++ (if p then (x ++ y) ++ z else []) := by
  split_ifs <;> simp

theorem ite_push_both {α : Type} (p : Prop) [Decidable p] (c x y : List α) :
    (if p then c ++ x else c ++ y) = c ++ (if p then x else y) := by
  split_ifs <;> simp

theorem spanTrend_iff (ta : TradeAnalysis) (ptf : PatternTimeframe) (t : String) :
    ((ptf = PatternTimeframe.LONG ∧ ta.longTrend = t) ∨
      (ptf = PatternTimeframe.MEDIUM ∧ ta.midTrend = t) ∨
      (ptf = PatternTimeframe.SHORT ∧ ta.shortTrend = t)) ↔ spanTrend ta ptf = t := by
  cases ptf <;> simp [spanTrend]

/-- One iteration of the pattern loop appends the findings of its pattern. -/
theorem analyzePatternStep_eq (ta : TradeAnalysis) (c : List String) (pat : PricePattern) :
    analyzePatternStep ta c pat = c ++ specPatternFindings ta pat := by
  unfold analyzePatternStep specPatternFindings
  by_cases hn : pat.name = "无"
  · simp [hn]
  · simp only [hn, if_false, spanTrend_iff, ite_push, ite_push_three, specTrendConflict,
      specConverging, specDiverging]
    simp only [List.append_assoc]

/-- The pattern loop appends the findings of the patterns in list order. -/
theorem foldl_analyzePatternStep (ta : TradeAnalysis) (pats : List PricePattern) :
    ∀ c : List String,
      pats.foldl (analyzePatternStep ta) c = c ++ pats.flatMap (specPatternFindings ta) := by
  induction pats with
  | nil => intro c; simp
  | cons p ps ih =>
    intro c
    rw [List.foldl_cons, ih, analyzePatternStep_eq, List.flatMap_cons, List.append_assoc]

theorem analyzeContradictions_eq (ta : TradeAnalysis) (flag : Bool) :
    analyzeContradictions ta flag =
      specRule1 ta ++ specRule2 ta ++ ta.pricePatterns.flatMap (specPatternFindings ta) ++
        specRule4 ta ++ specRule5 ta ++ specRule6 ta ++ specRule7 ta := by
  unfold analyzeContradictions
  simp only [ite_push, ite_push_both, foldl_analyzePatternStep, specRule1, specRule2,
    specRule4, specRule5, specRule6, specRule7, ge_iff_le, gt_iff_lt, List.nil_append]
  simp only [List.append_assoc]

/-! ## Lists of equal readings beyond the range of `int` -/

theorem emaConsistency_replicate (n : Nat) (r : EMAData) (hn : n < 2147483648) :
    calculateEMAConsistency (List.replicate n r) =
      wrapInt (toSizeT (wrapInt ((n : Int) * 100)) / (n : Int)) := by
  rw [emaConsistency_wrapped _ (by rw [List.length_replicate]; exact hn), List.map_replicate,
    largestGroup_replicate, List.length_replicate]

theorem kstConsistency_replicate (n : Nat) (r : KSTData) (hn : n < 2147483648) :
    calculateKSTConsistency (List.replicate n r) =
      wrapInt (toSizeT (wrapInt ((n : Int) * 100)) / (n : Int)) := by
  rw [kstConsistency_wrapped _ (by rw [List.length_replicate]; exact hn), List.map_replicate,
    largestGroup_replicate, List.length_replicate]

/-- With 21474837 equal readings the product `maxCount * 100` wraps to -2147483596; as a
`size_t` it is divided by the length, and the quotient converts to the `int` -20900. -/
theorem emaConsistency_many :
    calculateEMAConsistency (List.replicate 21474837 risingEma) = -20900 := by
  rw [emaConsistency_replicate _ _ (by norm_num)]
  decide!

theorem kstConsistency_many :
    calculateKSTConsistency (List.replicate 21474837 crossingKst) = -20900 := by
  rw [kstConsistency_replicate _ _ (by norm_num)]
  decide!

/-- The composite score from the values of the five sub-scores. -/
theorem total_of_scores (ta : TradeAnalysis) (before : Bool) (e k b l d : Int)
    (he : calculateEMAConsistency ta.emaList = e) (hk : calculateKSTConsistency ta.kstList = k)
    (hb : calculateBaseStopLossScore ta = b)
    (hl : (calculateLeverStopLossScore ta before).1 = l)
    (hd : calculateDirTrendMatchScore ta = d) :
    (calculateTotalConsistency ta before).1 =
      doubleToInt
        (doubleAdd
          (doubleAdd
            (doubleAdd (doubleAdd (doubleMul03 e) (doubleMul03 k)) (doubleOfInt b))
            (doubleOfInt l))
          (doubleOfInt d)) := by
  simp only [calculateTotalConsistency, he, hk, hb, hl, hd]

/-! # The claims -/

/-! ## Composite score (C1, C2) -/

/-- Claim C1 fails as stated: on a record whose EMA and KST consistency are both 66 and whose other
scores are 10, 10 and 20, the weighted sum is 79.6; the code returns 79, rounding gives 80.
With 21474837 equal EMA readings the EMA score overflows to -20900, the weighted sum is
-6210.2 and the code returns -6210, which is neither the rounded sum nor its integer part
-6211. -/
theorem C1_counterexample :
    ((calculateTotalConsistency mixedReadings false).1 = 79 ∧
      specTotal mixedReadings false = 80 ∧
      (calculateTotalConsistency mixedReadings false).1 ≠ specTotal mixedReadings false) ∧
    (calculateEMAConsistency manyEmaReadings.emaList = -20900 ∧
      (calculateTotalConsistency manyEmaReadings false).1 = -6210 ∧
      ⌊specWeightedSum manyEmaReadings false⌋ = -6211) := by
  have hE : calculateEMAConsistency mixedReadings.emaList = 66 := by decide
  have hK : calculateKSTConsistency mixedReadings.kstList = 66 := by decide
  have hb : calculateBaseStopLossScore mixedReadings = 10 := by decide
  have hl : (calculateLeverStopLossScore mixedReadings false).1 = 10 := by decide
  have hd : calculateDirTrendMatchScore mixedReadings = 20 := by decide
  have ht : (calculateTotalConsistency mixedReadings false).1 = 79 := by decide
  have hs : specTotal mixedReadings false = 80 := by
    unfold specTotal specWeightedSum
    rw [hE, hK, hb, hl, hd, round_eq, Int.floor_eq_iff]
    norm_num
  have hE2 : calculateEMAConsistency manyEmaReadings.emaList = -20900 := emaConsistency_many
  have hK2 : calculateKSTConsistency manyEmaReadings.kstList = 66 := by decide
  have hb2 : calculateBaseStopLossScore manyEmaReadings = 10 := by decide
  have hl2 : (calculateLeverStopLossScore manyEmaReadings false).1 = 10 := by decide
  have hd2 : calculateDirTrendMatchScore manyEmaReadings = 20 := by decide
  refine ⟨⟨ht, hs, ?_⟩, hE2, ?_, ?_⟩
  · rw [ht, hs]
    decide
  · rw [total_of_scores manyEmaReadings false _ _ _ _ _ hE2 hK2 hb2 hl2 hd2]
    decide!
  · rw [(floor_specWeightedSum manyEmaReadings false).1, hE2, hK2, hb2, hl2, hd2]
    decide

/-- Claim C1 as amended: the composite score is the binary64 weighted sum with its fractional part
discarded, not rounded.  For EMA and KST lists of at most 21474836 readings, with `x` the exact
weighted sum, the score is the integer part of `x`, except that it may be `x - 1` when `x` is an
integer; for three EMA and three KST readings it is always the integer part of `x`. -/
theorem C1_total_truncates (ta : TradeAnalysis) (before : Bool) :
    (ta.emaList.length ≤ 21474836 → ta.kstList.length ≤ 21474836 →
      ((calculateTotalConsistency ta before).1 = ⌊specWeightedSum ta before⌋ ∨
        ((calculateTotalConsistency ta before).1 = ⌊specWeightedSum ta before⌋ - 1 ∧
          ((⌊specWeightedSum ta before⌋ : Int) : ℚ) = specWeightedSum ta before))) ∧
    (ta.emaList.length = 3 → ta.kstList.length = 3 →
      (calculateTotalConsistency ta before).1 = ⌊specWeightedSum ta before⌋) := by
  obtain ⟨hfl, hint⟩ := floor_specWeightedSum ta before
  constructor
  · intro hema hkst
    rcases total_cases ta before hema hkst with h | ⟨h0, h⟩
    · left
      rw [h, hfl]
    · right
      exact ⟨by rw [h, hfl], hint h0⟩
  · intro h3 h3'
    obtain ⟨e, he, he'⟩ := emaConsistency_nat ta.emaList (by omega)
    obtain ⟨k, hk, hk'⟩ := kstConsistency_nat ta.kstList (by omega)
    have h3e := emaConsistency_three _ h3
    have h3k := kstConsistency_three _ h3'
    rw [he] at h3e
    rw [hk] at h3k
    obtain ⟨h1, h2⟩ := emaKstSumNat_cell_three e k (by omega) (by omega)
    rw [total_of_inside ta before e k he hk he' hk' h1 h2, hfl]

/-- Claim C1 (amended) at the record with consistency scores 66 and 66. -/
theorem C1_total_truncates_witness :
    (mixedReadings.emaList.length ≤ 21474836 ∧ mixedReadings.kstList.length ≤ 21474836 ∧
      ((calculateTotalConsistency mixedReadings false).1 =
          ⌊specWeightedSum mixedReadings false⌋ ∨
        ((calculateTotalConsistency mixedReadings false).1 =
            ⌊specWeightedSum mixedReadings false⌋ - 1 ∧
          ((⌊specWeightedSum mixedReadings false⌋ : Int) : ℚ) =
            specWeightedSum mixedReadings false))) ∧
    mixedReadings.emaList.length = 3 ∧ mixedReadings.kstList.length = 3 ∧
    (calculateTotalConsistency mixedReadings false).1 = ⌊specWeightedSum mixedReadings false⌋ :=
  ⟨⟨by decide, by decide, (C1_total_truncates mixedReadings false).1 (by decide) (by decide)⟩,
    rfl, rfl, (C1_total_truncates mixedReadings false).2 rfl rfl⟩

/-- Claim C2 fails as stated: with 21474837 equal EMA readings and as many equal KST readings
both products `maxCount * 100` overflow, both consistency scores are -20900, and the composite
score of the record, whose other scores are 10, 10 and 20, is -12500. -/
theorem C2_counterexample :
    calculateEMAConsistency manyReadings.emaList = -20900 ∧
    calculateKSTConsistency manyReadings.kstList = -20900 ∧
    (calculateTotalConsistency manyReadings false).1 = -12500 ∧
    ¬ (0 ≤ (calculateTotalConsistency manyReadings false).1) := by
  have hE : calculateEMAConsistency manyReadings.emaList = -20900 := emaConsistency_many
  have hK : calculateKSTConsistency manyReadings.kstList = -20900 := kstConsistency_many
  have hb : calculateBaseStopLossScore manyReadings = 10 := by decide
  have hl : (calculateLeverStopLossScore manyReadings false).1 = 10 := by decide
  have hd : calculateDirTrendMatchScore manyReadings = 20 := by decide
  have ht : (calculateTotalConsistency manyReadings false).1 = -12500 := by
    rw [total_of_scores manyReadings false _ _ _ _ _ hE hK hb hl hd]
    decide!
  refine ⟨hE, hK, ht, ?_⟩
  rw [ht]
  decide

/-- Claim C2 as amended: for EMA and KST lists of at most 21474836 readings the composite score
lies in [0, 100], and it is 100 exactly when the EMA and KST consistency are 100, both
stop-loss scores are 10 and the direction/trend score is 20. -/
theorem C2_total_range (ta : TradeAnalysis) (before : Bool)
    (hema : ta.emaList.length ≤ 21474836) (hkst : ta.kstList.length ≤ 21474836) :
    0 ≤ (calculateTotalConsistency ta before).1 ∧
    (calculateTotalConsistency ta before).1 ≤ 100 ∧
    ((calculateTotalConsistency ta before).1 = 100 ↔
      calculateEMAConsistency ta.emaList = 100 ∧ calculateKSTConsistency ta.kstList = 100 ∧
      calculateBaseStopLossScore ta = 10 ∧ (calculateLeverStopLossScore ta before).1 = 10 ∧
      calculateDirTrendMatchScore ta = 20) := by
  obtain ⟨e, he, he'⟩ := emaConsistency_nat ta.emaList hema
  obtain ⟨k, hk, hk'⟩ := kstConsistency_nat ta.kstList hkst
  obtain ⟨b, hb, hb'⟩ := baseStopLossScore_nat ta
  obtain ⟨l, hl, hl'⟩ := leverStopLossScore_nat ta before
  obtain ⟨d, hd, hd'⟩ := dirTrendMatchScore_nat ta
  have hnn : 0 ≤ (calculateTotalConsistency ta before).1 := by
    rw [total_eq_weightedSumNat ta before e k b l d he hk hb hl hd]
    exact Int.natCast_nonneg _
  have hc := total_cases ta before hema hkst
  refine ⟨hnn, ?_, ?_, ?_⟩
  · rw [he, hk, hb, hl, hd] at hc
    omega
  · intro h
    rw [he, hk, hb, hl, hd] at hc ⊢
    omega
  · rintro ⟨hE, hK, hB, hL, hD⟩
    have e100 : e = 100 := by omega
    have k100 : k = 100 := by omega
    subst e100 k100
    have h1 : (3 * 100 + 3 * 100) / 10 * 2 ^ 54 ≤ emaKstSumNat 100 100 := by decide
    have h2 : emaKstSumNat 100 100 + 2 ^ 10 ≤ ((3 * 100 + 3 * 100) / 10 + 1) * 2 ^ 54 := by
      decide
    rw [total_of_inside ta before 100 100 he hk he' hk' h1 h2, hE, hK, hB, hL, hD]
    norm_num

/-- Claim C2 (amended) at Scenario A, whose lists have three readings. -/
theorem C2_total_range_witness :
    scenarioA.emaList.length ≤ 21474836 ∧ scenarioA.kstList.length ≤ 21474836 ∧
    0 ≤ (calculateTotalConsistency scenarioA false).1 ∧
    (calculateTotalConsistency scenarioA false).1 ≤ 100 :=
  ⟨by decide, by decide,
    (C2_total_range scenarioA false (by decide) (by decide)).1,
    (C2_total_range scenarioA false (by decide) (by decide)).2.1⟩

/-! ## Direction/trend match score (C3, C4, C5) -/

/-- Claim C3: for a record whose open direction is long or short, the direction/trend match score is
`max (base - penalty) 0`, where the match count (at most 3) is the number of the three trends
that agree with the direction, the base score is 0, 5, 15, 20 for 0, 1, 2, 3 matches and the
penalty is 3 at exactly 3 breaks, 8 at exactly 5, 15 from 7 on and 0 otherwise (so 0 at 4 and
at 6); the score lies in [0, 20]. -/
theorem C3_dirTrendMatch_formula (ta : TradeAnalysis)
    (h : ta.openDir = "多" ∨ ta.openDir = "空") :
    specMatchCount ta ≤ 3 ∧
    calculateDirTrendMatchScore ta =
      max (specBaseScore (specMatchCount ta) - specPenalty ta.shortTrendLineBreakTimes) 0 ∧
    specPenalty 4 = 0 ∧ specPenalty 6 = 0 ∧
    0 ≤ calculateDirTrendMatchScore ta ∧ calculateDirTrendMatchScore ta ≤ 20 := by
  refine ⟨?_, dirTrendMatch_eq ta h, by decide, by decide, dirTrendMatch_range ta⟩
  unfold specMatchCount
  split_ifs
  · exact le_trans (List.count_le_length _ _) (by simp)
  · exact le_trans (List.count_le_length _ _) (by simp)
  · omega

/-- Claim C3 at the Scenario A record (long, three matching trends, no breaks): the score is 20. -/
theorem C3_dirTrendMatch_formula_witness :
    (scenarioA.openDir = "多" ∨ scenarioA.openDir = "空") ∧
    calculateDirTrendMatchScore scenarioA =
      max (specBaseScore (specMatchCount scenarioA) -
        specPenalty scenarioA.shortTrendLineBreakTimes) 0 :=
  ⟨Or.inl rfl, (C3_dirTrendMatch_formula scenarioA (Or.inl rfl)).2.1⟩

/-- Claim C4: with all other fields fixed, the direction/trend match score does not increase along
the penalty breakpoints 0, 3, 5, 7 of the break count, and it is the same for all break counts
from 7 on. -/
theorem C4_dirTrendMatch_monotone_breakpoints (ta : TradeAnalysis) (n m : Int)
    (hn : 7 ≤ n) (hm : 7 ≤ m) :
    calculateDirTrendMatchScore { ta with shortTrendLineBreakTimes := 3 } ≤
      calculateDirTrendMatchScore { ta with shortTrendLineBreakTimes := 0 } ∧
    calculateDirTrendMatchScore { ta with shortTrendLineBreakTimes := 5 } ≤
      calculateDirTrendMatchScore { ta with shortTrendLineBreakTimes := 3 } ∧
    calculateDirTrendMatchScore { ta with shortTrendLineBreakTimes := n } ≤
      calculateDirTrendMatchScore { ta with shortTrendLineBreakTimes := 5 } ∧
    calculateDirTrendMatchScore { ta with shortTrendLineBreakTimes := n } =
      calculateDirTrendMatchScore { ta with shortTrendLineBreakTimes := m } := by
  obtain ⟨base, hb, hs⟩ := dirTrendMatch_split ta
  have p0 : specPenalty 0 = 0 := by decide
  have p3 : specPenalty 3 = 3 := by decide
  have p5 : specPenalty 5 = 8 := by decide
  have pn : specPenalty n = 15 := by unfold specPenalty; split_ifs <;> omega
  have pm : specPenalty m = 15 := by unfold specPenalty; split_ifs <;> omega
  rw [hs 0, hs 3, hs 5, hs n, hs m, p0, p3, p5, pn, pm]
  omega

/-- Claim C4 at the Scenario A record with break counts 7 and 9. -/
theorem C4_dirTrendMatch_monotone_breakpoints_witness :
    calculateDirTrendMatchScore { scenarioA with shortTrendLineBreakTimes := 7 } ≤
      calculateDirTrendMatchScore { scenarioA with shortTrendLineBreakTimes := 5 } ∧
    calculateDirTrendMatchScore { scenarioA with shortTrendLineBreakTimes := 7 } =
      calculateDirTrendMatchScore { scenarioA with shortTrendLineBreakTimes := 9 } :=
  (C4_dirTrendMatch_monotone_breakpoints scenarioA 7 9 (by decide) (by decide)).2.2

/-- Claim C5 fails as stated: on the Scenario A record the score is 20 with 4 breaks but 17 with 3,
and 20 with 6 breaks but 12 with 5. -/
theorem C5_counterexample :
    calculateDirTrendMatchScore { scenarioA with shortTrendLineBreakTimes := 4 } = 20 ∧
    calculateDirTrendMatchScore { scenarioA with shortTrendLineBreakTimes := 3 } = 17 ∧
    calculateDirTrendMatchScore { scenarioA with shortTrendLineBreakTimes := 6 } = 20 ∧
    calculateDirTrendMatchScore { scenarioA with shortTrendLineBreakTimes := 5 } = 12 := by
  decide

/-- Claim C5 as amended: break counts 4 and 6 carry no deduction, so the score there equals the score
with 0 breaks and is at least the score at 3, respectively at 5; it coincides with the score at
3 (respectively at 5) exactly when the score without deduction is 0. -/
theorem C5_dirTrendMatch_between_breakpoints (ta : TradeAnalysis) :
    calculateDirTrendMatchScore { ta with shortTrendLineBreakTimes := 4 } =
      calculateDirTrendMatchScore { ta with shortTrendLineBreakTimes := 0 } ∧
    calculateDirTrendMatchScore { ta with shortTrendLineBreakTimes := 6 } =
      calculateDirTrendMatchScore { ta with shortTrendLineBreakTimes := 0 } ∧
    calculateDirTrendMatchScore { ta with shortTrendLineBreakTimes := 3 } ≤
      calculateDirTrendMatchScore { ta with shortTrendLineBreakTimes := 4 } ∧
    calculateDirTrendMatchScore { ta with shortTrendLineBreakTimes := 5 } ≤
      calculateDirTrendMatchScore { ta with shortTrendLineBreakTimes := 6 } ∧
    (calculateDirTrendMatchScore { ta with shortTrendLineBreakTimes := 4 } =
        calculateDirTrendMatchScore { ta with shortTrendLineBreakTimes := 3 } ↔
      calculateDirTrendMatchScore { ta with shortTrendLineBreakTimes := 0 } = 0) ∧
    (calculateDirTrendMatchScore { ta with shortTrendLineBreakTimes := 6 } =
        calculateDirTrendMatchScore { ta with shortTrendLineBreakTimes := 5 } ↔
      calculateDirTrendMatchScore { ta with shortTrendLineBreakTimes := 0 } = 0) := by
  obtain ⟨base, hb, hs⟩ := dirTrendMatch_split ta
  have p0 : specPenalty 0 = 0 := by decide
  have p3 : specPenalty 3 = 3 := by decide
  have p4 : specPenalty 4 = 0 := by decide
  have p5 : specPenalty 5 = 8 := by decide
  have p6 : specPenalty 6 = 0 := by decide
  rw [hs 0, hs 3, hs 4, hs 5, hs 6, p0, p3, p4, p5, p6]
  rcases hb with rfl | rfl | rfl | rfl <;> simp

/-! ## Consistency scores (C6) -/

/-- Claim C6 fails as stated: a list of 21474837 equal EMA readings has `m = n`, so that
`100 * m / n` is 100, but the `int` product `maxCount * 100` overflows and the code returns
-20900. -/
theorem C6_counterexample :
    List.replicate 21474837 risingEma ≠ [] ∧
    100 * largestGroup ((List.replicate 21474837 risingEma).map (fun r => r.trend)) /
      (List.replicate 21474837 risingEma).length = 100 ∧
    calculateEMAConsistency (List.replicate 21474837 risingEma) = -20900 := by
  refine ⟨?_, ?_, emaConsistency_many⟩
  · intro h
    have := congrArg List.length h
    rw [List.length_replicate, List.length_nil] at this
    exact absurd this (by decide)
  · rw [List.map_replicate, largestGroup_replicate, List.length_replicate]

/-- Claim C6 as amended: the EMA consistency of the empty list is 0; for a non-empty list of
length `n` of at most 21474836 it is `100 * m / n` rounded down, `m` being the size of the
largest group of equal trends, hence one of 33, 66, 100 for three readings; the KST
consistency is the EMA consistency of any list of EMA readings that carry the KST cross states
as their trends, whatever the length. -/
theorem C6_consistency_scores :
    calculateEMAConsistency [] = 0 ∧
    (∀ (e : EMAData) (es : List EMAData), (e :: es).length ≤ 21474836 →
      calculateEMAConsistency (e :: es) =
        ((100 * largestGroup ((e :: es).map (fun r => r.trend)) / (e :: es).length : Nat) :
          Int)) ∧
    (∀ a b c : EMAData,
      calculateEMAConsistency [a, b, c] = 33 ∨ calculateEMAConsistency [a, b, c] = 66 ∨
        calculateEMAConsistency [a, b, c] = 100) ∧
    (∀ (kstList : List KSTData) (emaList : List EMAData),
      emaList.map (fun r => r.trend) = kstList.map (fun r => r.cross) →
        calculateKSTConsistency kstList = calculateEMAConsistency emaList) := by
  refine ⟨rfl, ?_, ?_, ?_⟩
  · intro e es hlen
    rw [emaConsistency_eq _ hlen, mul_comm]
  · intro a b c
    exact emaConsistency_three [a, b, c] rfl
  · intro kstList emaList h
    have hlen := congrArg List.length h
    simp only [List.length_map] at hlen
    have e1 := List.foldl_map (fun r : EMAData => r.trend) CountMap.increment emaList []
    have e2 := List.foldl_map (fun r : KSTData => r.cross) CountMap.increment kstList []
    have hemp : emaList.isEmpty = kstList.isEmpty := by
      cases emaList <;> cases kstList <;> simp_all
    unfold calculateKSTConsistency calculateEMAConsistency
    rw [← e1, ← e2, h, hlen, hemp]

/-- Claim C6 (amended) at a list of two EMA readings, and at the KST readings of Scenario A,
each turned into an EMA reading. -/
theorem C6_consistency_scores_witness :
    ([risingEma, risingEma].length ≤ 21474836 ∧
      calculateEMAConsistency [risingEma, risingEma] =
        ((100 * largestGroup ([risingEma, risingEma].map (fun r => r.trend)) /
          [risingEma, risingEma].length : Nat) : Int)) ∧
    calculateKSTConsistency scenarioA.kstList =
      calculateEMAConsistency (scenarioA.kstList.map (emaOfKst 12 false)) :=
  ⟨⟨by decide, C6_consistency_scores.2.1 risingEma [risingEma] (by decide)⟩,
    C6_consistency_scores.2.2.2 scenarioA.kstList (scenarioA.kstList.map (emaOfKst 12 false))
      rfl⟩

/-! ## Stop-loss scores (C7, C8) -/

/-- Claim C7: the base stop-loss score is 10 for a rate in [3, 8] (3 and 8 included), 5 for a rate in
[1, 3) or (8, 10], and 0 otherwise; no other value is returned. -/
theorem C7_baseStopLossScore_bands (ta : TradeAnalysis) :
    (3 ≤ ta.stopLossRate ∧ ta.stopLossRate ≤ 8 → calculateBaseStopLossScore ta = 10) ∧
    ((1 ≤ ta.stopLossRate ∧ ta.stopLossRate < 3) ∨
        (8 < ta.stopLossRate ∧ ta.stopLossRate ≤ 10) → calculateBaseStopLossScore ta = 5) ∧
    (ta.stopLossRate < 1 ∨ 10 < ta.stopLossRate → calculateBaseStopLossScore ta = 0) ∧
    (ta.stopLossRate = 3 → calculateBaseStopLossScore ta = 10) ∧
    (ta.stopLossRate = 8 → calculateBaseStopLossScore ta = 10) ∧
    (calculateBaseStopLossScore ta = 0 ∨ calculateBaseStopLossScore ta = 5 ∨
      calculateBaseStopLossScore ta = 10) := by
  unfold calculateBaseStopLossScore
  refine ⟨?_, ?_, ?_, ?_, ?_, ?_⟩
  · intro h
    simp [h]
  · intro h
    have h1 : ¬(ta.stopLossRate ≥ 3 ∧ ta.stopLossRate ≤ 8) := by
      rintro ⟨a, b⟩
      rcases h with ⟨_, c⟩ | ⟨c, _⟩
      · exact absurd a (not_le.mpr c)
      · exact absurd b (not_le.mpr c)
    simp only [h1, if_false]
    rw [if_pos]
    simpa using h
  · intro h
    have h1 : ¬(ta.stopLossRate ≥ 3 ∧ ta.stopLossRate ≤ 8) := by
      rintro ⟨a, b⟩
      rcases h with c | c <;> linarith
    have h2 : ¬((ta.stopLossRate ≥ 1 ∧ ta.stopLossRate < 3) ∨
        (ta.stopLossRate > 8 ∧ ta.stopLossRate ≤ 10)) := by
      rintro (⟨a, b⟩ | ⟨a, b⟩) <;> rcases h with c | c <;> linarith
    simp only [h1, h2, if_false]
  · intro h
    norm_num [h]
  · intro h
    norm_num [h]
  · simp only []
    split_ifs <;> simp

/-- Claim C7 at the Scenario A record, whose stop-loss rate is 5. -/
theorem C7_baseStopLossScore_bands_witness :
    (3 ≤ scenarioA.stopLossRate ∧ scenarioA.stopLossRate ≤ 8) ∧
    calculateBaseStopLossScore scenarioA = 10 :=
  ⟨by decide, (C7_baseStopLossScore_bands scenarioA).1 (by decide)⟩

/-- Claim C8: the leveraged stop-loss score is (10, no flag) for a risk of at most 40, (5, no flag)
for a risk in (40, 60] and (0, flag) above 60, whatever the flag held before the call; the flag
is set exactly when the score is 0. -/
theorem C8_leverStopLossScore_bands (ta : TradeAnalysis) (before : Bool) :
    (ta.leverStopLossRisk ≤ 40 → calculateLeverStopLossScore ta before = (10, false)) ∧
    (40 < ta.leverStopLossRisk ∧ ta.leverStopLossRisk ≤ 60 →
      calculateLeverStopLossScore ta before = (5, false)) ∧
    (60 < ta.leverStopLossRisk → calculateLeverStopLossScore ta before = (0, true)) ∧
    ((calculateLeverStopLossScore ta before).2 = true ↔
      (calculateLeverStopLossScore ta before).1 = 0) := by
  unfold calculateLeverStopLossScore
  refine ⟨?_, ?_, ?_, ?_⟩
  · intro h
    simp [h]
  · rintro ⟨h1, h2⟩
    simp [not_le.mpr h1, h1, h2]
  · intro h
    have h1 : ¬ ta.leverStopLossRisk ≤ 40 := by linarith
    have h2 : ¬ ta.leverStopLossRisk ≤ 60 := by linarith
    simp [h1, h2]
  · simp only []
    split_ifs <;> simp

/-- Claim C8 at the Scenario A record, whose leveraged risk is 25, with the flag set before. -/
theorem C8_leverStopLossScore_bands_witness :
    scenarioA.leverStopLossRisk ≤ 40 ∧
    calculateLeverStopLossScore scenarioA true = (10, false) :=
  ⟨by decide, (C8_leverStopLossScore_bands scenarioA true).1 (by decide)⟩

/-! ## Order of the findings (C9) -/

/-- Claim C9: the result of the contradiction analysis is the concatenation of the findings of rule 1,
rule 2, the patterns in list order (for each pattern: trend conflict, converging triangle,
diverging triangle), rule 4, rule 5, rule 6 and rule 7; for a pattern list `xs ++ ys` the
findings of the patterns of `xs` come before those of the patterns of `ys`. -/
theorem C9_contradictions_order (ta : TradeAnalysis) (flag : Bool) :
    analyzeContradictions ta flag =
      specRule1 ta ++ specRule2 ta ++ ta.pricePatterns.flatMap (specPatternFindings ta) ++
        specRule4 ta ++ specRule5 ta ++ specRule6 ta ++ specRule7 ta ∧
    (∀ pat : PricePattern, specPatternFindings ta pat =
      if pat.name = "无" then []
      else specTrendConflict ta pat ++ specConverging ta pat ++ specDiverging ta pat) ∧
    (∀ xs ys : List PricePattern, ta.pricePatterns = xs ++ ys →
      analyzeContradictions ta flag =
        specRule1 ta ++ specRule2 ta ++
          (xs.flatMap (specPatternFindings ta) ++ ys.flatMap (specPatternFindings ta)) ++
          specRule4 ta ++ specRule5 ta ++ specRule6 ta ++ specRule7 ta) := by
  refine ⟨analyzeContradictions_eq ta flag, fun pat => rfl, ?_⟩
  intro xs ys h
  rw [analyzeContradictions_eq, h, List.flatMap_append]

/-- Claim C9 at a record with a bearish pattern followed by a diverging triangle: the finding of the
first pattern precedes that of the second, between the rule-2 and rule-4 findings. -/
theorem C9_contradictions_order_witness :
    twoPatterns.pricePatterns = [bearishLong] ++ [divergingDown] ∧
    analyzeContradictions twoPatterns false =
      specRule1 twoPatterns ++ specRule2 twoPatterns ++
        ([bearishLong].flatMap (specPatternFindings twoPatterns) ++
          [divergingDown].flatMap (specPatternFindings twoPatterns)) ++
        specRule4 twoPatterns ++ specRule5 twoPatterns ++ specRule6 twoPatterns ++
        specRule7 twoPatterns :=
  ⟨rfl, (C9_contradictions_order twoPatterns false).2.2 [bearishLong] [divergingDown] rfl⟩

/-! ## Scenario A (C10) -/

theorem largestGroup_replicate_three (s : String) : largestGroup [s, s, s] = 3 := by
  simp [largestGroup]

theorem map_eq_three {α : Type} (l : List α) (f : α → String) (s : String)
    (h : l.length = 3) (hall : ∀ x ∈ l, f x = s) : l.map f = [s, s, s] := by
  match l, h with
  | [a, b, c], _ =>
    simp only [List.map_cons, List.map_nil]
    rw [hall a (by simp), hall b (by simp), hall c (by simp)]

/-- Claim C10 (Scenario A): a long position with three rising trends, no trend-line break, stop-loss
rate 5, leveraged risk 25, three rising EMA readings and three KST readings crossing up scores
100, and the high-risk flag is cleared, whatever the remaining fields and the flag before. -/
theorem C10_scenarioA_total (ta : TradeAnalysis) (before : Bool)
    (hdir : ta.openDir = "多") (hlong : ta.longTrend = "上升") (hmid : ta.midTrend = "上升")
    (hshort : ta.shortTrend = "上升") (hbreak : ta.shortTrendLineBreakTimes = 0)
    (hrate : ta.stopLossRate = 5) (hrisk : ta.leverStopLossRisk = 25)
    (hema : ta.emaList.length = 3 ∧ ∀ e ∈ ta.emaList, e.trend = "上升")
    (hkst : ta.kstList.length = 3 ∧ ∀ k ∈ ta.kstList, k.cross = "向上穿越") :
    calculateTotalConsistency ta before = (100, false) := by
  have hE : calculateEMAConsistency ta.emaList = ((100 : Nat) : Int) := by
    rw [emaConsistency_eq _ (by omega), map_eq_three _ _ _ hema.1 hema.2,
      largestGroup_replicate_three, hema.1]
  have hK : calculateKSTConsistency ta.kstList = ((100 : Nat) : Int) := by
    rw [kstConsistency_eq _ (by omega), map_eq_three _ _ _ hkst.1 hkst.2,
      largestGroup_replicate_three, hkst.1]
  have hb : calculateBaseStopLossScore ta = ((10 : Nat) : Int) := by
    unfold calculateBaseStopLossScore
    rw [hrate]
    norm_num
  have hl : calculateLeverStopLossScore ta before = (10, false) := by
    unfold calculateLeverStopLossScore
    rw [hrisk]
    norm_num
  have hl1 : (calculateLeverStopLossScore ta before).1 = ((10 : Nat) : Int) := by
    rw [hl]; rfl
  have hd : calculateDirTrendMatchScore ta = ((20 : Nat) : Int) := by
    simp [calculateDirTrendMatchScore, hdir, hlong, hmid, hshort, hbreak]
  have h1 : (calculateTotalConsistency ta before).1 = 100 := by
    rw [total_eq_weightedSumNat ta before 100 100 10 10 20 hE hK hb hl1 hd]
    decide
  have h2 : (calculateTotalConsistency ta before).2 = false := by
    show (calculateLeverStopLossScore ta before).2 = false
    rw [hl]
  exact Prod.ext h1 h2

/-- Claim C10 at the Scenario A record, with the flag set before the call. -/
theorem C10_scenarioA_total_witness : calculateTotalConsistency scenarioA true = (100, false) :=
  C10_scenarioA_total scenarioA true rfl rfl rfl rfl rfl rfl rfl
    ⟨rfl, by decide⟩ ⟨rfl, by decide⟩

/-! # Auxiliary lemmas and claims on the contradiction analysis -/

/-! ## Membership in the result of the contradiction analysis -/

theorem patternContribution_eq (ta : TradeAnalysis) (pat : PricePattern) :
    patternContribution ta pat = specPatternFindings ta pat := by
  unfold patternContribution
  rw [analyzePatternStep_eq, List.nil_append]

/-- One iteration of the pattern loop appends the contribution of its pattern. -/
theorem analyzePatternStep_contribution (ta : TradeAnalysis) (c : List String)
    (pat : PricePattern) :
    analyzePatternStep ta c pat = c ++ patternContribution ta pat := by
  rw [patternContribution_eq, analyzePatternStep_eq]

theorem analyzeContradictions_contribution (ta : TradeAnalysis) (flag : Bool) :
    analyzeContradictions ta flag =
      specRule1 ta ++ specRule2 ta ++ ta.pricePatterns.flatMap (patternContribution ta) ++
        specRule4 ta ++ specRule5 ta ++ specRule6 ta ++ specRule7 ta := by
  have h : patternContribution ta = specPatternFindings ta :=
    funext (patternContribution_eq ta)
  rw [h, analyzeContradictions_eq]

theorem mem_analyzeContradictions (ta : TradeAnalysis) (flag : Bool) (x : String) :
    x ∈ analyzeContradictions ta flag ↔
      x ∈ specRule1 ta ∨ x ∈ specRule2 ta ∨
      (∃ p ∈ ta.pricePatterns, x ∈ patternContribution ta p) ∨
      x ∈ specRule4 ta ∨ x ∈ specRule5 ta ∨ x ∈ specRule6 ta ∨ x ∈ specRule7 ta := by
  rw [analyzeContradictions_contribution]
  simp only [List.mem_append, List.mem_flatMap, or_assoc]

theorem spanPrefix_thirdChar (ptf : PatternTimeframe) (s : String) :
    (patternTfToString ptf ++ s).data[2]? = some '（' := by
  cases s
  cases ptf <;> rfl

theorem third_ite (c : Prop) [Decidable c] (l : List String)
    (h : ∀ x ∈ l, x.data[2]? = some '（') :
    ∀ x ∈ (if c then l else []), x.data[2]? = some '（' := by
  split_ifs
  · exact h
  · intro x hx
    simp at hx

theorem third_append (l₁ l₂ : List String) (h₁ : ∀ x ∈ l₁, x.data[2]? = some '（')
    (h₂ : ∀ x ∈ l₂, x.data[2]? = some '（') : ∀ x ∈ l₁ ++ l₂, x.data[2]? = some '（' := by
  intro x hx
  rcases List.mem_append.mp hx with h | h
  · exact h₁ x h
  · exact h₂ x h

theorem third_single (a : String) (h : a.data[2]? = some '（') :
    ∀ x ∈ [a], x.data[2]? = some '（' := by
  intro x hx
  rw [List.mem_singleton.mp hx]
  exact h

/-- Every finding of a pattern starts with the text of its duration class, whose third
character is an opening bracket. -/
theorem patternContribution_thirdChar (ta : TradeAnalysis) (pat : PricePattern) :
    ∀ x ∈ patternContribution ta pat, x.data[2]? = some '（' := by
  rw [patternContribution_eq]
  unfold specPatternFindings specTrendConflict specConverging specDiverging
  have b1 : (msgBullishConflict pat).data[2]? = some '（' := by
    simp only [msgBullishConflict, String.append_assoc]; exact spanPrefix_thirdChar _ _
  have b2 : (msgBearishConflict pat).data[2]? = some '（' := by
    simp only [msgBearishConflict, String.append_assoc]; exact spanPrefix_thirdChar _ _
  by_cases hn : pat.name = "无"
  · rw [if_pos hn]
    intro x hx
    simp at hx
  · rw [if_neg hn]
    refine third_append _ _ (third_append _ _ (third_append _ _ ?_ ?_) ?_) ?_
    · exact third_ite _ _ (third_single _ b1)
    · exact third_ite _ _ (third_single _ b2)
    · refine third_ite _ _ (third_append _ _ (third_append _ _ ?_ ?_) ?_) <;>
        exact third_ite _ _ (third_single _ (spanPrefix_thirdChar _ _))
    · refine third_ite _ _ (third_append _ _ (third_append _ _ ?_ ?_) ?_) <;>
        exact third_ite _ _ (third_single _ (spanPrefix_thirdChar _ _))

theorem not_mem_patterns (ta : TradeAnalysis) (x : String) (h : x.data[2]? ≠ some '（') :
    ¬ ∃ p ∈ ta.pricePatterns, x ∈ patternContribution ta p := by
  rintro ⟨p, _, hp⟩
  exact h (patternContribution_thirdChar ta p x hp)

theorem mem_analyzeContradictions_fixed (ta : TradeAnalysis) (flag : Bool) (x : String)
    (h : x.data[2]? ≠ some '（') :
    x ∈ analyzeContradictions ta flag ↔
      x ∈ specRule1 ta ∨ x ∈ specRule2 ta ∨ x ∈ specRule4 ta ∨ x ∈ specRule5 ta ∨
      x ∈ specRule6 ta ∨ x ∈ specRule7 ta := by
  rw [mem_analyzeContradictions]
  simp only [not_mem_patterns ta x h, false_or]

/-- The ten findings of the rules other than rule 3 are pairwise different texts. -/
theorem fixedFindings_nodup :
    [msgRsiOverbought, msgRsiOversold, msgBreakWeakened, msgBreakInvalidated, msgEmaLow,
      msgKstLow, msgStopTooWide, msgStopTooTight, msgLeverStrong, msgLeverModerate,
      msgNoSupport].Nodup := by
  decide

theorem mem_specRule6 (ta : TradeAnalysis) (x : String) :
    x ∈ specRule6 ta ↔ (60 < ta.leverStopLossRisk ∧ x = msgLeverStrong) ∨
      (¬ 60 < ta.leverStopLossRisk ∧ 40 < ta.leverStopLossRisk ∧ x = msgLeverModerate) := by
  unfold specRule6
  by_cases h1 : 60 < ta.leverStopLossRisk
  · simp [h1]
  · by_cases h2 : 40 < ta.leverStopLossRisk <;> simp [h1, h2]

theorem mem_rsiOverbought (ta : TradeAnalysis) (flag : Bool) :
    msgRsiOverbought ∈ analyzeContradictions ta flag ↔
      (ta.longTrend = "上升" ∨ ta.midTrend = "上升") ∧ ta.rsiLevel = "超买" := by
  rw [mem_analyzeContradictions_fixed ta flag _ (by decide)]
  have d0 : msgRsiOverbought ≠ msgRsiOversold := by decide
  have d1 : msgRsiOverbought ≠ msgBreakWeakened := by decide
  have d2 : msgRsiOverbought ≠ msgBreakInvalidated := by decide
  have d3 : msgRsiOverbought ≠ msgEmaLow := by decide
  have d4 : msgRsiOverbought ≠ msgKstLow := by decide
  have d5 : msgRsiOverbought ≠ msgStopTooWide := by decide
  have d6 : msgRsiOverbought ≠ msgStopTooTight := by decide
  have d7 : msgRsiOverbought ≠ msgLeverStrong := by decide
  have d8 : msgRsiOverbought ≠ msgLeverModerate := by decide
  have d9 : msgRsiOverbought ≠ msgNoSupport := by decide
  simp only [specRule1, specRule2, specRule4, specRule5, specRule7, mem_specRule6,
    List.mem_append, List.mem_ite_nil_right, List.mem_singleton, d0, d1, d2, d3, d4, d5, d6, d7,
    d8, d9,
    and_false, or_false, and_true, false_or]

theorem mem_rsiOversold (ta : TradeAnalysis) (flag : Bool) :
    msgRsiOversold ∈ analyzeContradictions ta flag ↔
      (ta.longTrend = "下降" ∨ ta.midTrend = "下降") ∧ ta.rsiLevel = "超卖" := by
  rw [mem_analyzeContradictions_fixed ta flag _ (by decide)]
  have d0 : msgRsiOversold ≠ msgRsiOverbought := by decide
  have d1 : msgRsiOversold ≠ msgBreakWeakened := by decide
  have d2 : msgRsiOversold ≠ msgBreakInvalidated := by decide
  have d3 : msgRsiOversold ≠ msgEmaLow := by decide
  have d4 : msgRsiOversold ≠ msgKstLow := by decide
  have d5 : msgRsiOversold ≠ msgStopTooWide := by decide
  have d6 : msgRsiOversold ≠ msgStopTooTight := by decide
  have d7 : msgRsiOversold ≠ msgLeverStrong := by decide
  have d8 : msgRsiOversold ≠ msgLeverModerate := by decide
  have d9 : msgRsiOversold ≠ msgNoSupport := by decide
  simp only [specRule1, specRule2, specRule4, specRule5, specRule7, mem_specRule6,
    List.mem_append, List.mem_ite_nil_right, List.mem_singleton, d0, d1, d2, d3, d4, d5, d6, d7,
    d8, d9,
    and_false, or_false, and_true, false_or]

theorem mem_breakWeakened (ta : TradeAnalysis) (flag : Bool) :
    msgBreakWeakened ∈ analyzeContradictions ta flag ↔
      2 ≤ ta.shortTrendLineBreakTimes := by
  rw [mem_analyzeContradictions_fixed ta flag _ (by decide)]
  have d0 : msgBreakWeakened ≠ msgRsiOverbought := by decide
  have d1 : msgBreakWeakened ≠ msgRsiOversold := by decide
  have d2 : msgBreakWeakened ≠ msgBreakInvalidated := by decide
  have d3 : msgBreakWeakened ≠ msgEmaLow := by decide
  have d4 : msgBreakWeakened ≠ msgKstLow := by decide
  have d5 : msgBreakWeakened ≠ msgStopTooWide := by decide
  have d6 : msgBreakWeakened ≠ msgStopTooTight := by decide
  have d7 : msgBreakWeakened ≠ msgLeverStrong := by decide
  have d8 : msgBreakWeakened ≠ msgLeverModerate := by decide
  have d9 : msgBreakWeakened ≠ msgNoSupport := by decide
  simp only [specRule1, specRule2, specRule4, specRule5, specRule7, mem_specRule6,
    List.mem_append, List.mem_ite_nil_right, List.mem_singleton, d0, d1, d2, d3, d4, d5, d6, d7,
    d8, d9,
    and_false, or_false, and_true, false_or]

theorem mem_breakInvalidated (ta : TradeAnalysis) (flag : Bool) :
    msgBreakInvalidated ∈ analyzeContradictions ta flag ↔
      3 ≤ ta.shortTrendLineBreakTimes := by
  rw [mem_analyzeContradictions_fixed ta flag _ (by decide)]
  have d0 : msgBreakInvalidated ≠ msgRsiOverbought := by decide
  have d1 : msgBreakInvalidated ≠ msgRsiOversold := by decide
  have d2 : msgBreakInvalidated ≠ msgBreakWeakened := by decide
  have d3 : msgBreakInvalidated ≠ msgEmaLow := by decide
  have d4 : msgBreakInvalidated ≠ msgKstLow := by decide
  have d5 : msgBreakInvalidated ≠ msgStopTooWide := by decide
  have d6 : msgBreakInvalidated ≠ msgStopTooTight := by decide
  have d7 : msgBreakInvalidated ≠ msgLeverStrong := by decide
  have d8 : msgBreakInvalidated ≠ msgLeverModerate := by decide
  have d9 : msgBreakInvalidated ≠ msgNoSupport := by decide
  simp only [specRule1, specRule2, specRule4, specRule5, specRule7, mem_specRule6,
    List.mem_append, List.mem_ite_nil_right, List.mem_singleton, d0, d1, d2, d3, d4, d5, d6, d7,
    d8, d9,
    and_false, or_false, and_true, false_or]

theorem mem_emaLow (ta : TradeAnalysis) (flag : Bool) :
    msgEmaLow ∈ analyzeContradictions ta flag ↔
      calculateEMAConsistency ta.emaList < 60 := by
  rw [mem_analyzeContradictions_fixed ta flag _ (by decide)]
  have d0 : msgEmaLow ≠ msgRsiOverbought := by decide
  have d1 : msgEmaLow ≠ msgRsiOversold := by decide
  have d2 : msgEmaLow ≠ msgBreakWeakened := by decide
  have d3 : msgEmaLow ≠ msgBreakInvalidated := by decide
  have d4 : msgEmaLow ≠ msgKstLow := by decide
  have d5 : msgEmaLow ≠ msgStopTooWide := by decide
  have d6 : msgEmaLow ≠ msgStopTooTight := by decide
  have d7 : msgEmaLow ≠ msgLeverStrong := by decide
  have d8 : msgEmaLow ≠ msgLeverModerate := by decide
  have d9 : msgEmaLow ≠ msgNoSupport := by decide
  simp only [specRule1, specRule2, specRule4, specRule5, specRule7, mem_specRule6,
    List.mem_append, List.mem_ite_nil_right, List.mem_singleton, d0, d1, d2, d3, d4, d5, d6, d7,
    d8, d9,
    and_false, or_false, and_true, false_or]

theorem mem_kstLow (ta : TradeAnalysis) (flag : Bool) :
    msgKstLow ∈ analyzeContradictions ta flag ↔
      calculateKSTConsistency ta.kstList < 60 := by
  rw [mem_analyzeContradictions_fixed ta flag _ (by decide)]
  have d0 : msgKstLow ≠ msgRsiOverbought := by decide
  have d1 : msgKstLow ≠ msgRsiOversold := by decide
  have d2 : msgKstLow ≠ msgBreakWeakened := by decide
  have d3 : msgKstLow ≠ msgBreakInvalidated := by decide
  have d4 : msgKstLow ≠ msgEmaLow := by decide
  have d5 : msgKstLow ≠ msgStopTooWide := by decide
  have d6 : msgKstLow ≠ msgStopTooTight := by decide
  have d7 : msgKstLow ≠ msgLeverStrong := by decide
  have d8 : msgKstLow ≠ msgLeverModerate := by decide
  have d9 : msgKstLow ≠ msgNoSupport := by decide
  simp only [specRule1, specRule2, specRule4, specRule5, specRule7, mem_specRule6,
    List.mem_append, List.mem_ite_nil_right, List.mem_singleton, d0, d1, d2, d3, d4, d5, d6, d7,
    d8, d9,
    and_false, or_false, and_true, false_or]

theorem mem_stopTooWide (ta : TradeAnalysis) (flag : Bool) :
    msgStopTooWide ∈ analyzeContradictions ta flag ↔
      ta.stopLossRate > 10 := by
  rw [mem_analyzeContradictions_fixed ta flag _ (by decide)]
  have d0 : msgStopTooWide ≠ msgRsiOverbought := by decide
  have d1 : msgStopTooWide ≠ msgRsiOversold := by decide
  have d2 : msgStopTooWide ≠ msgBreakWeakened := by decide
  have d3 : msgStopTooWide ≠ msgBreakInvalidated := by decide
  have d4 : msgStopTooWide ≠ msgEmaLow := by decide
  have d5 : msgStopTooWide ≠ msgKstLow := by decide
  have d6 : msgStopTooWide ≠ msgStopTooTight := by decide
  have d7 : msgStopTooWide ≠ msgLeverStrong := by decide
  have d8 : msgStopTooWide ≠ msgLeverModerate := by decide
  have d9 : msgStopTooWide ≠ msgNoSupport := by decide
  simp only [specRule1, specRule2, specRule4, specRule5, specRule7, mem_specRule6,
    List.mem_append, List.mem_ite_nil_right, List.mem_singleton, d0, d1, d2, d3, d4, d5, d6, d7,
    d8, d9,
    and_false, or_false, and_true, false_or]

theorem mem_stopTooTight (ta : TradeAnalysis) (flag : Bool) :
    msgStopTooTight ∈ analyzeContradictions ta flag ↔
      ta.stopLossRate < 1 := by
  rw [mem_analyzeContradictions_fixed ta flag _ (by decide)]
  have d0 : msgStopTooTight ≠ msgRsiOverbought := by decide
  have d1 : msgStopTooTight ≠ msgRsiOversold := by decide
  have d2 : msgStopTooTight ≠ msgBreakWeakened := by decide
  have d3 : msgStopTooTight ≠ msgBreakInvalidated := by decide
  have d4 : msgStopTooTight ≠ msgEmaLow := by decide
  have d5 : msgStopTooTight ≠ msgKstLow := by decide
  have d6 : msgStopTooTight ≠ msgStopTooWide := by decide
  have d7 : msgStopTooTight ≠ msgLeverStrong := by decide
  have d8 : msgStopTooTight ≠ msgLeverModerate := by decide
  have d9 : msgStopTooTight ≠ msgNoSupport := by decide
  simp only [specRule1, specRule2, specRule4, specRule5, specRule7, mem_specRule6,
    List.mem_append, List.mem_ite_nil_right, List.mem_singleton, d0, d1, d2, d3, d4, d5, d6, d7,
    d8, d9,
    and_false, or_false, and_true, false_or]

theorem mem_leverStrong (ta : TradeAnalysis) (flag : Bool) :
    msgLeverStrong ∈ analyzeContradictions ta flag ↔
      60 < ta.leverStopLossRisk := by
  rw [mem_analyzeContradictions_fixed ta flag _ (by decide)]
  have d0 : msgLeverStrong ≠ msgRsiOverbought := by decide
  have d1 : msgLeverStrong ≠ msgRsiOversold := by decide
  have d2 : msgLeverStrong ≠ msgBreakWeakened := by decide
  have d3 : msgLeverStrong ≠ msgBreakInvalidated := by decide
  have d4 : msgLeverStrong ≠ msgEmaLow := by decide
  have d5 : msgLeverStrong ≠ msgKstLow := by decide
  have d6 : msgLeverStrong ≠ msgStopTooWide := by decide
  have d7 : msgLeverStrong ≠ msgStopTooTight := by decide
  have d8 : msgLeverStrong ≠ msgLeverModerate := by decide
  have d9 : msgLeverStrong ≠ msgNoSupport := by decide
  simp only [specRule1, specRule2, specRule4, specRule5, specRule7, mem_specRule6,
    List.mem_append, List.mem_ite_nil_right, List.mem_singleton, d0, d1, d2, d3, d4, d5, d6, d7,
    d8, d9,
    and_false, or_false, and_true, false_or]

theorem mem_leverModerate (ta : TradeAnalysis) (flag : Bool) :
    msgLeverModerate ∈ analyzeContradictions ta flag ↔
      ¬ 60 < ta.leverStopLossRisk ∧ 40 < ta.leverStopLossRisk := by
  rw [mem_analyzeContradictions_fixed ta flag _ (by decide)]
  have d0 : msgLeverModerate ≠ msgRsiOverbought := by decide
  have d1 : msgLeverModerate ≠ msgRsiOversold := by decide
  have d2 : msgLeverModerate ≠ msgBreakWeakened := by decide
  have d3 : msgLeverModerate ≠ msgBreakInvalidated := by decide
  have d4 : msgLeverModerate ≠ msgEmaLow := by decide
  have d5 : msgLeverModerate ≠ msgKstLow := by decide
  have d6 : msgLeverModerate ≠ msgStopTooWide := by decide
  have d7 : msgLeverModerate ≠ msgStopTooTight := by decide
  have d8 : msgLeverModerate ≠ msgLeverStrong := by decide
  have d9 : msgLeverModerate ≠ msgNoSupport := by decide
  simp only [specRule1, specRule2, specRule4, specRule5, specRule7, mem_specRule6,
    List.mem_append, List.mem_ite_nil_right, List.mem_singleton, d0, d1, d2, d3, d4, d5, d6, d7,
    d8, d9,
    and_false, or_false, and_true, false_or]

theorem mem_noSupport (ta : TradeAnalysis) (flag : Bool) :
    msgNoSupport ∈ analyzeContradictions ta flag ↔
      calculateDirTrendMatchScore ta = 0 := by
  rw [mem_analyzeContradictions_fixed ta flag _ (by decide)]
  have d0 : msgNoSupport ≠ msgRsiOverbought := by decide
  have d1 : msgNoSupport ≠ msgRsiOversold := by decide
  have d2 : msgNoSupport ≠ msgBreakWeakened := by decide
  have d3 : msgNoSupport ≠ msgBreakInvalidated := by decide
  have d4 : msgNoSupport ≠ msgEmaLow := by decide
  have d5 : msgNoSupport ≠ msgKstLow := by decide
  have d6 : msgNoSupport ≠ msgStopTooWide := by decide
  have d7 : msgNoSupport ≠ msgStopTooTight := by decide
  have d8 : msgNoSupport ≠ msgLeverStrong := by decide
  have d9 : msgNoSupport ≠ msgLeverModerate := by decide
  simp only [specRule1, specRule2, specRule4, specRule5, specRule7, mem_specRule6,
    List.mem_append, List.mem_ite_nil_right, List.mem_singleton, d0, d1, d2, d3, d4, d5, d6, d7,
    d8, d9,
    and_false, or_false, and_true, false_or]

/-! ## Scenario A, contradictions (C11) -/

theorem emaConsistency_uniform (emaList : List EMAData) (s : String)
    (h : emaList.length = 3 ∧ ∀ e ∈ emaList, e.trend = s) :
    calculateEMAConsistency emaList = 100 := by
  rw [emaConsistency_eq _ (by omega), map_eq_three _ _ _ h.1 h.2, largestGroup_replicate_three,
    h.1]
  rfl

theorem kstConsistency_uniform (kstList : List KSTData) (s : String)
    (h : kstList.length = 3 ∧ ∀ k ∈ kstList, k.cross = s) :
    calculateKSTConsistency kstList = 100 := by
  rw [kstConsistency_eq _ (by omega), map_eq_three _ _ _ h.1 h.2, largestGroup_replicate_three,
    h.1]
  rfl

/-- Claim C11 fails as stated: the record `overboughtA` meets every condition that Scenario A
lists, and the analysis reports the overbought-RSI finding for it. -/
theorem C11_counterexample :
    overboughtA.openDir = "多" ∧ overboughtA.longTrend = "上升" ∧
    overboughtA.midTrend = "上升" ∧ overboughtA.shortTrend = "上升" ∧
    overboughtA.shortTrendLineBreakTimes = 0 ∧ overboughtA.stopLossRate = 5 ∧
    overboughtA.leverage = 5 ∧ overboughtA.leverStopLossRisk = 25 ∧
    (overboughtA.emaList.length = 3 ∧ ∀ e ∈ overboughtA.emaList, e.trend = "上升") ∧
    (overboughtA.kstList.length = 3 ∧ ∀ k ∈ overboughtA.kstList, k.cross = "向上穿越") ∧
    analyzeContradictions overboughtA false = [msgRsiOverbought] ∧
    analyzeContradictions overboughtA false ≠ [] := by
  refine ⟨rfl, rfl, rfl, rfl, rfl, rfl, rfl, rfl, ⟨rfl, by decide⟩, ⟨rfl, by decide⟩, ?_, ?_⟩
  · decide
  · decide

/-- Claim C11 as amended: for a record that meets the Scenario A conditions, the analysis
returns the empty sequence exactly when, in addition, the RSI level is not overbought and no
pattern of the list contributes a finding; this is the case when the RSI level is not
overbought and the pattern list is empty or holds only the sentinel. -/
theorem C11_scenarioA_contradictions (ta : TradeAnalysis) (flag : Bool)
    (hdir : ta.openDir = "多") (hlong : ta.longTrend = "上升") (hmid : ta.midTrend = "上升")
    (hshort : ta.shortTrend = "上升") (hbreak : ta.shortTrendLineBreakTimes = 0)
    (hrate : ta.stopLossRate = 5) (hlev : ta.leverage = 5) (hrisk : ta.leverStopLossRisk = 25)
    (hema : ta.emaList.length = 3 ∧ ∀ e ∈ ta.emaList, e.trend = "上升")
    (hkst : ta.kstList.length = 3 ∧ ∀ k ∈ ta.kstList, k.cross = "向上穿越") :
    (analyzeContradictions ta flag = [] ↔
      ta.rsiLevel ≠ "超买" ∧ ∀ p ∈ ta.pricePatterns, patternContribution ta p = []) ∧
    (ta.rsiLevel ≠ "超买" → (∀ p ∈ ta.pricePatterns, p.name = "无") →
      analyzeContradictions ta flag = []) := by
  have hE := emaConsistency_uniform ta.emaList _ hema
  have hK := kstConsistency_uniform ta.kstList _ hkst
  have hd : calculateDirTrendMatchScore ta = 20 := by
    simp [calculateDirTrendMatchScore, hdir, hlong, hmid, hshort, hbreak]
  have hne : ("上升" : String) ≠ "下降" := by decide
  have r1 : specRule1 ta = if ta.rsiLevel = "超买" then [msgRsiOverbought] else [] := by
    simp [specRule1, hlong, hmid]
  have r2 : specRule2 ta = [] := by simp [specRule2, hbreak]
  have r4 : specRule4 ta = [] := by simp [specRule4, hE, hK]
  have r5 : specRule5 ta = [] := by
    unfold specRule5; rw [hrate]; norm_num
  have r6 : specRule6 ta = [] := by
    unfold specRule6; rw [hrisk]; norm_num
  have r7 : specRule7 ta = [] := by simp [specRule7, hd]
  have key : analyzeContradictions ta flag = [] ↔
      ta.rsiLevel ≠ "超买" ∧ ∀ p ∈ ta.pricePatterns, patternContribution ta p = [] := by
    rw [analyzeContradictions_contribution, r1, r2, r4, r5, r6, r7]
    simp only [List.append_nil, List.append_eq_nil, List.flatMap_eq_nil_iff]
    by_cases h : ta.rsiLevel = "超买" <;> simp [h]
  refine ⟨key, ?_⟩
  intro h1 h2
  refine key.mpr ⟨h1, ?_⟩
  intro p hp
  rw [patternContribution_eq]
  simp [specPatternFindings, h2 p hp]

/-- Claim C11 (amended) at the Scenario A record, whose RSI level is normal and whose pattern
list is empty. -/
theorem C11_scenarioA_contradictions_witness : analyzeContradictions scenarioA false = [] :=
  (C11_scenarioA_contradictions scenarioA false rfl rfl rfl rfl rfl rfl rfl rfl
    ⟨rfl, by decide⟩ ⟨rfl, by decide⟩).2 (by decide) (by decide)

/-! ## Rule 1 and rule 2 (C12, C13) -/

/-- Claim C12: the result contains the overbought finding exactly when the RSI level is
overbought and the long or the middle trend rises, and the oversold finding exactly when the
RSI level is oversold and the long or the middle trend falls; with an overbought RSI and a
rising long trend the overbought finding is the first element, whatever the other fields are;
the two findings never occur together. -/
theorem C12_rule1_trend_vs_rsi (ta : TradeAnalysis) (flag : Bool) :
    (msgRsiOverbought ∈ analyzeContradictions ta flag ↔
      ta.rsiLevel = "超买" ∧ (ta.longTrend = "上升" ∨ ta.midTrend = "上升")) ∧
    (msgRsiOversold ∈ analyzeContradictions ta flag ↔
      ta.rsiLevel = "超卖" ∧ (ta.longTrend = "下降" ∨ ta.midTrend = "下降")) ∧
    (ta.rsiLevel = "超买" → ta.longTrend = "上升" →
      (analyzeContradictions ta flag).head? = some msgRsiOverbought) ∧
    ¬ (msgRsiOverbought ∈ analyzeContradictions ta flag ∧
      msgRsiOversold ∈ analyzeContradictions ta flag) := by
  refine ⟨?_, ?_, ?_, ?_⟩
  · rw [mem_rsiOverbought]; tauto
  · rw [mem_rsiOversold]; tauto
  · intro h1 h2
    rw [analyzeContradictions_eq]
    simp [specRule1, h1, h2]
  · rw [mem_rsiOverbought, mem_rsiOversold]
    rintro ⟨⟨_, h1⟩, ⟨_, h2⟩⟩
    rw [h1] at h2
    exact absurd h2 (by decide)

/-- Claim C12 at Scenario D: Scenario A with an overbought RSI. -/
theorem C12_rule1_trend_vs_rsi_witness :
    (overboughtA.rsiLevel = "超买" ∧ overboughtA.longTrend = "上升") ∧
    (analyzeContradictions overboughtA true).head? = some msgRsiOverbought :=
  ⟨⟨rfl, rfl⟩, (C12_rule1_trend_vs_rsi overboughtA true).2.2.1 rfl rfl⟩

/-- Claim C13: the result contains the weakened finding exactly when the short-term trend line
was broken at least twice and the invalidated finding exactly when it was broken at least
three times; when the invalidated finding is present the weakened finding stands right before
it, after the rule-1 findings; with exactly two breaks only the weakened finding is present. -/
theorem C13_rule2_breakout_erosion (ta : TradeAnalysis) (flag : Bool) :
    (msgBreakWeakened ∈ analyzeContradictions ta flag ↔ 2 ≤ ta.shortTrendLineBreakTimes) ∧
    (msgBreakInvalidated ∈ analyzeContradictions ta flag ↔ 3 ≤ ta.shortTrendLineBreakTimes) ∧
    (msgBreakInvalidated ∈ analyzeContradictions ta flag →
      msgBreakWeakened ∈ analyzeContradictions ta flag ∧
      ∃ rest : List String, analyzeContradictions ta flag =
        specRule1 ta ++ [msgBreakWeakened, msgBreakInvalidated] ++ rest) ∧
    (ta.shortTrendLineBreakTimes = 2 →
      msgBreakWeakened ∈ analyzeContradictions ta flag ∧
      msgBreakInvalidated ∉ analyzeContradictions ta flag) := by
  refine ⟨mem_breakWeakened ta flag, mem_breakInvalidated ta flag, ?_, ?_⟩
  · intro h
    have h3 := (mem_breakInvalidated ta flag).mp h
    refine ⟨(mem_breakWeakened ta flag).mpr (by omega), ?_⟩
    refine ⟨ta.pricePatterns.flatMap (specPatternFindings ta) ++ specRule4 ta ++
      specRule5 ta ++ specRule6 ta ++ specRule7 ta, ?_⟩
    rw [analyzeContradictions_eq]
    have h2 : 2 ≤ ta.shortTrendLineBreakTimes := by omega
    simp [specRule2, h2, h3]
  · intro h
    rw [mem_breakWeakened, mem_breakInvalidated]
    omega

/-- Claim C13 at Scenario B (7 breaks): both findings are present, one right after the
other. -/
theorem C13_rule2_breakout_erosion_witness :
    msgBreakInvalidated ∈ analyzeContradictions scenarioB false ∧
    msgBreakWeakened ∈ analyzeContradictions scenarioB false ∧
    ∃ rest : List String, analyzeContradictions scenarioB false =
      specRule1 scenarioB ++ [msgBreakWeakened, msgBreakInvalidated] ++ rest :=
  ⟨by decide, (C13_rule2_breakout_erosion scenarioB false).2.2.1 (by decide)⟩

/-! ## Rule 3: the findings of one pattern (C14, C15, C16) -/

theorem mem_of_contribution (ta : TradeAnalysis) (flag : Bool) (p : PricePattern)
    (hp : p ∈ ta.pricePatterns) (x : String) (hx : x ∈ patternContribution ta p) :
    x ∈ analyzeContradictions ta flag := by
  rw [mem_analyzeContradictions]
  exact Or.inr (Or.inr (Or.inl ⟨p, hp, hx⟩))

theorem contribution_diverging (ta : TradeAnalysis) (p : PricePattern)
    (hp : p.name = "三角形（发散）") :
    patternContribution ta p =
      (if ta.longTrend ≠ "横盘" ∧ p.breakDir = TriangleBreakDir.NONE
        then [msgDivNoBreakout p] else []) ++
      (if p.breakDir = TriangleBreakDir.UP ∧ ta.openDir = "空"
        then [msgDivUpVsShort p] else []) ++
      (if p.breakDir = TriangleBreakDir.DOWN ∧ ta.openDir = "多"
        then [msgDivDownVsLong p] else []) := by
  rw [patternContribution_eq]
  have h1 : ("三角形（发散）" : String) ≠ "无" := by decide
  have h2 : ("三角形（发散）" : String) ≠ "头肩底" := by decide
  have h3 : ("三角形（发散）" : String) ≠ "向上旗形" := by decide
  have h4 : ("三角形（发散）" : String) ≠ "双重底" := by decide
  have h5 : ("三角形（发散）" : String) ≠ "头肩顶" := by decide
  have h6 : ("三角形（发散）" : String) ≠ "向下旗形" := by decide
  have h7 : ("三角形（发散）" : String) ≠ "双重顶" := by decide
  have h8 : ("三角形（发散）" : String) ≠ "三角形（收敛）" := by decide
  simp only [specPatternFindings, specTrendConflict, specConverging, specDiverging, hp, h1, h2,
    h3, h4, h5, h6, h7, h8, if_false, if_true, false_or, false_and, List.nil_append,
    List.append_nil]

theorem contribution_converging (ta : TradeAnalysis) (p : PricePattern)
    (hp : p.name = "三角形（收敛）") :
    patternContribution ta p =
      (if ta.longTrend = "横盘" then [msgConvNeedsTrend p] else []) ++
      (if ta.shortTrend = "上升" ∧ p.breakDir = TriangleBreakDir.DOWN
        then [msgConvBrokeDown p] else []) ++
      (if ta.shortTrend = "下降" ∧ p.breakDir = TriangleBreakDir.UP
        then [msgConvBrokeUp p] else []) := by
  rw [patternContribution_eq]
  have h1 : ("三角形（收敛）" : String) ≠ "无" := by decide
  have h2 : ("三角形（收敛）" : String) ≠ "头肩底" := by decide
  have h3 : ("三角形（收敛）" : String) ≠ "向上旗形" := by decide
  have h4 : ("三角形（收敛）" : String) ≠ "双重底" := by decide
  have h5 : ("三角形（收敛）" : String) ≠ "头肩顶" := by decide
  have h6 : ("三角形（收敛）" : String) ≠ "向下旗形" := by decide
  have h7 : ("三角形（收敛）" : String) ≠ "双重顶" := by decide
  have h8 : ("三角形（收敛）" : String) ≠ "三角形（发散）" := by decide
  simp only [specPatternFindings, specTrendConflict, specConverging, specDiverging, hp, h1, h2,
    h3, h4, h5, h6, h7, h8, if_false, if_true, false_or, false_and, List.nil_append,
    List.append_nil]

/-- Claim C14: a diverging triangle contributes, in this order, the no-breakout finding exactly
when the long trend is not sideways and there is no breakout, the conflict-with-short finding
exactly when it broke up and the position is short, and the conflict-with-long finding exactly
when it broke down and the position is long; it contributes at most one finding; with a
breakout up in a short position it contributes exactly the conflict finding, whatever its
duration class and the trends are; the findings it contributes are in the result when the
pattern is in the list. -/
theorem C14_rule3_diverging_triangle (ta : TradeAnalysis) (flag : Bool) (p : PricePattern)
    (hp : p.name = "三角形（发散）") :
    (∀ c : List String, analyzePatternStep ta c p = c ++ patternContribution ta p) ∧
    patternContribution ta p =
      (if ta.longTrend ≠ "横盘" ∧ p.breakDir = TriangleBreakDir.NONE
        then [msgDivNoBreakout p] else []) ++
      (if p.breakDir = TriangleBreakDir.UP ∧ ta.openDir = "空"
        then [msgDivUpVsShort p] else []) ++
      (if p.breakDir = TriangleBreakDir.DOWN ∧ ta.openDir = "多"
        then [msgDivDownVsLong p] else []) ∧
    (patternContribution ta p).length ≤ 1 ∧
    (p.breakDir = TriangleBreakDir.UP → ta.openDir = "空" →
      patternContribution ta p = [msgDivUpVsShort p]) ∧
    (p ∈ ta.pricePatterns → ∀ x ∈ patternContribution ta p,
      x ∈ analyzeContradictions ta flag) := by
  have heq := contribution_diverging ta p hp
  refine ⟨fun c => analyzePatternStep_contribution ta c p, heq, ?_, ?_, ?_⟩
  · rw [heq]
    cases hb : p.breakDir <;> simp <;> split_ifs <;> simp
  · intro h1 h2
    rw [heq]
    simp [h1, h2]
  · intro hmem x hx
    exact mem_of_contribution ta flag p hmem x hx

/-- Claim C14 at Scenario C: a diverging triangle of short duration that broke up, in a short
position. -/
theorem C14_rule3_diverging_triangle_witness :
    divergingUp.name = "三角形（发散）" ∧ scenarioC.openDir = "空" ∧
    divergingUp ∈ scenarioC.pricePatterns ∧
    patternContribution scenarioC divergingUp = [msgDivUpVsShort divergingUp] ∧
    msgDivUpVsShort divergingUp ∈ analyzeContradictions scenarioC false :=
  ⟨rfl, rfl, by decide,
    (C14_rule3_diverging_triangle scenarioC false divergingUp rfl).2.2.2.1 rfl rfl,
    (C14_rule3_diverging_triangle scenarioC false divergingUp rfl).2.2.2.2 (by decide) _
      (by decide)⟩

theorem bullish_ne_bearish (p : PricePattern)
    (h : p.name = "头肩顶" ∨ p.name = "向下旗形" ∨ p.name = "双重顶") :
    msgBullishConflict p ≠ msgBearishConflict p := by
  obtain ⟨name, tf, bd⟩ := p
  simp only at h
  rcases h with rfl | rfl | rfl <;> cases tf <;> cases bd <;> decide

theorem bearish_ne_bullish (p : PricePattern)
    (h : p.name = "头肩底" ∨ p.name = "向上旗形" ∨ p.name = "双重底") :
    msgBearishConflict p ≠ msgBullishConflict p := by
  obtain ⟨name, tf, bd⟩ := p
  simp only at h
  rcases h with rfl | rfl | rfl <;> cases tf <;> cases bd <;> decide

theorem conflict_not_mem_converging (ta : TradeAnalysis) (p : PricePattern) :
    msgBullishConflict p ∉ specConverging ta p ∧ msgBearishConflict p ∉ specConverging ta p := by
  unfold specConverging
  by_cases hn : p.name = "三角形（收敛）"
  · rw [if_pos hn]
    obtain ⟨name, tf, bd⟩ := p
    simp only at hn
    subst hn
    have key : ∀ x ∈ [msgConvNeedsTrend ⟨"三角形（收敛）", tf, bd⟩,
        msgConvBrokeDown ⟨"三角形（收敛）", tf, bd⟩, msgConvBrokeUp ⟨"三角形（收敛）", tf, bd⟩],
        msgBullishConflict ⟨"三角形（收敛）", tf, bd⟩ ≠ x ∧
        msgBearishConflict ⟨"三角形（收敛）", tf, bd⟩ ≠ x := by
      cases tf <;> cases bd <;> decide
    simp only [List.mem_cons, List.mem_singleton, List.not_mem_nil, or_false, forall_eq_or_imp,
      forall_eq] at key
    simp only [List.mem_append, List.mem_ite_nil_right, List.mem_singleton]
    tauto
  · rw [if_neg hn]
    simp

theorem conflict_not_mem_diverging (ta : TradeAnalysis) (p : PricePattern) :
    msgBullishConflict p ∉ specDiverging ta p ∧ msgBearishConflict p ∉ specDiverging ta p := by
  unfold specDiverging
  by_cases hn : p.name = "三角形（发散）"
  · rw [if_pos hn]
    obtain ⟨name, tf, bd⟩ := p
    simp only at hn
    subst hn
    have key : ∀ x ∈ [msgDivNoBreakout ⟨"三角形（发散）", tf, bd⟩,
        msgDivUpVsShort ⟨"三角形（发散）", tf, bd⟩, msgDivDownVsLong ⟨"三角形（发散）", tf, bd⟩],
        msgBullishConflict ⟨"三角形（发散）", tf, bd⟩ ≠ x ∧
        msgBearishConflict ⟨"三角形（发散）", tf, bd⟩ ≠ x := by
      cases tf <;> cases bd <;> decide
    simp only [List.mem_cons, List.mem_singleton, List.not_mem_nil, or_false, forall_eq_or_imp,
      forall_eq] at key
    simp only [List.mem_append, List.mem_ite_nil_right, List.mem_singleton]
    tauto
  · rw [if_neg hn]
    simp

theorem mem_bullishConflict (ta : TradeAnalysis) (p : PricePattern) :
    msgBullishConflict p ∈ patternContribution ta p ↔
      (p.name = "头肩底" ∨ p.name = "向上旗形" ∨ p.name = "双重底") ∧
        spanTrend ta p.tf = "下降" := by
  rw [patternContribution_eq]
  unfold specPatternFindings
  have hc := (conflict_not_mem_converging ta p).1
  have hd := (conflict_not_mem_diverging ta p).1
  by_cases hn : p.name = "无"
  · rw [if_pos hn]
    have : ¬ (p.name = "头肩底" ∨ p.name = "向上旗形" ∨ p.name = "双重底") := by
      rw [hn]; decide
    simp [this]
  · rw [if_neg hn]
    simp only [List.mem_append, hc, hd, or_false, specTrendConflict, List.mem_ite_nil_right,
      List.mem_singleton]
    constructor
    · rintro (⟨h, _⟩ | ⟨⟨h, _⟩, e⟩)
      · exact h
      · exact absurd e (bullish_ne_bearish p h)
    · intro h
      exact Or.inl ⟨h, trivial⟩

theorem mem_bearishConflict (ta : TradeAnalysis) (p : PricePattern) :
    msgBearishConflict p ∈ patternContribution ta p ↔
      (p.name = "头肩顶" ∨ p.name = "向下旗形" ∨ p.name = "双重顶") ∧
        spanTrend ta p.tf = "上升" := by
  rw [patternContribution_eq]
  unfold specPatternFindings
  have hc := (conflict_not_mem_converging ta p).2
  have hd := (conflict_not_mem_diverging ta p).2
  by_cases hn : p.name = "无"
  · rw [if_pos hn]
    have : ¬ (p.name = "头肩顶" ∨ p.name = "向下旗形" ∨ p.name = "双重顶") := by
      rw [hn]; decide
    simp [this]
  · rw [if_neg hn]
    simp only [List.mem_append, hc, hd, or_false, specTrendConflict, List.mem_ite_nil_right,
      List.mem_singleton]
    constructor
    · rintro (⟨⟨h, _⟩, e⟩ | ⟨h, _⟩)
      · exact absurd e (bearish_ne_bullish p h)
      · exact h
    · intro h
      exact Or.inr ⟨h, trivial⟩

/-- The contribution of a pattern that is neither a triangle nor the sentinel reads the record
through the trend of its duration class only. -/
theorem contribution_conflict_only (ta : TradeAnalysis) (p : PricePattern)
    (h : p.name = "头肩底" ∨ p.name = "向上旗形" ∨ p.name = "双重底" ∨
      p.name = "头肩顶" ∨ p.name = "向下旗形" ∨ p.name = "双重顶") :
    patternContribution ta p =
      (if (p.name = "头肩底" ∨ p.name = "向上旗形" ∨ p.name = "双重底") ∧
          spanTrend ta p.tf = "下降" then [msgBullishConflict p] else []) ++
      (if (p.name = "头肩顶" ∨ p.name = "向下旗形" ∨ p.name = "双重顶") ∧
          spanTrend ta p.tf = "上升" then [msgBearishConflict p] else []) := by
  rw [patternContribution_eq]
  have h1 : p.name ≠ "无" := by
    rcases h with h | h | h | h | h | h <;> rw [h] <;> decide
  have h2 : p.name ≠ "三角形（收敛）" := by
    rcases h with h | h | h | h | h | h <;> rw [h] <;> decide
  have h3 : p.name ≠ "三角形（发散）" := by
    rcases h with h | h | h | h | h | h <;> rw [h] <;> decide
  simp only [specPatternFindings, specConverging, specDiverging, specTrendConflict, h1, h2, h3,
    if_false, List.append_nil]

/-- Claim C15: a pattern contributes the bullish-conflict finding exactly when it is a
head-and-shoulders bottom, an up flag or a double bottom and the trend of its duration class
(long, middle or short trend for a long, medium or short pattern) falls; it contributes the
bearish-conflict finding exactly when it is a head-and-shoulders top, a down flag or a double
top and that trend rises; the other two trends have no influence on these findings, and for
these six kinds of pattern no influence on the contribution at all; the contribution is what
the loop iteration appends, and it is part of the result when the pattern is in the list. -/
theorem C15_rule3_trend_conflict (ta : TradeAnalysis) (flag : Bool) (p : PricePattern) :
    (∀ c : List String, analyzePatternStep ta c p = c ++ patternContribution ta p) ∧
    (p ∈ ta.pricePatterns → ∀ x ∈ patternContribution ta p,
      x ∈ analyzeContradictions ta flag) ∧
    (msgBullishConflict p ∈ patternContribution ta p ↔
      (p.name = "头肩底" ∨ p.name = "向上旗形" ∨ p.name = "双重底") ∧
        spanTrend ta p.tf = "下降") ∧
    (msgBearishConflict p ∈ patternContribution ta p ↔
      (p.name = "头肩顶" ∨ p.name = "向下旗形" ∨ p.name = "双重顶") ∧
        spanTrend ta p.tf = "上升") ∧
    (spanTrend ta PatternTimeframe.LONG = ta.longTrend ∧
      spanTrend ta PatternTimeframe.MEDIUM = ta.midTrend ∧
      spanTrend ta PatternTimeframe.SHORT = ta.shortTrend) ∧
    (∀ ta₂ : TradeAnalysis, spanTrend ta₂ p.tf = spanTrend ta p.tf →
      (msgBullishConflict p ∈ patternContribution ta₂ p ↔
        msgBullishConflict p ∈ patternContribution ta p) ∧
      (msgBearishConflict p ∈ patternContribution ta₂ p ↔
        msgBearishConflict p ∈ patternContribution ta p)) ∧
    (p.name = "头肩底" ∨ p.name = "向上旗形" ∨ p.name = "双重底" ∨
        p.name = "头肩顶" ∨ p.name = "向下旗形" ∨ p.name = "双重顶" →
      ∀ ta₂ : TradeAnalysis, spanTrend ta₂ p.tf = spanTrend ta p.tf →
        patternContribution ta₂ p = patternContribution ta p) := by
  refine ⟨fun c => analyzePatternStep_contribution ta c p,
    fun hmem x hx => mem_of_contribution ta flag p hmem x hx,
    mem_bullishConflict ta p, mem_bearishConflict ta p, ⟨rfl, rfl, rfl⟩, ?_, ?_⟩
  · intro ta₂ h
    rw [mem_bullishConflict, mem_bullishConflict, mem_bearishConflict, mem_bearishConflict, h]
    exact ⟨Iff.rfl, Iff.rfl⟩
  · intro hn ta₂ h
    rw [contribution_conflict_only ta p hn, contribution_conflict_only ta₂ p hn, h]

/-- Claim C15 at a head-and-shoulders top of long duration: changing the middle and the short
trend of the record does not change its contribution. -/
theorem C15_rule3_trend_conflict_witness :
    spanTrend { twoPatterns with midTrend := "下降", shortTrend := "横盘" } bearishLong.tf =
      spanTrend twoPatterns bearishLong.tf ∧
    patternContribution { twoPatterns with midTrend := "下降", shortTrend := "横盘" }
      bearishLong = patternContribution twoPatterns bearishLong :=
  ⟨rfl, (C15_rule3_trend_conflict twoPatterns false bearishLong).2.2.2.2.2.2
    (Or.inr (Or.inr (Or.inr (Or.inl rfl))))
    { twoPatterns with midTrend := "下降", shortTrend := "横盘" } rfl⟩
/-- Claim C16: a converging triangle contributes, in this order, the needs-a-trend finding
exactly when the long trend is sideways, the broke-down finding exactly when the short trend
rises and it broke down, and the broke-up finding exactly when the short trend falls and it
broke up.  The conditions read the long and the short trend whatever the duration class of the
pattern is, which only sets the prefix of the texts, and nothing else of the record: two
records with the same long and short trend get the same findings; the findings are in the
result when the pattern is in the list. -/
theorem C16_rule3_converging_triangle (ta : TradeAnalysis) (flag : Bool) (p : PricePattern)
    (hp : p.name = "三角形（收敛）") :
    (∀ c : List String, analyzePatternStep ta c p = c ++ patternContribution ta p) ∧
    patternContribution ta p =
      (if ta.longTrend = "横盘"
        then [patternTfToString p.tf ++
          "「收敛三角形」需依托明确趋势，长期横盘下形态有效性存疑"] else []) ++
      (if ta.shortTrend = "上升" ∧ p.breakDir = TriangleBreakDir.DOWN
        then [patternTfToString p.tf ++
          "「收敛三角形」短期趋势向上，但向下突破下沿，趋势延续性矛盾"] else []) ++
      (if ta.shortTrend = "下降" ∧ p.breakDir = TriangleBreakDir.UP
        then [patternTfToString p.tf ++
          "「收敛三角形」短期趋势向下，但向上突破上沿，趋势延续性矛盾"] else []) ∧
    (∀ ta₂ : TradeAnalysis, ta₂.longTrend = ta.longTrend → ta₂.shortTrend = ta.shortTrend →
      patternContribution ta₂ p = patternContribution ta p) ∧
    (p ∈ ta.pricePatterns → ∀ x ∈ patternContribution ta p,
      x ∈ analyzeContradictions ta flag) := by
  refine ⟨fun c => analyzePatternStep_contribution ta c p, contribution_converging ta p hp,
    ?_, ?_⟩
  · intro ta₂ h1 h2
    rw [contribution_converging ta p hp, contribution_converging ta₂ p hp, h1, h2]
  · intro hmem x hx
    exact mem_of_contribution ta flag p hmem x hx

/-- Claim C16 at a converging triangle of medium duration that broke down while the short
trend rises. -/
theorem C16_rule3_converging_triangle_witness :
    convergingDown.name = "三角形（收敛）" ∧
    patternContribution withConverging convergingDown =
      ["中期（1-4周）「收敛三角形」短期趋势向上，但向下突破下沿，趋势延续性矛盾"] :=
  ⟨rfl, by
    rw [(C16_rule3_converging_triangle withConverging false convergingDown rfl).2.1]
    decide⟩

/-! ## Rules 4 to 7 (C17, C18, C19, C20) -/

theorem largestGroup_ge_count (keys : List String) (k : String) (h : k ∈ keys) :
    keys.count k ≤ largestGroup keys :=
  foldr_max_ge_mem _ _ (List.mem_map.mpr ⟨k, h, rfl⟩)

theorem largestGroup_three_eq_one (x y z : String) :
    largestGroup [x, y, z] * 100 / 3 < 60 ↔ x ≠ y ∧ x ≠ z ∧ y ≠ z := by
  constructor
  · intro h
    have hx := largestGroup_ge_count [x, y, z] x (by simp)
    have hy := largestGroup_ge_count [x, y, z] y (by simp)
    refine ⟨?_, ?_, ?_⟩
    · rintro rfl
      simp only [List.count_cons, List.count_nil, beq_self_eq_true, if_true] at hx
      omega
    · rintro rfl
      simp only [List.count_cons, List.count_nil, beq_self_eq_true, if_true] at hx
      omega
    · rintro rfl
      simp only [List.count_cons, List.count_nil, beq_self_eq_true, if_true] at hy
      omega
  · rintro ⟨h1, h2, h3⟩
    have hle : largestGroup [x, y, z] ≤ 1 := by
      apply foldr_max_le
      intro n hn
      obtain ⟨k, hk, rfl⟩ := List.mem_map.mp hn
      have e1 : (y == x) = false := by simpa using fun e => h1 e.symm
      have e2 : (z == x) = false := by simpa using fun e => h2 e.symm
      have e3 : (z == y) = false := by simpa using fun e => h3 e.symm
      have e4 : (x == y) = false := by simpa using h1
      have e5 : (x == z) = false := by simpa using h2
      have e6 : (y == z) = false := by simpa using h3
      simp only [List.mem_cons, List.mem_singleton, List.not_mem_nil, or_false] at hk
      rcases hk with rfl | rfl | rfl <;>
        simp [List.count_cons, e1, e2, e3, e4, e5, e6]
    omega

theorem emaConsistency_three_lt (a b c : EMAData) :
    calculateEMAConsistency [a, b, c] < 60 ↔
      a.trend ≠ b.trend ∧ a.trend ≠ c.trend ∧ b.trend ≠ c.trend := by
  rw [emaConsistency_eq _ (by simp), ← largestGroup_three_eq_one a.trend b.trend c.trend]
  simp only [List.map_cons, List.map_nil, List.length_cons, List.length_nil]
  norm_cast

theorem kstConsistency_three_lt (a b c : KSTData) :
    calculateKSTConsistency [a, b, c] < 60 ↔
      a.cross ≠ b.cross ∧ a.cross ≠ c.cross ∧ b.cross ≠ c.cross := by
  rw [kstConsistency_eq _ (by simp), ← largestGroup_three_eq_one a.cross b.cross c.cross]
  simp only [List.map_cons, List.map_nil, List.length_cons, List.length_nil]
  norm_cast

/-- Claim C17: the result contains the low-EMA-consistency finding exactly when the EMA
consistency is below 60 and the low-KST-consistency finding exactly when the KST consistency is
below 60; for three readings this is the case exactly when the three trends, respectively the
three cross states, are pairwise different. -/
theorem C17_rule4_low_consistency (ta : TradeAnalysis) (flag : Bool) :
    (msgEmaLow ∈ analyzeContradictions ta flag ↔ calculateEMAConsistency ta.emaList < 60) ∧
    (msgKstLow ∈ analyzeContradictions ta flag ↔ calculateKSTConsistency ta.kstList < 60) ∧
    (∀ a b c : EMAData, ta.emaList = [a, b, c] →
      (msgEmaLow ∈ analyzeContradictions ta flag ↔
        a.trend ≠ b.trend ∧ a.trend ≠ c.trend ∧ b.trend ≠ c.trend)) ∧
    (∀ a b c : KSTData, ta.kstList = [a, b, c] →
      (msgKstLow ∈ analyzeContradictions ta flag ↔
        a.cross ≠ b.cross ∧ a.cross ≠ c.cross ∧ b.cross ≠ c.cross)) := by
  refine ⟨mem_emaLow ta flag, mem_kstLow ta flag, ?_, ?_⟩
  · intro a b c h
    rw [mem_emaLow, h]
    exact emaConsistency_three_lt a b c
  · intro a b c h
    rw [mem_kstLow, h]
    exact kstConsistency_three_lt a b c

/-- Claim C17 at a record with three pairwise different EMA trends. -/
theorem C17_rule4_low_consistency_witness :
    msgEmaLow ∈ analyzeContradictions scatteredReadings false :=
  ((C17_rule4_low_consistency scatteredReadings false).2.2.1 _ _ _ rfl).mpr (by decide)

/-- Claim C18: the result contains the too-wide finding exactly when the stop-loss rate is above
10 and the too-tight finding exactly when it is below 1; the two never occur together; one of
them is present exactly when the base stop-loss score is 0. -/
theorem C18_rule5_stop_loss_rate (ta : TradeAnalysis) (flag : Bool) :
    (msgStopTooWide ∈ analyzeContradictions ta flag ↔ 10 < ta.stopLossRate) ∧
    (msgStopTooTight ∈ analyzeContradictions ta flag ↔ ta.stopLossRate < 1) ∧
    ¬ (msgStopTooWide ∈ analyzeContradictions ta flag ∧
      msgStopTooTight ∈ analyzeContradictions ta flag) ∧
    ((msgStopTooWide ∈ analyzeContradictions ta flag ∨
        msgStopTooTight ∈ analyzeContradictions ta flag) ↔
      calculateBaseStopLossScore ta = 0) := by
  have hw := mem_stopTooWide ta flag
  have ht := mem_stopTooTight ta flag
  refine ⟨hw, ht, ?_, ?_⟩
  · rw [hw, ht]
    rintro ⟨h1, h2⟩
    linarith
  · rw [hw, ht]
    unfold calculateBaseStopLossScore
    simp only []
    constructor
    · intro h
      have h1 : ¬ (ta.stopLossRate ≥ 3 ∧ ta.stopLossRate ≤ 8) := by
        rintro ⟨a, b⟩
        rcases h with c | c <;> linarith
      have h2 : ¬ ((ta.stopLossRate ≥ 1 ∧ ta.stopLossRate < 3) ∨
          (ta.stopLossRate > 8 ∧ ta.stopLossRate ≤ 10)) := by
        rintro (⟨a, b⟩ | ⟨a, b⟩) <;> rcases h with c | c <;> linarith
      rw [if_neg h1, if_neg h2]
    · intro h
      by_contra hc
      have hc1 : ¬ ta.stopLossRate > 10 := fun c => hc (Or.inl c)
      have hc2 : ¬ ta.stopLossRate < 1 := fun c => hc (Or.inr c)
      have a1 : ta.stopLossRate ≤ 10 := not_lt.mp hc1
      have a2 : 1 ≤ ta.stopLossRate := not_lt.mp hc2
      split_ifs at h with g1 g2
      · exact absurd h (by decide)
      · exact absurd h (by decide)
      · apply g2
        by_cases g3 : ta.stopLossRate < 3
        · exact Or.inl ⟨a2, g3⟩
        · by_cases g4 : ta.stopLossRate ≤ 8
          · exact absurd ⟨not_lt.mp g3, g4⟩ g1
          · exact Or.inr ⟨not_le.mp g4, a1⟩

/-- Claim C18 at a record with stop-loss rate 15: the too-wide finding is present and the base
stop-loss score is 0. -/
theorem C18_rule5_stop_loss_rate_witness :
    calculateBaseStopLossScore wideStop = 0 ∧
    (msgStopTooWide ∈ analyzeContradictions wideStop false ∨
      msgStopTooTight ∈ analyzeContradictions wideStop false) :=
  ⟨by decide, (C18_rule5_stop_loss_rate wideStop false).2.2.2.mpr (by decide)⟩

theorem count_ite_single_ne (c : Prop) [Decidable c] (a x : String) (h : x ≠ a) :
    List.count x (if c then [a] else []) = 0 := by
  have h2 : (a == x) = false := by simpa using fun e => h e.symm
  split_ifs <;> simp [List.count_cons, h2]

theorem count_analyzeContradictions_fixed (ta : TradeAnalysis) (flag : Bool) (x : String)
    (h : x.data[2]? ≠ some '（') :
    List.count x (analyzeContradictions ta flag) =
      List.count x (specRule1 ta) + List.count x (specRule2 ta) +
      List.count x (specRule4 ta) + List.count x (specRule5 ta) +
      List.count x (specRule6 ta) + List.count x (specRule7 ta) := by
  rw [analyzeContradictions_contribution]
  simp only [List.count_append]
  have h0 : List.count x (ta.pricePatterns.flatMap (patternContribution ta)) = 0 := by
    rw [List.count_eq_zero, List.mem_flatMap]
    exact not_mem_patterns ta x h
  omega

/-- Number of leveraged-risk findings in the result. -/
theorem count_lever (ta : TradeAnalysis) (flag : Bool) :
    List.count msgLeverStrong (analyzeContradictions ta flag) +
      List.count msgLeverModerate (analyzeContradictions ta flag) =
      if 40 < ta.leverStopLossRisk then 1 else 0 := by
  rw [count_analyzeContradictions_fixed ta flag _ (by decide),
    count_analyzeContradictions_fixed ta flag _ (by decide)]
  have a0 : msgLeverStrong ≠ msgRsiOverbought := by decide
  have a1 : msgLeverStrong ≠ msgRsiOversold := by decide
  have a2 : msgLeverStrong ≠ msgBreakWeakened := by decide
  have a3 : msgLeverStrong ≠ msgBreakInvalidated := by decide
  have a4 : msgLeverStrong ≠ msgEmaLow := by decide
  have a5 : msgLeverStrong ≠ msgKstLow := by decide
  have a6 : msgLeverStrong ≠ msgStopTooWide := by decide
  have a7 : msgLeverStrong ≠ msgStopTooTight := by decide
  have a8 : msgLeverStrong ≠ msgNoSupport := by decide
  have b0 : msgLeverModerate ≠ msgRsiOverbought := by decide
  have b1 : msgLeverModerate ≠ msgRsiOversold := by decide
  have b2 : msgLeverModerate ≠ msgBreakWeakened := by decide
  have b3 : msgLeverModerate ≠ msgBreakInvalidated := by decide
  have b4 : msgLeverModerate ≠ msgEmaLow := by decide
  have b5 : msgLeverModerate ≠ msgKstLow := by decide
  have b6 : msgLeverModerate ≠ msgStopTooWide := by decide
  have b7 : msgLeverModerate ≠ msgStopTooTight := by decide
  have b8 : msgLeverModerate ≠ msgNoSupport := by decide
  have s1 : List.count msgLeverStrong (specRule1 ta) = 0 := by
    simp only [specRule1, List.count_append, count_ite_single_ne _ _ _ a0,
      count_ite_single_ne _ _ _ a1]
  have s2 : List.count msgLeverStrong (specRule2 ta) = 0 := by
    simp only [specRule2, List.count_append, count_ite_single_ne _ _ _ a2,
      count_ite_single_ne _ _ _ a3]
  have s4 : List.count msgLeverStrong (specRule4 ta) = 0 := by
    simp only [specRule4, List.count_append, count_ite_single_ne _ _ _ a4,
      count_ite_single_ne _ _ _ a5]
  have s5 : List.count msgLeverStrong (specRule5 ta) = 0 := by
    simp only [specRule5, List.count_append, count_ite_single_ne _ _ _ a6,
      count_ite_single_ne _ _ _ a7]
  have s7 : List.count msgLeverStrong (specRule7 ta) = 0 := by
    simp only [specRule7, count_ite_single_ne _ _ _ a8]
  have m1 : List.count msgLeverModerate (specRule1 ta) = 0 := by
    simp only [specRule1, List.count_append, count_ite_single_ne _ _ _ b0,
      count_ite_single_ne _ _ _ b1]
  have m2 : List.count msgLeverModerate (specRule2 ta) = 0 := by
    simp only [specRule2, List.count_append, count_ite_single_ne _ _ _ b2,
      count_ite_single_ne _ _ _ b3]
  have m4 : List.count msgLeverModerate (specRule4 ta) = 0 := by
    simp only [specRule4, List.count_append, count_ite_single_ne _ _ _ b4,
      count_ite_single_ne _ _ _ b5]
  have m5 : List.count msgLeverModerate (specRule5 ta) = 0 := by
    simp only [specRule5, List.count_append, count_ite_single_ne _ _ _ b6,
      count_ite_single_ne _ _ _ b7]
  have m7 : List.count msgLeverModerate (specRule7 ta) = 0 := by
    simp only [specRule7, count_ite_single_ne _ _ _ b8]
  have e1 : (msgLeverModerate == msgLeverStrong) = false := by decide
  have e2 : (msgLeverStrong == msgLeverModerate) = false := by decide
  have s6 : List.count msgLeverStrong (specRule6 ta) +
      List.count msgLeverModerate (specRule6 ta) =
      if 40 < ta.leverStopLossRisk then 1 else 0 := by
    unfold specRule6
    by_cases h1 : ta.leverStopLossRisk > 60
    · have h2 : 40 < ta.leverStopLossRisk := by linarith
      simp [h1, h2, List.count_cons, e2]
    · by_cases h2 : ta.leverStopLossRisk > 40
      · simp [h1, h2, List.count_cons, e1]
      · simp [h1, h2]
  rw [s1, s2, s4, s5, s7, m1, m2, m4, m5, m7]
  omega

/-- Claim C19: the result contains exactly one leveraged-risk finding when the leveraged
stop-loss risk is above 40 and none otherwise: the strong one exactly when the risk is above 60,
the moderate one exactly when it is in (40, 60], never both; the strong finding goes with the
leveraged stop-loss score 0 and the high-risk flag, the moderate one with the score 5, no
finding with the score 10. -/
theorem C19_rule6_leveraged_risk (ta : TradeAnalysis) (flag before : Bool) :
    (List.count msgLeverStrong (analyzeContradictions ta flag) +
      List.count msgLeverModerate (analyzeContradictions ta flag) =
      if 40 < ta.leverStopLossRisk then 1 else 0) ∧
    (msgLeverStrong ∈ analyzeContradictions ta flag ↔ 60 < ta.leverStopLossRisk) ∧
    (msgLeverModerate ∈ analyzeContradictions ta flag ↔
      40 < ta.leverStopLossRisk ∧ ta.leverStopLossRisk ≤ 60) ∧
    ¬ (msgLeverStrong ∈ analyzeContradictions ta flag ∧
      msgLeverModerate ∈ analyzeContradictions ta flag) ∧
    (msgLeverStrong ∈ analyzeContradictions ta flag ↔
      calculateLeverStopLossScore ta before = (0, true)) ∧
    (msgLeverModerate ∈ analyzeContradictions ta flag ↔
      (calculateLeverStopLossScore ta before).1 = 5) ∧
    ((msgLeverStrong ∉ analyzeContradictions ta flag ∧
        msgLeverModerate ∉ analyzeContradictions ta flag) ↔
      (calculateLeverStopLossScore ta before).1 = 10) := by
  have hs := mem_leverStrong ta flag
  have hm : msgLeverModerate ∈ analyzeContradictions ta flag ↔
      40 < ta.leverStopLossRisk ∧ ta.leverStopLossRisk ≤ 60 := by
    rw [mem_leverModerate, not_lt]
    tauto
  refine ⟨count_lever ta flag, hs, hm, ?_, ?_, ?_, ?_⟩
  · rw [hs, hm]
    rintro ⟨h1, _, h2⟩
    linarith
  · rw [hs]
    unfold calculateLeverStopLossScore
    simp only []
    by_cases h1 : ta.leverStopLossRisk ≤ 40
    · have : ¬ 60 < ta.leverStopLossRisk := by linarith
      simp [h1, this]
    · by_cases h2 : ta.leverStopLossRisk ≤ 60
      · have : ¬ 60 < ta.leverStopLossRisk := by linarith
        simp [h1, h2, this, not_le.mp h1]
      · simp [h1, h2, not_le.mp h2]
  · rw [hm]
    unfold calculateLeverStopLossScore
    simp only []
    by_cases h1 : ta.leverStopLossRisk ≤ 40
    · have : ¬ 40 < ta.leverStopLossRisk := by linarith
      simp [h1, this]
    · by_cases h2 : ta.leverStopLossRisk ≤ 60
      · simp [h1, h2, not_le.mp h1]
      · simp [h1, h2]
  · rw [hs, hm]
    unfold calculateLeverStopLossScore
    simp only []
    by_cases h1 : ta.leverStopLossRisk ≤ 40
    · have a : ¬ 40 < ta.leverStopLossRisk := by linarith
      have b : ¬ 60 < ta.leverStopLossRisk := by linarith
      simp [h1, a, b]
    · by_cases h2 : ta.leverStopLossRisk ≤ 60
      · simp [h1, h2, not_le.mp h1]
      · simp [h1, h2, not_le.mp h2]

/-- Claim C19 at a record with leveraged risk 75: the strong finding is present, once, and the
leveraged stop-loss score is 0 with the flag set. -/
theorem C19_rule6_leveraged_risk_witness :
    msgLeverStrong ∈ analyzeContradictions wideStop false ∧
    calculateLeverStopLossScore wideStop false = (0, true) :=
  ⟨by decide, (C19_rule6_leveraged_risk wideStop false false).2.2.2.2.1.mp (by decide)⟩

theorem specMatchCount_le (ta : TradeAnalysis) : specMatchCount ta ≤ 3 := by
  unfold specMatchCount
  split_ifs
  · exact le_trans (List.count_le_length _ _) (by simp)
  · exact le_trans (List.count_le_length _ _) (by simp)
  · omega

/-- Claim C20: the result contains the no-support finding exactly when the direction/trend match
score is 0, and then it is the last element; for a long or short record this is the case
exactly when no trend agrees with the direction, or one agrees and the break count is 5 or at
least 7, or two agree and the break count is at least 7, and never when all three agree. -/
theorem C20_rule7_no_support (ta : TradeAnalysis) (flag : Bool) :
    (msgNoSupport ∈ analyzeContradictions ta flag ↔ calculateDirTrendMatchScore ta = 0) ∧
    (calculateDirTrendMatchScore ta = 0 →
      (analyzeContradictions ta flag).getLast? = some msgNoSupport) ∧
    (ta.openDir = "多" ∨ ta.openDir = "空" →
      (calculateDirTrendMatchScore ta = 0 ↔
        specMatchCount ta = 0 ∨
        (specMatchCount ta = 1 ∧
          (ta.shortTrendLineBreakTimes = 5 ∨ 7 ≤ ta.shortTrendLineBreakTimes)) ∨
        (specMatchCount ta = 2 ∧ 7 ≤ ta.shortTrendLineBreakTimes))) ∧
    (ta.openDir = "多" ∨ ta.openDir = "空" → specMatchCount ta = 3 →
      calculateDirTrendMatchScore ta ≠ 0) := by
  have key : ta.openDir = "多" ∨ ta.openDir = "空" →
      (calculateDirTrendMatchScore ta = 0 ↔
        specMatchCount ta = 0 ∨
        (specMatchCount ta = 1 ∧
          (ta.shortTrendLineBreakTimes = 5 ∨ 7 ≤ ta.shortTrendLineBreakTimes)) ∨
        (specMatchCount ta = 2 ∧ 7 ≤ ta.shortTrendLineBreakTimes)) := by
    intro h
    rw [dirTrendMatch_eq ta h]
    have hm := specMatchCount_le ta
    generalize specMatchCount ta = m at hm ⊢
    have h0 : specBaseScore 0 = 0 := rfl
    have h1 : specBaseScore 1 = 5 := rfl
    have h2 : specBaseScore 2 = 15 := rfl
    have h3 : specBaseScore 3 = 20 := rfl
    unfold specPenalty
    rcases (by omega : m = 0 ∨ m = 1 ∨ m = 2 ∨ m = 3) with rfl | rfl | rfl | rfl
    · rw [h0]; split_ifs <;> norm_num
    · rw [h1]; split_ifs <;> norm_num <;> omega
    · rw [h2]; split_ifs <;> norm_num <;> omega
    · rw [h3]; split_ifs <;> norm_num
  refine ⟨mem_noSupport ta flag, ?_, key, ?_⟩
  · intro h
    rw [analyzeContradictions_eq]
    simp [specRule7, h]
  · intro h h3 h0
    have := (key h).mp h0
    omega

/-- Claim C20 at Scenario C, a short position against three rising trends: the no-support
finding is the last element of the result. -/
theorem C20_rule7_no_support_witness :
    calculateDirTrendMatchScore scenarioC = 0 ∧
    (analyzeContradictions scenarioC false).getLast? = some msgNoSupport :=
  ⟨by decide, (C20_rule7_no_support scenarioC false).2.1 (by decide)⟩

/-! # Auxiliary lemmas on the binary64 rounding of a rational -/

/-! ## Exponent, rounding to nearest, monotonicity and fixed points -/

theorem pow2_eq (e : ℤ) : pow2 e = (2 : ℚ) ^ e := by
  unfold pow2
  split_ifs with h
  · obtain ⟨n, rfl⟩ := Int.eq_ofNat_of_zero_le h
    simp
  · push_neg at h
    obtain ⟨n, hn⟩ := Int.eq_ofNat_of_zero_le (by omega : 0 ≤ -e)
    have he : e = -(n : ℤ) := by omega
    subst he
    simp

theorem pow2_pos (e : ℤ) : 0 < pow2 e := by
  rw [pow2_eq]; positivity

theorem pow2_le {a b : ℤ} (h : a ≤ b) : pow2 a ≤ pow2 b := by
  rw [pow2_eq, pow2_eq]
  exact zpow_le_zpow_right₀ (by norm_num) h

theorem pow2_add (a b : ℤ) : pow2 (a + b) = pow2 a * pow2 b := by
  rw [pow2_eq, pow2_eq, pow2_eq, zpow_add₀ (by norm_num)]

theorem binadeUp_spec (fuel : Nat) : ∀ (e : ℤ) (a : ℚ),
    e ≤ binadeUp fuel e a ∧ binadeUp fuel e a ≤ e + fuel ∧
    (pow2 e ≤ a → pow2 (binadeUp fuel e a) ≤ a) ∧
    (binadeUp fuel e a < e + fuel → a < pow2 (binadeUp fuel e a + 1)) := by
  induction fuel with
  | zero => intro e a; simp [binadeUp]
  | succ n ih =>
    intro e a
    unfold binadeUp
    split_ifs with h
    · obtain ⟨h1, h2, h3, h4⟩ := ih (e + 1) a
      refine ⟨by omega, by push_cast; omega, fun _ => h3 h, fun hlt => h4 (by push_cast at hlt; omega)⟩
    · refine ⟨le_refl _, by push_cast; omega, fun h0 => h0, fun _ => lt_of_not_le h⟩

theorem binadeDown_spec (fuel : Nat) : ∀ (e : ℤ) (a : ℚ),
    e - fuel ≤ binadeDown fuel e a ∧ binadeDown fuel e a ≤ e ∧
    (a < pow2 (e + 1) → a < pow2 (binadeDown fuel e a + 1)) ∧
    (e - fuel < binadeDown fuel e a → pow2 (binadeDown fuel e a) ≤ a) := by
  induction fuel with
  | zero => intro e a; simp [binadeDown]
  | succ n ih =>
    intro e a
    unfold binadeDown
    split_ifs with h
    · obtain ⟨h1, h2, h3, h4⟩ := ih (e - 1) a
      refine ⟨by push_cast; omega, by omega, fun _ => h3 (by simpa using h),
        fun hlt => h4 (by push_cast at hlt; omega)⟩
    · refine ⟨by push_cast; omega, le_refl _, fun h0 => h0, fun _ => le_of_not_lt h⟩

/-- The exponent found is that of the binade of `a`, within `-1022 .. 1023`. -/
theorem exponentOf_spec (a : ℚ) :
    -1022 ≤ exponentOf a ∧ exponentOf a ≤ 1023 ∧
    (-1022 < exponentOf a → pow2 (exponentOf a) ≤ a) ∧
    (exponentOf a < 1023 → a < pow2 (exponentOf a + 1)) := by
  unfold exponentOf
  split_ifs with h
  · obtain ⟨h1, h2, h3, h4⟩ := binadeUp_spec 1023 0 a
    refine ⟨by omega, by push_cast at h2; omega, fun _ => h3 (by simpa [pow2] using h),
      fun hlt => h4 (by push_cast; omega)⟩
  · obtain ⟨h1, h2, h3, h4⟩ := binadeDown_spec 1021 (-1) a
    push_neg at h
    refine ⟨by push_cast at h1; omega, by omega, fun hlt => h4 (by push_cast; omega),
      fun _ => h3 (by simpa [pow2] using h)⟩

theorem pow2_natAdd (k : ℕ) (e : ℤ) : pow2 ((k : ℤ) + e) = (2 : ℚ) ^ k * pow2 e := by
  rw [pow2_add, pow2_eq (k : ℤ), zpow_natCast]

/-- The rounded integer is within one half of the rational. -/
theorem roundHalfEven_bounds (q : ℚ) :
    (roundHalfEven q : ℚ) - 1 / 2 ≤ q ∧ q ≤ (roundHalfEven q : ℚ) + 1 / 2 := by
  have h1 := Int.floor_le q
  have h2 := Int.lt_floor_add_one q
  unfold roundHalfEven
  split_ifs with a b c <;> push_cast <;> constructor <;> linarith

theorem roundHalfEven_intCast (n : ℤ) : roundHalfEven (n : ℚ) = n := by
  unfold roundHalfEven
  simp

theorem roundHalfEven_mono {x y : ℚ} (h : x ≤ y) : roundHalfEven x ≤ roundHalfEven y := by
  by_contra hc
  push_neg at hc
  have hx := (roundHalfEven_bounds x).1
  have hy := (roundHalfEven_bounds y).2
  have h1 : (roundHalfEven y : ℚ) + 1 ≤ roundHalfEven x := by exact_mod_cast hc
  have hxy : x = y := by linarith
  rw [hxy] at hc
  exact lt_irrefl _ hc

theorem roundMagnitude_nonneg {a : ℚ} (h : 0 ≤ a) : 0 ≤ roundMagnitude a := by
  unfold roundMagnitude
  have hu := pow2_pos (exponentOf a - 52)
  have h0 : (0 : ℤ) ≤ roundHalfEven (a / pow2 (exponentOf a - 52)) := by
    have := roundHalfEven_mono (div_nonneg h hu.le)
    rwa [show (0 : ℚ) = ((0 : ℤ) : ℚ) by norm_num, roundHalfEven_intCast] at this
  have h0q : (0 : ℚ) ≤ (roundHalfEven (a / pow2 (exponentOf a - 52)) : ℚ) := by exact_mod_cast h0
  exact mul_nonneg h0q hu.le

theorem roundAt_le_pow {e : ℤ} {a : ℚ} (h : a < pow2 (e + 1)) :
    (roundHalfEven (a / pow2 (e - 52)) : ℚ) * pow2 (e - 52) ≤ pow2 (e + 1) := by
  have hu := pow2_pos (e - 52)
  have hsplit : pow2 (e + 1) = ((2 ^ 53 : ℤ) : ℚ) * pow2 (e - 52) := by
    rw [show e + 1 = ((53 : ℕ) : ℤ) + (e - 52) by push_cast; ring, pow2_natAdd]
    norm_num
  have h1 : a / pow2 (e - 52) ≤ ((2 ^ 53 : ℤ) : ℚ) := by
    rw [div_le_iff₀ hu, ← hsplit]; exact h.le
  have h2 := roundHalfEven_mono h1
  rw [roundHalfEven_intCast] at h2
  rw [hsplit]
  exact mul_le_mul_of_nonneg_right (by exact_mod_cast h2) hu.le

theorem pow_le_roundAt {e : ℤ} {a : ℚ} (h : pow2 e ≤ a) :
    pow2 e ≤ (roundHalfEven (a / pow2 (e - 52)) : ℚ) * pow2 (e - 52) := by
  have hu := pow2_pos (e - 52)
  have hsplit : pow2 e = ((2 ^ 52 : ℤ) : ℚ) * pow2 (e - 52) := by
    conv_lhs => rw [show e = ((52 : ℕ) : ℤ) + (e - 52) by push_cast; ring, pow2_natAdd]
    norm_num
  have h1 : ((2 ^ 52 : ℤ) : ℚ) ≤ a / pow2 (e - 52) := by
    rw [le_div_iff₀ hu, ← hsplit]; exact h
  have h2 := roundHalfEven_mono h1
  rw [roundHalfEven_intCast] at h2
  rw [hsplit]
  exact mul_le_mul_of_nonneg_right (by exact_mod_cast h2) hu.le

/-- Rounding of magnitudes is monotone, also across binades. -/
theorem roundMagnitude_mono {x y : ℚ} (h : x ≤ y) :
    roundMagnitude x ≤ roundMagnitude y := by
  obtain ⟨x1, x2, x3, x4⟩ := exponentOf_spec x
  obtain ⟨y1, y2, y3, y4⟩ := exponentOf_spec y
  unfold roundMagnitude
  rcases lt_trichotomy (exponentOf x) (exponentOf y) with hlt | heq | hgt
  · have hxu := roundAt_le_pow (x4 (by omega))
    have hyl := pow_le_roundAt (y3 (by omega))
    have hp : pow2 (exponentOf x + 1) ≤ pow2 (exponentOf y) := pow2_le (by omega)
    linarith
  · rw [heq]
    have hu := pow2_pos (exponentOf y - 52)
    have h1 : x / pow2 (exponentOf y - 52) ≤ y / pow2 (exponentOf y - 52) :=
      div_le_div_of_nonneg_right h hu.le
    have h2 := roundHalfEven_mono h1
    exact mul_le_mul_of_nonneg_right (by exact_mod_cast h2) hu.le
  · exfalso
    have ha := x3 (by omega)
    have hb := y4 (by omega)
    have hp : pow2 (exponentOf y + 1) ≤ pow2 (exponentOf x) := pow2_le (by omega)
    linarith

/-- A rounded magnitude is a multiple of its own quantum, hence kept by the rounding. -/
theorem roundMagnitude_fixed (a : ℚ) :
    roundMagnitude (roundMagnitude a) = roundMagnitude a := by
  obtain ⟨a1, a2, a3, a4⟩ := exponentOf_spec a
  obtain ⟨r1, r2, r3, r4⟩ := exponentOf_spec (roundMagnitude a)
  have e1 : roundMagnitude a =
      (roundHalfEven (a / pow2 (exponentOf a - 52)) : ℚ) * pow2 (exponentOf a - 52) := rfl
  -- the rounded magnitude is an integer multiple of its own quantum
  have key : ∃ m : ℤ, roundMagnitude a = (m : ℚ) * pow2 (exponentOf (roundMagnitude a) - 52) := by
    rcases le_or_lt (exponentOf (roundMagnitude a)) (exponentOf a) with hle | hgt
    · obtain ⟨k, hk⟩ := Int.eq_ofNat_of_zero_le (by omega :
        0 ≤ exponentOf a - exponentOf (roundMagnitude a))
      refine ⟨roundHalfEven (a / pow2 (exponentOf a - 52)) * 2 ^ k, ?_⟩
      have hp : pow2 (exponentOf a - 52) =
          (2 : ℚ) ^ k * pow2 (exponentOf (roundMagnitude a) - 52) := by
        rw [show exponentOf a - 52 = (k : ℤ) + (exponentOf (roundMagnitude a) - 52) by omega,
          pow2_natAdd]
      conv_lhs => rw [e1]
      generalize roundHalfEven (a / pow2 (exponentOf a - 52)) = n
      rw [hp]
      push_cast
      ring
    · have hub : roundMagnitude a ≤ pow2 (exponentOf a + 1) := roundAt_le_pow (a4 (by omega))
      have hlb := r3 (by omega)
      have hp : pow2 (exponentOf a + 1) ≤ pow2 (exponentOf (roundMagnitude a)) :=
        pow2_le (by omega)
      have heq : roundMagnitude a = pow2 (exponentOf (roundMagnitude a)) := by linarith
      refine ⟨2 ^ 52, ?_⟩
      conv_lhs => rw [heq]
      generalize exponentOf (roundMagnitude a) = e
      conv_lhs => rw [show e = ((52 : ℕ) : ℤ) + (e - 52) by push_cast; ring, pow2_natAdd]
      norm_num
  obtain ⟨m, hm⟩ := key
  have hu := pow2_pos (exponentOf (roundMagnitude a) - 52)
  conv_lhs => rw [roundMagnitude]
  have : roundMagnitude a / pow2 (exponentOf (roundMagnitude a) - 52) = (m : ℚ) := by
    rw [div_eq_iff hu.ne']; exact hm
  rw [this, roundHalfEven_intCast, ← hm]

theorem roundMagnitude_zero : roundMagnitude 0 = 0 := by
  unfold roundMagnitude
  rw [zero_div, show (0 : ℚ) = ((0 : ℤ) : ℚ) by norm_num, roundHalfEven_intCast]
  simp

theorem binary64_zero : binary64 0 = some 0 := by
  unfold binary64
  rw [abs_zero, roundMagnitude_zero]
  have := pow2_pos 1024
  rw [if_neg (not_le.mpr this)]
  simp

theorem binary64_some {x a : ℚ} (hx : binary64 x = some a) :
    ¬ pow2 1024 ≤ roundMagnitude |x| ∧
      a = if x < 0 then -roundMagnitude |x| else roundMagnitude |x| := by
  unfold binary64 at hx
  by_cases h1 : pow2 1024 ≤ roundMagnitude |x|
  · rw [if_pos h1] at hx; exact absurd hx (by simp)
  · rw [if_neg h1] at hx; exact ⟨h1, (Option.some.inj hx).symm⟩

/-- The binary64 rounding is monotone on the finite results. -/
theorem binary64_mono {x y a b : ℚ} (h : x ≤ y) (hx : binary64 x = some a)
    (hy : binary64 y = some b) : a ≤ b := by
  obtain ⟨-, ea⟩ := binary64_some hx
  obtain ⟨-, eb⟩ := binary64_some hy
  have hx0 := roundMagnitude_nonneg (abs_nonneg x)
  have hy0 := roundMagnitude_nonneg (abs_nonneg y)
  rw [ea, eb]
  by_cases h2 : x < 0 <;> by_cases h4 : y < 0
  · rw [if_pos h2, if_pos h4]
    exact neg_le_neg (roundMagnitude_mono (by rw [abs_of_neg h2, abs_of_neg h4]; linarith))
  · rw [if_pos h2, if_neg h4]; linarith
  · exfalso; linarith
  · rw [if_neg h2, if_neg h4]
    exact roundMagnitude_mono
      (by rw [abs_of_nonneg (not_lt.mp h2), abs_of_nonneg (not_lt.mp h4)]; exact h)

/-- A finite result of the binary64 rounding is a double: rounding keeps it. -/
theorem binary64_fixed {x a : ℚ} (hx : binary64 x = some a) : binary64 a = some a := by
  obtain ⟨h1, ea⟩ := binary64_some hx
  have h0 := roundMagnitude_nonneg (abs_nonneg x)
  have habs : |a| = roundMagnitude |x| := by
    rw [ea]; split_ifs
    · rw [abs_neg, abs_of_nonneg h0]
    · rw [abs_of_nonneg h0]
  unfold binary64
  rw [habs, roundMagnitude_fixed, if_neg h1]
  by_cases ha : a < 0
  · rw [if_pos ha]
    by_cases h2 : x < 0
    · rw [ea, if_pos h2]
    · rw [if_neg h2] at ea; exfalso; linarith
  · rw [if_neg ha]
    by_cases h2 : x < 0
    · rw [if_pos h2] at ea
      have h3 : roundMagnitude |x| = 0 := by linarith
      rw [ea, h3]; simp
    · rw [ea, if_neg h2]

theorem binary64_roundsMonotonically : RoundsMonotonically binary64 :=
  ⟨binary64_zero, fun _ _ _ _ h hx hy => binary64_mono h hx hy, fun _ _ h => binary64_fixed h⟩

theorem andThen_eq_some {α : Type} {x : Option ℚ} {f : ℚ → Option α} {b : α} :
    andThen x f = some b ↔ ∃ a, x = some a ∧ f a = some b := by
  cases x <;> simp [andThen]

/-! ## Doubles: sign symmetry, lower bounds and the gap between two doubles -/

/-- Rounding is symmetric in the sign. -/
theorem binary64_neg (x : ℚ) : binary64 (-x) = (binary64 x).map (fun r => -r) := by
  unfold binary64
  rw [abs_neg]
  by_cases h : pow2 1024 ≤ roundMagnitude |x|
  · rw [if_pos h, if_pos h]; rfl
  · rw [if_neg h, if_neg h]
    simp only [Option.map_some', Option.some.injEq]
    rcases lt_trichotomy x 0 with hx | hx | hx
    · rw [if_neg (by linarith), if_pos hx, neg_neg]
    · subst hx
      simp [roundMagnitude_zero]
    · rw [if_pos (by linarith), if_neg (by linarith)]

/-- The magnitude of a finite result. -/
theorem binary64_abs {x a : ℚ} (hx : binary64 x = some a) :
    |a| = roundMagnitude |x| ∧ roundMagnitude |x| < pow2 1024 := by
  obtain ⟨h1, ea⟩ := binary64_some hx
  have h0 := roundMagnitude_nonneg (abs_nonneg x)
  refine ⟨?_, not_le.mp h1⟩
  rw [ea]
  split_ifs
  · rw [abs_neg, abs_of_nonneg h0]
  · rw [abs_of_nonneg h0]

/-- A magnitude of at least a normal power of two rounds to at least that power. -/
theorem roundMagnitude_ge_pow2 {a : ℚ} {k : ℤ} (hk : -1022 ≤ k) (hk' : k ≤ 1023)
    (h : pow2 k ≤ a) : pow2 k ≤ roundMagnitude a := by
  obtain ⟨a1, a2, a3, a4⟩ := exponentOf_spec a
  have hke : k ≤ exponentOf a := by
    by_contra hc
    push_neg at hc
    have h1 := a4 (by omega)
    have h2 : pow2 (exponentOf a + 1) ≤ pow2 k := pow2_le (by omega)
    linarith
  have hea : pow2 (exponentOf a) ≤ a := by
    rcases lt_or_eq_of_le a1 with h1 | h1
    · exact a3 h1
    · have : exponentOf a = k := by omega
      rw [this]; exact h
  have := pow_le_roundAt hea
  have h2 : pow2 k ≤ pow2 (exponentOf a) := pow2_le hke
  exact le_trans h2 this

/-- A magnitude of at least the smallest positive double rounds to at least that double. -/
theorem roundMagnitude_ge_min {a : ℚ} (h : pow2 (-1074) ≤ a) :
    pow2 (-1074) ≤ roundMagnitude a := by
  obtain ⟨a1, a2, a3, a4⟩ := exponentOf_spec a
  rcases lt_or_eq_of_le a1 with h1 | h1
  · have := pow_le_roundAt (a3 h1)
    have h2 : pow2 (-1074) ≤ pow2 (exponentOf a) := pow2_le (by omega)
    exact le_trans h2 this
  · unfold roundMagnitude
    rw [← h1]
    have hu := pow2_pos (-1074)
    have e1 : (-1022 : ℤ) - 52 = -1074 := by norm_num
    rw [e1]
    have h3 : ((1 : ℤ) : ℚ) ≤ a / pow2 (-1074) := by
      rw [le_div_iff₀ hu]; simpa using h
    have h4 := roundHalfEven_mono h3
    rw [roundHalfEven_intCast] at h4
    have h5 : (1 : ℚ) ≤ (roundHalfEven (a / pow2 (-1074)) : ℚ) := by exact_mod_cast h4
    nlinarith

theorem exponentOf_mono {x y : ℚ} (h : x ≤ y) : exponentOf x ≤ exponentOf y := by
  obtain ⟨x1, x2, x3, x4⟩ := exponentOf_spec x
  obtain ⟨y1, y2, y3, y4⟩ := exponentOf_spec y
  by_contra hc
  push_neg at hc
  have ha := x3 (by omega)
  have hb := y4 (by omega)
  have hp : pow2 (exponentOf y + 1) ≤ pow2 (exponentOf x) := pow2_le (by omega)
  linarith

/-- A non-negative double is an integer multiple of the quantum of its binade and lies below
the end of the binade. -/
theorem double_grid {x : ℚ} (hx : binary64 x = some x) (h0 : 0 ≤ x) :
    (∃ m : ℤ, x = (m : ℚ) * pow2 (exponentOf x - 52)) ∧ x < pow2 (exponentOf x + 1) := by
  obtain ⟨h1, h2⟩ := binary64_abs hx
  rw [abs_of_nonneg h0] at h1 h2
  obtain ⟨a1, a2, a3, a4⟩ := exponentOf_spec x
  refine ⟨⟨roundHalfEven (x / pow2 (exponentOf x - 52)), ?_⟩, ?_⟩
  · conv_lhs => rw [h1]
    rfl
  · rcases lt_or_eq_of_le a2 with h3 | h3
    · exact a4 h3
    · rw [h3]
      rw [← h1] at h2
      exact h2

/-- Two different multiples of quanta differ by at least the smaller quantum. -/
theorem multiples_gap {x y : ℚ} {a b c : ℤ} (mx my : ℤ) (hx : x = (mx : ℚ) * pow2 a)
    (hy : y = (my : ℚ) * pow2 b) (ha : c ≤ a) (hb : c ≤ b) (hne : x ≠ y) :
    pow2 c ≤ |x - y| := by
  obtain ⟨ka, hka⟩ := Int.eq_ofNat_of_zero_le (by omega : 0 ≤ a - c)
  obtain ⟨kb, hkb⟩ := Int.eq_ofNat_of_zero_le (by omega : 0 ≤ b - c)
  have ea : pow2 a = (2 : ℚ) ^ ka * pow2 c := by
    rw [show a = (ka : ℤ) + c by omega, pow2_natAdd]
  have eb : pow2 b = (2 : ℚ) ^ kb * pow2 c := by
    rw [show b = (kb : ℤ) + c by omega, pow2_natAdd]
  have hc := pow2_pos c
  have hd : x - y = ((mx * 2 ^ ka - my * 2 ^ kb : ℤ) : ℚ) * pow2 c := by
    rw [hx, hy, ea, eb]
    push_cast
    ring
  have hN : mx * 2 ^ ka - my * 2 ^ kb ≠ 0 := by
    intro h0
    rw [h0] at hd
    apply hne
    have : x - y = 0 := by rw [hd]; simp
    linarith
  have hN1 : (1 : ℚ) ≤ |((mx * 2 ^ ka - my * 2 ^ kb : ℤ) : ℚ)| := by
    rw [← Int.cast_abs]
    exact_mod_cast Int.one_le_abs hN
  rw [hd, abs_mul, abs_of_pos hc]
  nlinarith

/-- Two different positive doubles differ by at least the smallest positive double and by at
least `2 ^ -54` of either of them. -/
theorem double_gap {x y : ℚ} (hx : binary64 x = some x) (hy : binary64 y = some y)
    (x0 : 0 < x) (y0 : 0 < y) (hne : x ≠ y) :
    pow2 (-1074) ≤ |x - y| ∧ x ≤ |x - y| * pow2 54 := by
  obtain ⟨⟨mx, ex⟩, bx⟩ := double_grid hx x0.le
  obtain ⟨⟨my, ey⟩, bY⟩ := double_grid hy y0.le
  obtain ⟨x1, x2, x3, x4⟩ := exponentOf_spec x
  obtain ⟨y1, y2, y3, y4⟩ := exponentOf_spec y
  constructor
  · have := multiples_gap mx my ex ey (by omega : (-1074 : ℤ) ≤ exponentOf x - 52)
      (by omega : (-1074 : ℤ) ≤ exponentOf y - 52) hne
    exact this
  · have hsplit : pow2 (exponentOf x + 1) = pow2 54 * pow2 (exponentOf x - 53) := by
      rw [← pow2_add]; congr 1; ring
    have hu := pow2_pos (exponentOf x - 53)
    rcases le_or_lt (exponentOf x - 1) (exponentOf y) with hc | hc
    · have := multiples_gap mx my ex ey (by omega : exponentOf x - 53 ≤ exponentOf x - 52)
        (by omega : exponentOf x - 53 ≤ exponentOf y - 52) hne
      have h54 := pow2_pos 54
      calc x ≤ pow2 (exponentOf x + 1) := bx.le
        _ = pow2 (exponentOf x - 53) * pow2 54 := by rw [hsplit]; ring
        _ ≤ |x - y| * pow2 54 := mul_le_mul_of_nonneg_right this h54.le
    · have hxl := x3 (by omega)
      have hyu := y4 (by omega)
      have hp : pow2 (exponentOf y + 1) ≤ pow2 (exponentOf x - 1) := pow2_le (by omega)
      have hhalf : pow2 (exponentOf x) = 2 * pow2 (exponentOf x - 1) := by
        rw [show exponentOf x = ((1 : ℕ) : ℤ) + (exponentOf x - 1) by push_cast; ring,
          pow2_natAdd]
        simp
      have hquart : pow2 (exponentOf x + 1) = 4 * pow2 (exponentOf x - 1) := by
        rw [show exponentOf x + 1 = ((2 : ℕ) : ℤ) + (exponentOf x - 1) by push_cast; ring,
          pow2_natAdd]
        norm_num
      have h1 := pow2_pos (exponentOf x - 1)
      have hdiff : pow2 (exponentOf x - 1) ≤ |x - y| := by
        have : pow2 (exponentOf x - 1) ≤ x - y := by linarith
        exact le_trans this (le_abs_self _)
      have h54 : (4 : ℚ) ≤ pow2 54 := by rw [pow2_eq]; norm_num
      have habs := abs_nonneg (x - y)
      calc x ≤ 4 * pow2 (exponentOf x - 1) := by linarith
        _ ≤ 4 * |x - y| := by linarith
        _ ≤ |x - y| * pow2 54 := by nlinarith

/-! # Claims on the input steps, the report and the calculator -/

/-! ## Lists of the wrong length (C21) -/

theorem emaConsistency_pos (emaList : List EMAData) (h0 : emaList ≠ [])
    (h100 : emaList.length ≤ 100) : 1 ≤ calculateEMAConsistency emaList := by
  rw [emaConsistency_eq _ (by omega)]
  norm_cast
  cases emaList with
  | nil => exact absurd rfl h0
  | cons e es =>
    have h1 := largestGroup_pos e.trend (es.map fun r => r.trend)
    rw [List.map_cons]
    have hlen : 0 < (e :: es).length := by simp
    rw [Nat.le_div_iff_mul_le hlen]
    nlinarith

theorem kstConsistency_pos (kstList : List KSTData) (h0 : kstList ≠ [])
    (h100 : kstList.length ≤ 100) : 1 ≤ calculateKSTConsistency kstList := by
  rw [kstConsistency_eq _ (by omega)]
  norm_cast
  cases kstList with
  | nil => exact absurd rfl h0
  | cons e es =>
    have h1 := largestGroup_pos e.cross (es.map fun r => r.cross)
    rw [List.map_cons]
    have hlen : 0 < (e :: es).length := by simp
    rw [Nat.le_div_iff_mul_le hlen]
    nlinarith

/-- Claim C21 fails as stated: for a list of two EMA readings, and for a list of two KST
readings, the specification asks for an `InvalidPrecondition`, and the code returns the
score 100. -/
theorem C21_counterexample :
    twoEmaReadings ≠ [] ∧ twoEmaReadings.length ≠ 3 ∧
    specCheckedConsistency (twoEmaReadings.map fun r => r.trend) =
      Except.error CoreError.InvalidPrecondition ∧
    calculateEMAConsistency twoEmaReadings = 100 ∧
    twoKstReadings ≠ [] ∧ twoKstReadings.length ≠ 3 ∧
    specCheckedConsistency (twoKstReadings.map fun r => r.cross) =
      Except.error CoreError.InvalidPrecondition ∧
    calculateKSTConsistency twoKstReadings = 100 := by
  refine ⟨by decide, by decide, rfl, by decide, by decide, by decide, rfl, by decide⟩

/-- Claim C21 as amended: for every list of readings, whatever its length, the consistency
functions return a score and signal no error; for a list of at most 21474836 readings the
score is `100 * m / n` rounded down, with `m` the size of the largest group of equal values
and `n` the length, and it is at most 100; the score is 0 for the empty list and at least 1 for
a non-empty list of at most 100 readings. -/
theorem C21_consistency_any_length (emaList : List EMAData) (kstList : List KSTData) :
    (emaList.length ≤ 21474836 →
      calculateEMAConsistency emaList =
        ((100 * largestGroup (emaList.map fun r => r.trend) / emaList.length : Nat) : Int) ∧
      calculateEMAConsistency emaList ≤ 100) ∧
    (emaList = [] → calculateEMAConsistency emaList = 0) ∧
    (emaList ≠ [] → emaList.length ≤ 100 → 1 ≤ calculateEMAConsistency emaList) ∧
    (kstList.length ≤ 21474836 →
      calculateKSTConsistency kstList =
        ((100 * largestGroup (kstList.map fun r => r.cross) / kstList.length : Nat) : Int) ∧
      calculateKSTConsistency kstList ≤ 100) ∧
    (kstList = [] → calculateKSTConsistency kstList = 0) ∧
    (kstList ≠ [] → kstList.length ≤ 100 → 1 ≤ calculateKSTConsistency kstList) := by
  refine ⟨?_, ?_, emaConsistency_pos emaList, ?_, ?_, kstConsistency_pos kstList⟩
  · intro h
    exact ⟨by rw [emaConsistency_eq _ h, mul_comm], emaConsistency_le emaList h⟩
  · intro h; rw [h]; rfl
  · intro h
    exact ⟨by rw [kstConsistency_eq _ h, mul_comm], kstConsistency_le kstList h⟩
  · intro h; rw [h]; rfl

/-- Claim C21 (amended) at a list of two EMA readings and a list of two KST readings. -/
theorem C21_consistency_any_length_witness :
    (twoEmaReadings.length ≤ 21474836 ∧ calculateEMAConsistency twoEmaReadings ≤ 100) ∧
    (twoKstReadings.length ≤ 21474836 ∧ calculateKSTConsistency twoKstReadings ≤ 100) ∧
    1 ≤ calculateEMAConsistency twoEmaReadings ∧ 1 ≤ calculateKSTConsistency twoKstReadings :=
  ⟨⟨by decide, ((C21_consistency_any_length twoEmaReadings twoKstReadings).1 (by decide)).2⟩,
    ⟨by decide,
      ((C21_consistency_any_length twoEmaReadings twoKstReadings).2.2.2.1 (by decide)).2⟩,
    (C21_consistency_any_length twoEmaReadings twoKstReadings).2.2.1 (by decide) (by decide),
    (C21_consistency_any_length twoEmaReadings twoKstReadings).2.2.2.2.2 (by decide)
      (by decide)⟩

/-! ## Names stored by the pattern step (C22) -/

theorem contribution_plain_triangle (ta : TradeAnalysis) (ptf : PatternTimeframe)
    (bd : TriangleBreakDir) : patternContribution ta ⟨"三角形", ptf, bd⟩ = [] := by
  rw [patternContribution_eq]
  have h1 : ("三角形" : String) ≠ "无" := by decide
  have h2 : ("三角形" : String) ≠ "头肩底" := by decide
  have h3 : ("三角形" : String) ≠ "向上旗形" := by decide
  have h4 : ("三角形" : String) ≠ "双重底" := by decide
  have h5 : ("三角形" : String) ≠ "头肩顶" := by decide
  have h6 : ("三角形" : String) ≠ "向下旗形" := by decide
  have h7 : ("三角形" : String) ≠ "双重顶" := by decide
  have h8 : ("三角形" : String) ≠ "三角形（收敛）" := by decide
  have h9 : ("三角形" : String) ≠ "三角形（发散）" := by decide
  simp only [specPatternFindings, specTrendConflict, specConverging, specDiverging, h1, h2,
    h3, h4, h5, h6, h7, h8, h9, if_false, false_or, false_and, List.append_nil]

/-- Claim C22, the code at the two triangle entries: the names stored for the eight menu
entries are the menu texts cut at the bracket, which is the name compared by the analysis for
the six other patterns but the same name `三角形` for both triangles; the analysis applies no
rule to a pattern of that name, so a converging triangle that broke down against a rising short
trend yields no finding when it comes from the pattern step and the broke-down finding when
it carries the name that the analysis compares with. -/
theorem C22_triangle_names_collapse :
    (patternMenu.take 8).map cutAtBracket =
      ["头肩顶", "头肩底", "向上旗形", "向下旗形", "三角形", "三角形", "双重顶", "双重底"] ∧
    (∀ (ptf : PatternTimeframe) (bd : TriangleBreakDir),
      selectPatterns [⟨5, ptf, bd⟩] [] = [⟨"三角形", ptf, bd⟩] ∧
      selectPatterns [⟨6, ptf, bd⟩] [] = [⟨"三角形", ptf, bd⟩]) ∧
    (∀ (ta : TradeAnalysis) (ptf : PatternTimeframe) (bd : TriangleBreakDir),
      patternContribution ta ⟨"三角形", ptf, bd⟩ = []) ∧
    enteredConverging.pricePatterns =
      [⟨"三角形", PatternTimeframe.MEDIUM, TriangleBreakDir.DOWN⟩] ∧
    analyzeContradictions enteredConverging false = [] ∧
    analyzeContradictions withConverging false = [msgConvBrokeDown convergingDown] := by
  refine ⟨by decide, ?_, contribution_plain_triangle, by decide, by decide, by decide⟩
  intro ptf bd
  constructor <;> rfl

/-! ## Records without contradictions (C23) -/

theorem flatMap_sentinels (ta : TradeAnalysis) (pats : List PricePattern)
    (h : ∀ p ∈ pats, p.name = "无") : pats.flatMap (specPatternFindings ta) = [] := by
  rw [List.flatMap_eq_nil_iff]
  intro p hp
  simp [specPatternFindings, h p hp]

/-- Claim C23: a record with a normal RSI level, at most one trend-line break, a pattern list
that is empty or holds only sentinels, EMA and KST consistency of at least 60, a stop-loss rate
in [1, 10], a leveraged risk of at most 40 and a positive direction/trend score has no
contradiction; on every record the pattern list that holds just a sentinel gives the same
result as the empty pattern list. -/
theorem C23_no_contradictions (ta : TradeAnalysis) (flag : Bool) :
    (ta.rsiLevel = "正常" → ta.shortTrendLineBreakTimes ≤ 1 →
      (∀ p ∈ ta.pricePatterns, p.name = "无") →
      60 ≤ calculateEMAConsistency ta.emaList → 60 ≤ calculateKSTConsistency ta.kstList →
      1 ≤ ta.stopLossRate → ta.stopLossRate ≤ 10 → ta.leverStopLossRisk ≤ 40 →
      0 < calculateDirTrendMatchScore ta → analyzeContradictions ta flag = []) ∧
    (∀ (ptf : PatternTimeframe) (bd : TriangleBreakDir),
      analyzeContradictions { ta with pricePatterns := [⟨"无", ptf, bd⟩] } flag =
        analyzeContradictions { ta with pricePatterns := [] } flag) := by
  constructor
  · intro hrsi hbt hpat hE hK hr1 hr2 hrisk hdir
    have n1 : ("正常" : String) ≠ "超买" := by decide
    have n2 : ("正常" : String) ≠ "超卖" := by decide
    have r1 : specRule1 ta = [] := by simp [specRule1, hrsi, n1, n2]
    have r2 : specRule2 ta = [] := by
      have a : ¬ 2 ≤ ta.shortTrendLineBreakTimes := by omega
      have b : ¬ 3 ≤ ta.shortTrendLineBreakTimes := by omega
      simp [specRule2, a, b]
    have r4 : specRule4 ta = [] := by
      have a : ¬ calculateEMAConsistency ta.emaList < 60 := by omega
      have b : ¬ calculateKSTConsistency ta.kstList < 60 := by omega
      simp [specRule4, a, b]
    have r5 : specRule5 ta = [] := by
      have a : ¬ ta.stopLossRate > 10 := not_lt.mpr hr2
      have b : ¬ ta.stopLossRate < 1 := not_lt.mpr hr1
      simp only [specRule5, a, b, if_false, List.append_nil]
    have r6 : specRule6 ta = [] := by
      have a : ¬ ta.leverStopLossRisk > 60 := by
        intro h; linarith
      have b : ¬ ta.leverStopLossRisk > 40 := not_lt.mpr hrisk
      simp only [specRule6, a, b, if_false]
    have r7 : specRule7 ta = [] := by
      have a : ¬ calculateDirTrendMatchScore ta = 0 := by omega
      simp only [specRule7, a, if_false]
    rw [analyzeContradictions_eq, r1, r2, r4, r5, r6, r7, flatMap_sentinels ta _ hpat]
    rfl
  · intro ptf bd
    rw [analyzeContradictions_eq, analyzeContradictions_eq]
    have h1 : ([⟨"无", ptf, bd⟩] : List PricePattern).flatMap
        (specPatternFindings { ta with pricePatterns := [⟨"无", ptf, bd⟩] }) = [] :=
      flatMap_sentinels _ _ (by simp)
    show specRule1 ta ++ specRule2 ta ++
        ([⟨"无", ptf, bd⟩] : List PricePattern).flatMap
          (specPatternFindings { ta with pricePatterns := [⟨"无", ptf, bd⟩] }) ++
        specRule4 ta ++ specRule5 ta ++ specRule6 ta ++ specRule7 ta =
      specRule1 ta ++ specRule2 ta ++
        ([] : List PricePattern).flatMap (specPatternFindings { ta with pricePatterns := [] }) ++
        specRule4 ta ++ specRule5 ta ++ specRule6 ta ++ specRule7 ta
    rw [h1]
    rfl

/-- Claim C23 at the Scenario A record. -/
theorem C23_no_contradictions_witness : analyzeContradictions scenarioA true = [] :=
  (C23_no_contradictions scenarioA true).1 rfl (by decide) (by decide) (by decide)
    (by decide) (by decide) (by decide) (by decide) (by decide)

/-! ## Stop-loss rate of the first input step (C24) -/

/-- The rounded quotient of the rounded difference of two different positive doubles by one of
them is at least `2 ^ -1022` in magnitude. -/
theorem quotient_magnitude {x y d q : ℚ} (hx : binary64 x = some x) (hy : binary64 y = some y)
    (x0 : 0 < x) (y0 : 0 < y) (hne : x ≠ y) (hd : binary64 (x - y) = some d)
    (hq : binary64 (d / x) = some q) : pow2 (-1022) ≤ |q| := by
  obtain ⟨g1, g2⟩ := double_gap hx hy x0 y0 hne
  obtain ⟨d1, d2⟩ := binary64_abs hd
  obtain ⟨q1, q2⟩ := binary64_abs hq
  obtain ⟨⟨mx, ex⟩, bx⟩ := double_grid hx x0.le
  obtain ⟨x1, x2, x3, x4⟩ := exponentOf_spec x
  have hx1024 : x < pow2 1024 := lt_of_lt_of_le bx (pow2_le (by omega))
  have hkey : pow2 (-1022) * x ≤ |d| := by
    rw [d1]
    obtain ⟨a1, a2, a3, a4⟩ := exponentOf_spec |x - y|
    rcases le_or_lt (pow2 (-1022)) |x - y| with hA | hB
    · have hea : pow2 (exponentOf |x - y|) ≤ |x - y| := by
        rcases lt_or_eq_of_le a1 with h1 | h1
        · exact a3 h1
        · rw [← h1]; exact hA
      have hr := pow_le_roundAt hea
      have hr' : pow2 (exponentOf |x - y|) ≤ roundMagnitude |x - y| := hr
      rcases lt_or_eq_of_le a2 with h3 | h3
      · have hlt := a4 h3
        have hdouble : pow2 (exponentOf |x - y| + 1) = 2 * pow2 (exponentOf |x - y|) := by
          rw [show exponentOf |x - y| + 1 = ((1 : ℕ) : ℤ) + exponentOf |x - y| by
            push_cast; ring, pow2_natAdd]
          simp
        have e54 : pow2 54 = 18014398509481984 := by rw [pow2_eq]; norm_num
        have e1022 : pow2 (-1022) ≤ 1 / (2 * 18014398509481984) := by
          have : pow2 (-1022) ≤ pow2 (-55) := pow2_le (by norm_num)
          refine le_trans this ?_
          rw [pow2_eq]; norm_num
        rw [e54] at g2
        have hpos := pow2_pos (exponentOf |x - y|)
        have h5 : x ≤ 2 * 18014398509481984 * pow2 (exponentOf |x - y|) := by nlinarith
        calc pow2 (-1022) * x ≤ 1 / (2 * 18014398509481984) * x :=
              mul_le_mul_of_nonneg_right e1022 x0.le
          _ ≤ pow2 (exponentOf |x - y|) := by
              rw [div_mul_eq_mul_div, one_mul, div_le_iff₀ (by norm_num)]
              linarith
          _ ≤ roundMagnitude |x - y| := hr'
      · rw [h3] at hr'
        have e1 : pow2 (-1022) * pow2 1024 = 4 := by
          rw [← pow2_add, pow2_eq]; norm_num
        have e2 : (4 : ℚ) ≤ pow2 1023 := by
          have : pow2 2 ≤ pow2 1023 := pow2_le (by norm_num)
          refine le_trans ?_ this
          rw [pow2_eq]; norm_num
        have hp := pow2_pos (-1022)
        nlinarith
    · have hmin := roundMagnitude_ge_min g1
      have e54 : pow2 (-1022) * pow2 54 = pow2 (-968) := by rw [← pow2_add]; norm_num
      have e2 : pow2 (-1022) * pow2 (-968) ≤ pow2 (-1074) := by
        rw [← pow2_add]; exact pow2_le (by norm_num)
      have hp := pow2_pos (-1022)
      have h54 := pow2_pos 54
      have hx968 : x < pow2 (-968) := by
        calc x ≤ |x - y| * pow2 54 := g2
          _ < pow2 (-1022) * pow2 54 := mul_lt_mul_of_pos_right hB h54
          _ = pow2 (-968) := e54
      calc pow2 (-1022) * x ≤ pow2 (-1022) * pow2 (-968) :=
            mul_le_mul_of_nonneg_left hx968.le hp.le
        _ ≤ pow2 (-1074) := e2
        _ ≤ roundMagnitude |x - y| := hmin
  rw [q1]
  apply roundMagnitude_ge_pow2 (by norm_num) (by norm_num)
  rw [abs_div, abs_of_pos x0, le_div_iff₀ x0]
  exact hkey

/-- The rate computed from a quotient of magnitude at least `2 ^ -1022` is positive. -/
theorem rate_pos {q r : ℚ} (hq : pow2 (-1022) ≤ |q|) (hr : binary64 (|q| * 100) = some r) :
    0 < r := by
  obtain ⟨h1, ea⟩ := binary64_some hr
  have hp := pow2_pos (-1022)
  have h100 : pow2 (-1022) ≤ |q| * 100 := by nlinarith
  rw [if_neg (by linarith), abs_of_nonneg (by linarith)] at ea
  rw [ea]
  have := roundMagnitude_ge_pow2 (by norm_num) (by norm_num) h100
  linarith

/-- The operations behind a finite result of `inputTradeParams`. -/
theorem inputTradeParams_some {fl : ℚ → Option ℚ} {ta ta2 : TradeAnalysis}
    {coinType openDir : String} {leverage : Int} {openPrice liquidPrice stopLoss : ℚ}
    (h : inputTradeParams fl ta coinType openDir leverage openPrice liquidPrice stopLoss =
      some ta2) :
    ∃ diff q,
      fl (if openDir = "多" then openPrice - stopLoss else stopLoss - openPrice) = some diff ∧
      fl (diff / openPrice) = some q ∧
      fl (|q| * 100) = some ta2.stopLossRate ∧
      fl (ta2.stopLossRate * (leverage : ℚ)) = some ta2.leverStopLossRisk := by
  simp only [inputTradeParams, andThen_eq_some, Option.some.injEq] at h
  obtain ⟨q, hq, rate, hrate, risk, hrisk, rfl⟩ := h
  by_cases hdir : openDir = "多"
  · rw [if_pos hdir, andThen_eq_some] at hq
    obtain ⟨diff, hdiff, hq⟩ := hq
    exact ⟨diff, q, by rw [if_pos hdir]; exact hdiff, hq, hrate, hrisk⟩
  · rw [if_neg hdir, andThen_eq_some] at hq
    obtain ⟨diff, hdiff, hq⟩ := hq
    exact ⟨diff, q, by rw [if_neg hdir]; exact hdiff, hq, hrate, hrisk⟩

/-- The rate and the risk of a long and of a short position with the same prices. -/
theorem inputTradeParams_direction (ta : TradeAnalysis) (coinType : String) (leverage : Int)
    (openPrice liquidPrice stopLoss : ℚ) :
    (inputTradeParams binary64 ta coinType "多" leverage openPrice liquidPrice stopLoss).map
        (fun t => (t.stopLossRate, t.leverStopLossRisk)) =
      (inputTradeParams binary64 ta coinType "空" leverage openPrice liquidPrice stopLoss).map
        (fun t => (t.stopLossRate, t.leverStopLossRisk)) := by
  have hne : ¬ ("空" = "多") := by decide
  simp only [inputTradeParams, if_true, if_neg hne]
  have e1 : stopLoss - openPrice = -(openPrice - stopLoss) := by ring
  rw [e1, binary64_neg]
  cases hd : binary64 (openPrice - stopLoss) with
  | none => simp [andThen]
  | some d =>
    simp only [Option.map_some', andThen]
    rw [neg_div, binary64_neg]
    cases hq : binary64 (d / openPrice) with
    | none => simp
    | some q =>
      simp only [Option.map_some', abs_neg]
      cases hr : binary64 (|q| * 100) with
      | none => simp
      | some r =>
        simp only []
        cases hk : binary64 (r * (leverage : ℚ)) with
        | none => simp
        | some k => simp

/-- Claim C24 fails as stated: for a long position opened at 65 with the stop at 62 and
leverage 13 the step stores the rate 4.615384615384616, which is not `|65 - 62| / 65 * 100`,
and the risk 60.00000000000001, which is neither the stored rate times 13 nor the exact
risk 60; the stored record gets the leveraged score 0 with the high-risk flag, the exact
values the score 5 without it. -/
theorem C24_counterexample :
    (inputTradeParams binary64 scenarioA "BTC/USDT" "多" 13 65 50 62).map
        (fun t => (t.stopLossRate, t.leverStopLossRisk)) =
      some (5196461108504419 / 1125899906842624, 8444249301319681 / 140737488355328) ∧
    (binary64 65 = some 65 ∧ binary64 62 = some 62) ∧
    (5196461108504419 / 1125899906842624 : ℚ) ≠ |65 - 62| / 65 * 100 ∧
    (8444249301319681 / 140737488355328 : ℚ) ≠ 5196461108504419 / 1125899906842624 * 13 ∧
    (|65 - 62| / 65 * 100 * 13 : ℚ) = 60 ∧
    (60 : ℚ) < 8444249301319681 / 140737488355328 ∧
    (inputTradeParams binary64 scenarioA "BTC/USDT" "多" 13 65 50 62).map
        (fun t => calculateLeverStopLossScore t false) = some (0, true) ∧
    (inputTradeParams noRounding scenarioA "BTC/USDT" "多" 13 65 50 62).map
        (fun t => calculateLeverStopLossScore t false) = some (5, false) := by
  refine ⟨by decide!, ⟨by decide!, by decide!⟩, by norm_num [abs_of_pos], by norm_num,
    by norm_num [abs_of_pos], by norm_num, by decide!, by decide!⟩

/-- Claim C24 as amended: for a positive open price and a positive stop price, both doubles,
and a leverage of at least 1, the first input step computes the same rate and the same risk
for a long and for a short position; the stored rate is not negative and at most the stored
risk, and it is 0 exactly when the stop price is the open price; evaluated without rounding
the rate is `|openPrice - stopLoss| / openPrice * 100` and the risk the rate times the
leverage. -/
theorem C24_stop_loss_rate (ta : TradeAnalysis) (coinType openDir : String) (leverage : Int)
    (openPrice liquidPrice stopLoss : ℚ) (hopen : 0 < openPrice) (hstop : 0 < stopLoss)
    (hlev : 1 ≤ leverage) (hO : binary64 openPrice = some openPrice)
    (hS : binary64 stopLoss = some stopLoss) :
    (inputTradeParams binary64 ta coinType "多" leverage openPrice liquidPrice stopLoss).map
        (fun t => (t.stopLossRate, t.leverStopLossRisk)) =
      (inputTradeParams binary64 ta coinType "空" leverage openPrice liquidPrice stopLoss).map
        (fun t => (t.stopLossRate, t.leverStopLossRisk)) ∧
    (∀ stored : TradeAnalysis,
      inputTradeParams binary64 ta coinType openDir leverage openPrice liquidPrice stopLoss =
        some stored →
      0 ≤ stored.stopLossRate ∧ stored.stopLossRate ≤ stored.leverStopLossRisk ∧
        (stored.stopLossRate = 0 ↔ stopLoss = openPrice)) ∧
    ∃ ideal : TradeAnalysis,
      inputTradeParams noRounding ta coinType openDir leverage openPrice liquidPrice stopLoss =
        some ideal ∧
      ideal.stopLossRate = |openPrice - stopLoss| / openPrice * 100 ∧
      ideal.leverStopLossRisk = ideal.stopLossRate * (leverage : ℚ) := by
  refine ⟨inputTradeParams_direction ta coinType leverage openPrice liquidPrice stopLoss, ?_, ?_⟩
  · intro stored h
    obtain ⟨diff, q, hdiff, hq, hrate, hrisk⟩ := inputTradeParams_some h
    have hl : (1 : ℚ) ≤ (leverage : ℚ) := by exact_mod_cast hlev
    have h0 : 0 ≤ stored.stopLossRate :=
      binary64_mono (by positivity) binary64_zero hrate
    have h1 : stored.stopLossRate ≤ stored.leverStopLossRisk :=
      binary64_mono (by nlinarith) (binary64_fixed hrate) hrisk
    refine ⟨h0, h1, ?_, ?_⟩
    · intro hz
      by_contra hne
      have hne' : openPrice ≠ stopLoss := fun e => hne e.symm
      have hqm : pow2 (-1022) ≤ |q| := by
        by_cases hdir : openDir = "多"
        · rw [if_pos hdir] at hdiff
          exact quotient_magnitude hO hS hopen hstop hne' hdiff hq
        · rw [if_neg hdir] at hdiff
          have e1 : stopLoss - openPrice = -(openPrice - stopLoss) := by ring
          rw [e1, binary64_neg] at hdiff
          cases hd : binary64 (openPrice - stopLoss) with
          | none => rw [hd] at hdiff; simp at hdiff
          | some d =>
            rw [hd] at hdiff
            simp only [Option.map_some', Option.some.injEq] at hdiff
            subst hdiff
            rw [neg_div, binary64_neg] at hq
            cases hq2 : binary64 (d / openPrice) with
            | none => rw [hq2] at hq; simp at hq
            | some q2 =>
              rw [hq2] at hq
              simp only [Option.map_some', Option.some.injEq] at hq
              subst hq
              rw [abs_neg]
              exact quotient_magnitude hO hS hopen hstop hne' hd hq2
      have := rate_pos hqm hrate
      linarith
    · intro he
      subst he
      have hd0 : diff = 0 := by
        have : (if openDir = "多" then stopLoss - stopLoss else stopLoss - stopLoss) = 0 := by
          split_ifs <;> ring
        rw [this, binary64_zero] at hdiff
        exact (Option.some.inj hdiff).symm
      subst hd0
      rw [zero_div, binary64_zero] at hq
      have hq0 : q = 0 := (Option.some.inj hq).symm
      subst hq0
      rw [abs_zero, zero_mul, binary64_zero] at hrate
      exact (Option.some.inj hrate).symm
  · by_cases hdir : openDir = "多"
    · refine ⟨_, by simp only [inputTradeParams, noRounding, andThen, if_pos hdir]; rfl, ?_, rfl⟩
      show |(openPrice - stopLoss) / openPrice| * 100 = _
      rw [abs_div, abs_of_pos hopen]
    · refine ⟨_, by simp only [inputTradeParams, noRounding, andThen, if_neg hdir]; rfl, ?_, rfl⟩
      show |(stopLoss - openPrice) / openPrice| * 100 = _
      rw [abs_div, abs_of_pos hopen, abs_sub_comm]

/-- Claim C24 (amended) at a short position opened at 100 with the stop at 105 and leverage 5:
the stored rate is 5 and the stored risk 25. -/
theorem C24_stop_loss_rate_witness :
    (binary64 100 = some 100 ∧ binary64 105 = some 105) ∧
    (inputTradeParams binary64 scenarioA "BTC/USDT" "空" 5 100 120 105).map
        (fun t => (t.stopLossRate, t.leverStopLossRisk)) = some (5, 25) ∧
    ∀ stored : TradeAnalysis,
      inputTradeParams binary64 scenarioA "BTC/USDT" "空" 5 100 120 105 = some stored →
      0 ≤ stored.stopLossRate ∧ stored.stopLossRate ≤ stored.leverStopLossRisk ∧
        (stored.stopLossRate = 0 ↔ (105 : ℚ) = 100) :=
  ⟨⟨by decide!, by decide!⟩, by decide!,
    (C24_stop_loss_rate scenarioA "BTC/USDT" "空" 5 100 120 105 (by norm_num) (by norm_num)
      (by norm_num) (by decide!) (by decide!)).2.1⟩

/-! ## The selection loop of the pattern step (C25) -/

/-- The name stored for each of the menu entries 1 to 8 is not the sentinel name. -/
theorem stored_name_ne_sentinel (c : Int) (h1 : 1 ≤ c) (h9 : c ≤ 9)
    (hn : patternMenu.getD (c - 1).toNat "" ≠ "无") :
    cutAtBracket (patternMenu.getD (c - 1).toNat "") ≠ "无" := by
  interval_cases c
  all_goals first
    | decide
    | exact absurd rfl hn

theorem selectPatterns_cons (round : PatternChoice) (rest : List PatternChoice)
    (pats : List PricePattern) :
    selectPatterns (round :: rest) pats =
      if round.choice = 0 then pats
      else if round.choice ≥ 1 ∧ round.choice ≤ (patternMenu.length : Int) then
        if patternMenu.getD (round.choice - 1).toNat "" = "无" then [noneSentinel]
        else
          selectPatterns rest (pats ++ [⟨cutAtBracket (patternMenu.getD
            (round.choice - 1).toNat ""), round.tf,
            if containsChars "三角形".data (patternMenu.getD (round.choice - 1).toNat "").data
            then round.breakDir else TriangleBreakDir.NONE⟩])
      else selectPatterns rest pats := rfl

/-- One round of the selection loop: it ends the selection with the list built so far, ends it
with the sentinel alone, or goes on with the list built so far, possibly extended by an entry
whose name is not the sentinel name. -/
theorem selectPatterns_round (round : PatternChoice) (rest : List PatternChoice)
    (pats : List PricePattern) :
    selectPatterns (round :: rest) pats = pats ∨
    selectPatterns (round :: rest) pats = [noneSentinel] ∨
    selectPatterns (round :: rest) pats = selectPatterns rest pats ∨
    ∃ p : PricePattern, p.name ≠ "无" ∧
      selectPatterns (round :: rest) pats = selectPatterns rest (pats ++ [p]) := by
  rw [selectPatterns_cons]
  by_cases h0 : round.choice = 0
  · left; rw [if_pos h0]
  · rw [if_neg h0]
    by_cases hr : round.choice ≥ 1 ∧ round.choice ≤ (patternMenu.length : Int)
    · rw [if_pos hr]
      by_cases hn : patternMenu.getD (round.choice - 1).toNat "" = "无"
      · right; left
        rw [if_pos hn]
      · right; right; right
        rw [if_neg hn]
        have h9 : round.choice ≤ 9 := hr.2
        exact ⟨_, stored_name_ne_sentinel round.choice hr.1 h9 hn, rfl⟩
    · right; right; left
      rw [if_neg hr]

theorem selectPatterns_invariant (rounds : List PatternChoice) :
    ∀ pats : List PricePattern, (∀ p ∈ pats, p.name ≠ "无") →
      selectPatterns rounds pats = [noneSentinel] ∨
      ∀ p ∈ selectPatterns rounds pats, p.name ≠ "无" := by
  induction rounds with
  | nil =>
    intro pats h
    right
    exact h
  | cons round rest ih =>
    intro pats h
    rcases selectPatterns_round round rest pats with e | e | e | ⟨p, hp, e⟩
    · right; rw [e]; exact h
    · left; exact e
    · rw [e]; exact ih pats h
    · rw [e]
      apply ih
      intro q hq
      rcases List.mem_append.mp hq with hq | hq
      · exact h q hq
      · rw [List.mem_singleton.mp hq]; exact hp

theorem selectPatterns_none_after (pre : List PatternChoice) :
    ∀ (pats : List PricePattern) (ptf : PatternTimeframe) (bd : TriangleBreakDir)
      (rest : List PatternChoice), (∀ r ∈ pre, r.choice ≠ 0 ∧ r.choice ≠ 9) →
      selectPatterns (pre ++ ⟨9, ptf, bd⟩ :: rest) pats = [noneSentinel] := by
  induction pre with
  | nil =>
    intro pats ptf bd rest _
    rfl
  | cons round pre ih =>
    intro pats ptf bd rest h
    have hround := h round (List.mem_cons_self _ _)
    have hpre : ∀ r ∈ pre, r.choice ≠ 0 ∧ r.choice ≠ 9 :=
      fun r hr => h r (List.mem_cons_of_mem _ hr)
    rw [List.cons_append, selectPatterns_cons, if_neg hround.1]
    by_cases hr : round.choice ≥ 1 ∧ round.choice ≤ (patternMenu.length : Int)
    · rw [if_pos hr]
      have hn : patternMenu.getD (round.choice - 1).toNat "" ≠ "无" := by
        have h1 := hr.1
        have h9 : round.choice ≤ 9 := hr.2
        have h99 := hround.2
        generalize round.choice = c at h1 h9 h99
        interval_cases c
        all_goals first
          | decide
          | exact absurd rfl h99
      rw [if_neg hn]
      exact ih _ ptf bd rest hpre
    · rw [if_neg hr]
      exact ih _ ptf bd rest hpre

/-- Claim C25: started on the empty pattern list, the selection loop ends, for every sequence
of rounds, with the sentinel alone or with a list that has no entry of the sentinel name; when
the menu entry `无` is chosen after earlier rounds (none of which ended the selection), the
result is the sentinel alone, so none of the entries recorded before is left. -/
theorem C25_selection_loop (rounds : List PatternChoice) :
    (selectPatterns rounds [] = [noneSentinel] ∨
      ∀ p ∈ selectPatterns rounds [], p.name ≠ "无") ∧
    (∀ (pre rest : List PatternChoice) (ptf : PatternTimeframe) (bd : TriangleBreakDir),
      (∀ r ∈ pre, r.choice ≠ 0 ∧ r.choice ≠ 9) →
      rounds = pre ++ ⟨9, ptf, bd⟩ :: rest → selectPatterns rounds [] = [noneSentinel]) ∧
    (∀ ta : TradeAnalysis, ta.pricePatterns = [] →
      (inputPricePatterns ta rounds).pricePatterns = selectPatterns rounds []) := by
  refine ⟨selectPatterns_invariant rounds [] (by simp), ?_, ?_⟩
  · intro pre rest ptf bd hpre h
    rw [h]
    exact selectPatterns_none_after pre [] ptf bd rest hpre
  · intro ta h
    simp only [inputPricePatterns, h]

/-- Claim C25 at the rounds: converging triangle, head-and-shoulders top, an invalid number,
then the entry `无`, then a round that is no longer read. -/
theorem C25_selection_loop_witness :
    selectPatterns
      [⟨5, PatternTimeframe.MEDIUM, TriangleBreakDir.DOWN⟩,
        ⟨1, PatternTimeframe.LONG, TriangleBreakDir.NONE⟩,
        ⟨12, PatternTimeframe.SHORT, TriangleBreakDir.NONE⟩,
        ⟨9, PatternTimeframe.SHORT, TriangleBreakDir.NONE⟩,
        ⟨2, PatternTimeframe.SHORT, TriangleBreakDir.NONE⟩] [] = [noneSentinel] :=
  (C25_selection_loop _).2.1
    [⟨5, PatternTimeframe.MEDIUM, TriangleBreakDir.DOWN⟩,
      ⟨1, PatternTimeframe.LONG, TriangleBreakDir.NONE⟩,
      ⟨12, PatternTimeframe.SHORT, TriangleBreakDir.NONE⟩]
    [⟨2, PatternTimeframe.SHORT, TriangleBreakDir.NONE⟩]
    PatternTimeframe.SHORT TriangleBreakDir.NONE (by decide) rfl

/-! ## High leveraged risk and the composite score (C26, C27) -/

theorem leverFlag_iff (ta : TradeAnalysis) (before : Bool) :
    ((calculateLeverStopLossScore ta before).2 = true ↔ 60 < ta.leverStopLossRisk) ∧
    ((calculateLeverStopLossScore ta before).2 = true →
      (calculateLeverStopLossScore ta before).1 = 0) := by
  unfold calculateLeverStopLossScore
  simp only []
  by_cases h1 : ta.leverStopLossRisk ≤ 40
  · have : ¬ 60 < ta.leverStopLossRisk := by linarith
    simp [h1, this]
  · by_cases h2 : ta.leverStopLossRisk ≤ 60
    · simp [h1, h2, not_le.mp h1]
    · simp [h1, h2, not_le.mp h2]

/-- With 21528659 equal readings the product `maxCount * 100` wraps to -2142101396 and the
returned `int` is 2147448735. -/
theorem emaConsistency_many_high :
    calculateEMAConsistency (List.replicate 21528659 risingEma) = 2147448735 := by
  rw [emaConsistency_replicate _ _ (by norm_num)]
  decide!

/-- Claim C26 fails as stated: the record `manyReadingsHighRisk` has the leveraged risk 100, so
that the high-risk flag is set, and 21528659 equal EMA readings, whose score overflows to
2147448735; its composite score is 644234680. -/
theorem C26_counterexample :
    (calculateLeverStopLossScore manyReadingsHighRisk false).2 = true ∧
    60 < manyReadingsHighRisk.leverStopLossRisk ∧
    calculateEMAConsistency manyReadingsHighRisk.emaList = 2147448735 ∧
    (calculateTotalConsistency manyReadingsHighRisk false).1 = 644234680 ∧
    ¬ (calculateTotalConsistency manyReadingsHighRisk false).1 ≤ 90 := by
  have hE : calculateEMAConsistency manyReadingsHighRisk.emaList = 2147448735 :=
    emaConsistency_many_high
  have hK : calculateKSTConsistency manyReadingsHighRisk.kstList = 100 := by decide
  have hb : calculateBaseStopLossScore manyReadingsHighRisk = 10 := by decide
  have hl : (calculateLeverStopLossScore manyReadingsHighRisk false).1 = 0 := by decide
  have hd : calculateDirTrendMatchScore manyReadingsHighRisk = 20 := by decide
  have ht : (calculateTotalConsistency manyReadingsHighRisk false).1 = 644234680 := by
    rw [total_of_scores manyReadingsHighRisk false _ _ _ _ _ hE hK hb hl hd]
    decide!
  refine ⟨by decide, by decide, hE, ht, ?_⟩
  rw [ht]
  decide

/-- Claim C26 as amended: when the leveraged stop-loss score sets the high-risk flag, that is for
a leveraged risk above 60, the composite score of a record whose EMA and KST lists have at most
21474836 readings is at most 90; the record `highLeverage` has the flag set, the composite
score 90 and the assessment of the band from 80 on, and the analysis reports the strong
leveraged-risk finding for it. -/
theorem C26_high_risk_total (ta : TradeAnalysis) (before : Bool) :
    ((calculateLeverStopLossScore ta before).2 = true ↔ 60 < ta.leverStopLossRisk) ∧
    ((calculateLeverStopLossScore ta before).2 = true →
      ta.emaList.length ≤ 21474836 → ta.kstList.length ≤ 21474836 →
      (calculateTotalConsistency ta before).1 ≤ 90) ∧
    calculateTotalConsistency highLeverage before = (90, true) ∧
    (calculateEMAConsistency highLeverage.emaList = 100 ∧
      calculateKSTConsistency highLeverage.kstList = 100 ∧
      calculateBaseStopLossScore highLeverage = 10 ∧
      calculateDirTrendMatchScore highLeverage = 20) ∧
    (∀ score : Int, 80 ≤ score → consistencyAssessment score =
      "评价：信号高度一致，风险控制合理，开单逻辑具备强技术支撑") ∧
    consistencyAssessment (calculateTotalConsistency highLeverage before).1 =
      "评价：信号高度一致，风险控制合理，开单逻辑具备强技术支撑" ∧
    msgLeverStrong ∈ analyzeContradictions highLeverage
      (calculateTotalConsistency highLeverage before).2 := by
  have h90 : calculateTotalConsistency highLeverage before = (90, true) := by
    cases before <;> decide
  have hband : ∀ score : Int, 80 ≤ score → consistencyAssessment score =
      "评价：信号高度一致，风险控制合理，开单逻辑具备强技术支撑" := by
    intro score h
    unfold consistencyAssessment
    rw [if_pos h]
  refine ⟨(leverFlag_iff ta before).1, ?_, h90, by decide, hband, ?_, ?_⟩
  · intro h hema hkst
    have hl := (leverFlag_iff ta before).2 h
    obtain ⟨b, hb, hb'⟩ := baseStopLossScore_nat ta
    obtain ⟨d, hd, hd'⟩ := dirTrendMatchScore_nat ta
    have he := emaConsistency_le ta.emaList hema
    have hk := kstConsistency_le ta.kstList hkst
    have hc := total_cases ta before hema hkst
    rw [hb, hl, hd] at hc
    omega
  · rw [h90]; exact hband 90 (by norm_num)
  · rw [h90]; decide

/-- Claim C26 (amended) at the record `highLeverage`, whose leveraged risk is 100. -/
theorem C26_high_risk_total_witness :
    (calculateLeverStopLossScore highLeverage false).2 = true ∧
    highLeverage.emaList.length ≤ 21474836 ∧ highLeverage.kstList.length ≤ 21474836 ∧
    (calculateTotalConsistency highLeverage false).1 ≤ 90 :=
  ⟨by decide, by decide, by decide,
    (C26_high_risk_total highLeverage false).2.1 (by decide) (by decide) (by decide)⟩

/-- Claim C27: the result of the contradiction analysis does not depend on its high-risk
argument; the leveraged-risk findings are decided by the leveraged stop-loss risk of the record,
whatever the argument is. -/
theorem C27_flag_ignored (ta : TradeAnalysis) :
    analyzeContradictions ta true = analyzeContradictions ta false ∧
    (∀ flag : Bool,
      (msgLeverStrong ∈ analyzeContradictions ta flag ↔ 60 < ta.leverStopLossRisk) ∧
      (msgLeverModerate ∈ analyzeContradictions ta flag ↔
        ¬ 60 < ta.leverStopLossRisk ∧ 40 < ta.leverStopLossRisk)) :=
  ⟨rfl, fun flag => ⟨mem_leverStrong ta flag, mem_leverModerate ta flag⟩⟩

/-! ## The leverage and position calculator (C28, C29, C30) -/

/-- What the constructor checks: an accepted calculator holds the arguments, with a leverage of
at least 1, a position share in [0, 100], a positive entry price and a positive capital. -/
theorem create_ok (cc : CryptoCurrency) (lev posRatio entryP : ℚ) (dir : TradeDirection)
    (totalCap : ℚ) (c : CryptoRiskCalculator)
    (h : CryptoRiskCalculator.create cc lev posRatio entryP dir totalCap = Except.ok c) :
    c = ⟨cc, lev, posRatio, entryP, dir, totalCap⟩ ∧ 1 ≤ lev ∧ 0 ≤ posRatio ∧
      posRatio ≤ 100 ∧ 0 < entryP ∧ 0 < totalCap := by
  unfold CryptoRiskCalculator.create at h
  split_ifs at h with h1 h2 h3 h4
  · injection h with h
    refine ⟨h.symm, not_lt.mp h1, ?_, ?_, not_le.mp h3, not_le.mp h4⟩
    · by_contra hc
      exact h2 (Or.inl (not_le.mp hc))
    · by_contra hc
      exact h2 (Or.inr (not_le.mp hc))

/-- The position amount of a calculator with positive parameters is positive. -/
theorem positionAmount_pos (c : CryptoRiskCalculator) (hl : 1 ≤ c.leverage)
    (hr : 0 < c.positionRatio) (he : 0 < c.entryPrice) (ht : 0 < c.totalCapital) :
    c.getPositionAmount = some (c.getPositionValue / c.entryPrice) ∧
      0 < c.getPositionValue / c.entryPrice := by
  have hv : 0 < c.getPositionValue := by
    unfold CryptoRiskCalculator.getPositionValue CryptoRiskCalculator.getInitialMargin
    have : 0 < c.leverage := by linarith
    positivity
  constructor
  · unfold CryptoRiskCalculator.getPositionAmount divDouble
    rw [if_neg (ne_of_gt he)]
  · exact div_pos hv he

/-- Liquidation price of a calculator with positive parameters. -/
theorem liquidationPrice_eq (c : CryptoRiskCalculator) (hl : 1 ≤ c.leverage)
    (hr : 0 < c.positionRatio) (he : 0 < c.entryPrice) (ht : 0 < c.totalCapital) :
    c.calculateLiquidationPrice =
      some (if c.direction = TradeDirection.LONG
        then c.entryPrice - c.entryPrice * (1 / c.leverage - 5 / 1000)
        else c.entryPrice + c.entryPrice * (1 / c.leverage - 5 / 1000)) := by
  obtain ⟨ha, hpos⟩ := positionAmount_pos c hl hr he ht
  have hl0 : c.leverage ≠ 0 := by linarith
  have he0 : c.entryPrice ≠ 0 := ne_of_gt he
  have ht0 : c.totalCapital ≠ 0 := ne_of_gt ht
  have hr0 : c.positionRatio ≠ 0 := ne_of_gt hr
  have key : (c.getInitialMargin - c.getPositionValue * MAINTENANCE_MARGIN_RATE) /
      (c.getPositionValue / c.entryPrice) = c.entryPrice * (1 / c.leverage - 5 / 1000) := by
    unfold CryptoRiskCalculator.getPositionValue CryptoRiskCalculator.getInitialMargin
      MAINTENANCE_MARGIN_RATE
    field_simp
    ring
  unfold CryptoRiskCalculator.calculateLiquidationPrice
  simp only [ha, Option.some_bind, divDouble, if_neg (ne_of_gt hpos), Option.map_some', key]
  split_ifs <;> rfl

/-- Claim C29: in exact arithmetic, for a calculator that the constructor accepts with a
positive position share, the liquidation price is `entryPrice * (1 - 1/leverage + 0.005)` for a
long and `entryPrice * (1 + 1/leverage - 0.005)` for a short position; it is the same for every
capital and every positive position share; the long and the short price lie at the same
distance below and above the entry price; the long price is below and the short price above
the entry price exactly when the leverage is below 200. -/
theorem C29_liquidation_price (cc : CryptoCurrency) (lev posRatio entryP : ℚ)
    (dir : TradeDirection) (totalCap : ℚ) (c : CryptoRiskCalculator)
    (h : CryptoRiskCalculator.create cc lev posRatio entryP dir totalCap = Except.ok c)
    (hpos : 0 < posRatio) :
    c.calculateLiquidationPrice = some (specLiquidationPrice dir entryP lev) ∧
    (∀ (posRatio₂ totalCap₂ : ℚ) (c₂ : CryptoRiskCalculator),
      CryptoRiskCalculator.create cc lev posRatio₂ entryP dir totalCap₂ = Except.ok c₂ →
      0 < posRatio₂ → c₂.calculateLiquidationPrice = c.calculateLiquidationPrice) ∧
    entryP - specLiquidationPrice TradeDirection.LONG entryP lev =
      specLiquidationPrice TradeDirection.SHORT entryP lev - entryP ∧
    (specLiquidationPrice TradeDirection.LONG entryP lev < entryP ↔ lev < 200) ∧
    (entryP < specLiquidationPrice TradeDirection.SHORT entryP lev ↔ lev < 200) := by
  obtain ⟨rfl, hl, h0, h100, he, ht⟩ := create_ok cc lev posRatio entryP dir totalCap c h
  have hform : ∀ (r t : ℚ), 0 < r → 0 < t →
      (⟨cc, lev, r, entryP, dir, t⟩ : CryptoRiskCalculator).calculateLiquidationPrice =
        some (specLiquidationPrice dir entryP lev) := by
    intro r t hr ht'
    rw [liquidationPrice_eq _ hl hr he ht']
    cases dir
    · simp only [if_true, specLiquidationPrice]
      congr 1
      ring
    · simp only [if_neg (by decide : ¬ TradeDirection.SHORT = TradeDirection.LONG),
        specLiquidationPrice]
      congr 1
      ring
  have hlev : 0 < lev := by linarith
  have hδ : 0 < 1 / lev - 5 / 1000 ↔ lev < 200 := by
    rw [sub_pos, lt_div_iff₀ hlev]
    constructor <;> intro hh <;> linarith
  refine ⟨hform posRatio totalCap hpos ht, ?_, by simp only [specLiquidationPrice]; ring,
    ?_, ?_⟩
  · intro r₂ t₂ c₂ h₂ hr₂
    obtain ⟨rfl, _, _, _, _, ht₂⟩ := create_ok cc lev r₂ entryP dir t₂ c₂ h₂
    rw [hform r₂ t₂ hr₂ ht₂, hform posRatio totalCap hpos ht]
  · rw [← hδ]
    simp only [specLiquidationPrice]
    constructor
    · intro hh
      by_contra hn
      have : entryP * (1 / lev - 5 / 1000) ≤ 0 :=
        mul_nonpos_of_nonneg_of_nonpos (le_of_lt he) (not_lt.mp hn)
      linarith
    · intro hh
      have : 0 < entryP * (1 / lev - 5 / 1000) := mul_pos he hh
      linarith
  · rw [← hδ]
    simp only [specLiquidationPrice]
    constructor
    · intro hh
      by_contra hn
      have : entryP * (1 / lev - 5 / 1000) ≤ 0 :=
        mul_nonpos_of_nonneg_of_nonpos (le_of_lt he) (not_lt.mp hn)
      linarith
    · intro hh
      have : 0 < entryP * (1 / lev - 5 / 1000) := mul_pos he hh
      linarith

/-- Claim C29 at a long position with 10x leverage entered at 50000: the liquidation price is
its closed form at entry price 50000 and leverage 10. -/
theorem C29_liquidation_price_witness :
    CryptoRiskCalculator.create CryptoCurrency.BTC 10 20 50000 TradeDirection.LONG 10000 =
      Except.ok sampleLong ∧
    sampleLong.calculateLiquidationPrice =
      some (specLiquidationPrice TradeDirection.LONG 50000 10) :=
  ⟨by norm_num [CryptoRiskCalculator.create, sampleLong],
    (C29_liquidation_price CryptoCurrency.BTC 10 20 50000 TradeDirection.LONG 10000
      sampleLong (by norm_num [CryptoRiskCalculator.create, sampleLong]) (by norm_num)).1⟩

/-- Claim C28: in exact arithmetic, for a calculator that the constructor accepts with a
positive position share, long or short, the unrealized loss at its own liquidation price is the
initial margin less the maintenance margin, and the margin to add is 0. -/
theorem C28_margin_to_add (cc : CryptoCurrency) (lev posRatio entryP : ℚ)
    (dir : TradeDirection) (totalCap : ℚ) (c : CryptoRiskCalculator)
    (h : CryptoRiskCalculator.create cc lev posRatio entryP dir totalCap = Except.ok c)
    (hpos : 0 < posRatio) :
    c.getUnrealizedLoss = some (c.getInitialMargin - c.getMaintenanceMargin) ∧
    c.calculateMarginToAdd = some 0 := by
  obtain ⟨rfl, hl, h0, h100, he, ht⟩ := create_ok cc lev posRatio entryP dir totalCap c h
  set c : CryptoRiskCalculator := ⟨cc, lev, posRatio, entryP, dir, totalCap⟩ with hc
  have hl' : 1 ≤ c.leverage := hl
  have hr' : 0 < c.positionRatio := hpos
  have he' : 0 < c.entryPrice := he
  have ht' : 0 < c.totalCapital := ht
  obtain ⟨ha, hapos⟩ := positionAmount_pos c hl' hr' he' ht'
  have hl0 : lev ≠ 0 := by linarith
  have he0 : entryP ≠ 0 := ne_of_gt he
  have hloss : c.getUnrealizedLoss = some (c.getInitialMargin - c.getMaintenanceMargin) := by
    unfold CryptoRiskCalculator.getUnrealizedLoss
    rw [liquidationPrice_eq c hl' hr' he' ht', ha]
    simp only [Option.some_bind, Option.map_some']
    congr 1
    have e1 : c.getPositionValue / c.entryPrice * (c.entryPrice * (1 / c.leverage - 5 / 1000)) =
        c.getInitialMargin - c.getMaintenanceMargin := by
      unfold CryptoRiskCalculator.getMaintenanceMargin CryptoRiskCalculator.getPositionValue
        MAINTENANCE_MARGIN_RATE
      show totalCap * (posRatio / 100) * lev / entryP * (entryP * (1 / lev - 5 / 1000)) =
        totalCap * (posRatio / 100) - totalCap * (posRatio / 100) * lev * (5 / 1000)
      field_simp
      ring
    split_ifs <;> rw [← e1] <;> ring
  refine ⟨hloss, ?_⟩
  unfold CryptoRiskCalculator.calculateMarginToAdd
  rw [hloss]
  simp

/-- Claim C28 at a short position with 10x leverage and 20% of 10000 USDT. -/
theorem C28_margin_to_add_witness :
    CryptoRiskCalculator.create CryptoCurrency.BTC 10 20 50000 TradeDirection.SHORT 10000 =
      Except.ok sampleShort ∧
    sampleShort.calculateMarginToAdd = some 0 :=
  ⟨by norm_num [CryptoRiskCalculator.create, sampleShort],
    (C28_margin_to_add CryptoCurrency.BTC 10 20 50000 TradeDirection.SHORT 10000
      sampleShort (by norm_num [CryptoRiskCalculator.create, sampleShort]) (by norm_num)).2⟩

/-- Claim C30, the code at a position share of 0: the constructor accepts the parameters, the
position amount is 0, and the liquidation price, which divides by it, has no value. -/
theorem C30_zero_position_divides_by_zero :
    CryptoRiskCalculator.create CryptoCurrency.BTC 10 0 50000 TradeDirection.LONG 10000 =
      Except.ok zeroPosition ∧
    zeroPosition.getPositionAmount = some 0 ∧
    zeroPosition.calculateLiquidationPrice = none := by
  refine ⟨by norm_num [CryptoRiskCalculator.create, zeroPosition], by decide!, by decide!⟩

/-! # Auxiliary lemmas and claim on the support and resistance calculator -/

/-! ## The levels and the stage high and low -/

/-- The operations behind a finite result of `calculatePivotPoint`. -/
theorem calculatePivotPoint_some {fl : ℚ → Option ℚ} {k : KlineData} {lv : PivotLevels}
    (h : calculatePivotPoint fl k = some lv) :
    ∃ sumHL sumHLC range twoP twoR,
      fl (k.high + k.low) = some sumHL ∧ fl (sumHL + k.close) = some sumHLC ∧
      fl (sumHLC / 3) = some lv.pivotPoint ∧ fl (k.high - k.low) = some range ∧
      fl (2 * lv.pivotPoint) = some twoP ∧ fl (twoP - k.high) = some lv.s1 ∧
      fl (lv.pivotPoint - range) = some lv.s2 ∧ fl (2 * range) = some twoR ∧
      fl (lv.pivotPoint - twoR) = some lv.s3 ∧ fl (twoP - k.low) = some lv.r1 ∧
      fl (lv.pivotPoint + range) = some lv.r2 ∧ fl (lv.pivotPoint + twoR) = some lv.r3 := by
  simp only [calculatePivotPoint, andThen_eq_some, Option.some.injEq] at h
  obtain ⟨sumHL, h1, sumHLC, h2, p, h3, range, h4, twoP1, h5, s1, h6, s2, h7, twoR1, h8, s3, h9,
    twoP2, h10, r1, h11, r2, h12, twoR2, h13, r3, h14, h15⟩ := h
  subst h15
  have e1 : twoP2 = twoP1 := by rw [h5] at h10; exact (Option.some.inj h10).symm
  have e2 : twoR2 = twoR1 := by rw [h8] at h13; exact (Option.some.inj h13).symm
  subst e1 e2
  exact ⟨sumHL, sumHLC, range, twoP2, twoR2, h1, h2, h3, h4, h5, h6, h7, h8, h9, h11, h12, h14⟩

/-- The comparisons between levels that any monotone rounding preserves. -/
theorem levels_coarse_order {fl : ℚ → Option ℚ} (hfl : RoundsMonotonically fl)
    {k : KlineData} {lv : PivotLevels} (hk : k.low ≤ k.high)
    (h : calculatePivotPoint fl k = some lv) :
    lv.s3 ≤ lv.s2 ∧ lv.s2 ≤ lv.pivotPoint ∧ lv.pivotPoint ≤ lv.r2 ∧ lv.r2 ≤ lv.r3 ∧
      lv.s1 ≤ lv.r1 := by
  obtain ⟨sumHL, sumHLC, range, twoP, twoR, h1, h2, h3, h4, h5, h6, h7, h8, h9, h10, h11, h12⟩ :=
    calculatePivotPoint_some h
  have hr0 : 0 ≤ range := hfl.mono _ _ _ _ (by linarith) hfl.zero h4
  have hrr : range ≤ twoR := hfl.mono _ _ _ _ (by linarith) (hfl.fixed _ _ h4) h8
  have hp := hfl.fixed _ _ h3
  refine ⟨hfl.mono _ _ _ _ (by linarith) h9 h7, hfl.mono _ _ _ _ (by linarith) h7 hp,
    hfl.mono _ _ _ _ (by linarith) hp h11, hfl.mono _ _ _ _ (by linarith) h11 h12,
    hfl.mono _ _ _ _ (by linarith) h6 h10⟩

/-- Without rounding the levels are finite and, for a close within the bar, fully ordered. -/
theorem levels_noRounding (k : KlineData) :
    ∃ lv, calculatePivotPoint noRounding k = some lv ∧
      (k.low ≤ k.close → k.close ≤ k.high →
        lv.s3 ≤ lv.s2 ∧ lv.s2 ≤ lv.s1 ∧ lv.s1 ≤ lv.pivotPoint ∧ lv.pivotPoint ≤ lv.r1 ∧
          lv.r1 ≤ lv.r2 ∧ lv.r2 ≤ lv.r3) := by
  refine ⟨_, rfl, ?_⟩
  intro h1 h2
  simp only []
  refine ⟨?_, ?_, ?_, ?_, ?_, ?_⟩ <;> linarith

/-- The running maximum and minimum bound the start values and every K-line of the list. -/
theorem foldl_highLow (l : List KlineData) : ∀ (h0 l0 : ℚ),
    h0 ≤ (l.foldl (fun hl kd => (max hl.1 kd.high, min hl.2 kd.low)) (h0, l0)).1 ∧
    (l.foldl (fun hl kd => (max hl.1 kd.high, min hl.2 kd.low)) (h0, l0)).2 ≤ l0 ∧
    ∀ kd ∈ l, kd.high ≤ (l.foldl (fun hl kd => (max hl.1 kd.high, min hl.2 kd.low)) (h0, l0)).1 ∧
      (l.foldl (fun hl kd => (max hl.1 kd.high, min hl.2 kd.low)) (h0, l0)).2 ≤ kd.low := by
  induction l with
  | nil => intro h0 l0; simp
  | cons k t ih =>
    intro h0 l0
    simp only [List.foldl_cons, List.mem_cons]
    obtain ⟨i1, i2, i3⟩ := ih (max h0 k.high) (min l0 k.low)
    refine ⟨le_trans (le_max_left _ _) i1, le_trans i2 (min_le_left _ _), ?_⟩
    rintro kd (rfl | hm)
    · exact ⟨le_trans (le_max_right _ _) i1, le_trans i2 (min_le_right _ _)⟩
    · exact i3 kd hm

theorem validateKlineList_ok {l : List KlineData} (h : validateKlineList l = Except.ok ()) :
    l ≠ [] ∧ ∀ kd ∈ l, kd.low ≤ kd.high := by
  unfold validateKlineList at h
  split_ifs at h with h1 h2
  refine ⟨by simpa using h1, ?_⟩
  intro kd hkd
  simp only [List.any_eq_true, decide_eq_true_eq, not_exists, not_and, not_lt] at h2
  exact h2 kd hkd

/-- What an accepted list satisfies, and what the constructor stores. -/
theorem supportResistance_create_ok {fl : ℚ → Option ℚ} {klList : List KlineData} {tf : TimeFrame}
    {c : SupportResistanceCalculator}
    (h : SupportResistanceCalculator.create fl klList tf = Except.ok c) :
    klList ≠ [] ∧ (∀ kd ∈ klList, kd.low ≤ kd.high) ∧
      (∀ kd ∈ klList, kd.high ≤ c.highestHigh ∧ c.lowestLow ≤ kd.low) ∧
      ∃ latestKline, klList.getLast? = some latestKline ∧ latestKline ∈ klList ∧
        c.levels = calculatePivotPoint fl latestKline := by
  unfold SupportResistanceCalculator.create at h
  cases hv : validateKlineList klList with
  | error e => rw [hv] at h; simp at h
  | ok u =>
    obtain ⟨hne, hall⟩ := validateKlineList_ok hv
    rw [hv] at h
    cases klList with
    | nil => exact absurd rfl hne
    | cons k0 t =>
      obtain ⟨latest, hl⟩ : ∃ latest, (k0 :: t).getLast? = some latest :=
        ⟨(k0 :: t).getLast (by simp), List.getLast?_eq_getLast _ _⟩
      simp only [calculateHistoryHighLow, hl, Except.ok.injEq] at h
      subst h
      refine ⟨hne, hall, ?_, latest, hl, List.mem_of_getLast?_eq_some hl, rfl⟩
      exact (foldl_highLow (k0 :: t) k0.high k0.low).2.2

/-- The constructor accepts the same lists whatever the rounding, and differs in the levels only. -/
theorem supportResistance_create_eq {fl : ℚ → Option ℚ} {klList : List KlineData} {tf : TimeFrame}
    {c : SupportResistanceCalculator}
    (h : SupportResistanceCalculator.create fl klList tf = Except.ok c) :
    ∃ latestKline, klList.getLast? = some latestKline ∧
      ∀ fl2, SupportResistanceCalculator.create fl2 klList tf =
        Except.ok ⟨klList, tf, (klList.length : Int), c.highestHigh, c.lowestLow,
          calculatePivotPoint fl2 latestKline⟩ := by
  unfold SupportResistanceCalculator.create at h
  cases hv : validateKlineList klList with
  | error e => rw [hv] at h; simp at h
  | ok u =>
    obtain ⟨hne, hall⟩ := validateKlineList_ok hv
    rw [hv] at h
    cases klList with
    | nil => exact absurd rfl hne
    | cons k0 t =>
      obtain ⟨latest, hl⟩ : ∃ latest, (k0 :: t).getLast? = some latest :=
        ⟨(k0 :: t).getLast (by simp), List.getLast?_eq_getLast _ _⟩
      simp only [calculateHistoryHighLow, hl, Except.ok.injEq] at h
      subst h
      refine ⟨latest, hl, fun fl2 => ?_⟩
      unfold SupportResistanceCalculator.create
      rw [hv]
      simp only [calculateHistoryHighLow, hl]

/-! ## Claim C31 -/

/-- Claim C31 (as stated, refuted): a flat K-line at 0.1 USDT (open = high =
low = close, the double nearest to 0.1) is accepted and satisfies
low ≤ close ≤ high, yet the computed doubles have s1 above the pivot and r1
above r2; for a flat K-line at 0.7 USDT s1 is below s2 and r1 below the pivot. -/
theorem C31_counterexample :
    (SupportResistanceCalculator.create binary64 [flatBar] TimeFrame.DAILY =
        Except.ok ⟨[flatBar], TimeFrame.DAILY, 1, double01, double01, some flatLevels⟩ ∧
      binary64 double01 = some double01 ∧
      flatBar.low ≤ flatBar.close ∧ flatBar.close ≤ flatBar.high ∧
      ¬ flatLevels.s1 ≤ flatLevels.pivotPoint ∧ ¬ flatLevels.r1 ≤ flatLevels.r2) ∧
    (SupportResistanceCalculator.create binary64 [flatBar07] TimeFrame.DAILY =
        Except.ok ⟨[flatBar07], TimeFrame.DAILY, 1, double07, double07, some flatLevels07⟩ ∧
      binary64 double07 = some double07 ∧
      flatBar07.low ≤ flatBar07.close ∧ flatBar07.close ≤ flatBar07.high ∧
      ¬ flatLevels07.s2 ≤ flatLevels07.s1 ∧ ¬ flatLevels07.pivotPoint ≤ flatLevels07.r1) := by
  have h1 : calculatePivotPoint binary64 flatBar = some flatLevels := by decide!
  have h7 : calculatePivotPoint binary64 flatBar07 = some flatLevels07 := by decide!
  refine ⟨⟨?_, by decide!, le_refl _, le_refl _, by decide!, by decide!⟩,
    ⟨?_, by decide!, le_refl _, le_refl _, by decide!, by decide!⟩⟩
  · simp [SupportResistanceCalculator.create, validateKlineList, calculateHistoryHighLow, h1]
    simp [flatBar]
  · simp [SupportResistanceCalculator.create, validateKlineList, calculateHistoryHighLow, h7]
    simp [flatBar07]

/-- Claim C31 (amended): for every K-line list accepted by the constructor,
lowestLow ≤ every bar's low ≤ every bar's high ≤ highestHigh; the pivot levels
computed in doubles from the last bar, when all finite, satisfy
s3 ≤ s2 ≤ pivotPoint ≤ r2 ≤ r3 and s1 ≤ r1; and when the last bar satisfies
low ≤ close ≤ high, the same formulas evaluated without rounding give the full
chain s3 ≤ s2 ≤ s1 ≤ pivotPoint ≤ r1 ≤ r2 ≤ r3. -/
theorem C31_levels_and_stage_order (klList : List KlineData) (tf : TimeFrame)
    (c : SupportResistanceCalculator)
    (h : SupportResistanceCalculator.create binary64 klList tf = Except.ok c) :
    (∀ kd ∈ klList, c.lowestLow ≤ kd.low ∧ kd.low ≤ kd.high ∧ kd.high ≤ c.highestHigh) ∧
    (∀ lv, c.levels = some lv →
      lv.s3 ≤ lv.s2 ∧ lv.s2 ≤ lv.pivotPoint ∧ lv.pivotPoint ≤ lv.r2 ∧ lv.r2 ≤ lv.r3 ∧
        lv.s1 ≤ lv.r1) ∧
    ∃ cx lx, SupportResistanceCalculator.create noRounding klList tf = Except.ok cx ∧
      cx.highestHigh = c.highestHigh ∧ cx.lowestLow = c.lowestLow ∧ cx.levels = some lx ∧
      ∀ latestKline, klList.getLast? = some latestKline →
        latestKline.low ≤ latestKline.close → latestKline.close ≤ latestKline.high →
        lx.s3 ≤ lx.s2 ∧ lx.s2 ≤ lx.s1 ∧ lx.s1 ≤ lx.pivotPoint ∧ lx.pivotPoint ≤ lx.r1 ∧
          lx.r1 ≤ lx.r2 ∧ lx.r2 ≤ lx.r3 := by
  obtain ⟨hne, hall, hstage, latest, hl, hmem, hlev⟩ := supportResistance_create_ok h
  obtain ⟨latest2, hl2, hcreate⟩ := supportResistance_create_eq h
  have e : latest2 = latest := by rw [hl] at hl2; exact (Option.some.inj hl2).symm
  subst e
  refine ⟨fun kd hkd => ⟨(hstage kd hkd).2, hall kd hkd, (hstage kd hkd).1⟩, ?_, ?_⟩
  · intro lv hlv
    exact levels_coarse_order binary64_roundsMonotonically (hall _ hmem) (hlev ▸ hlv)
  · obtain ⟨lx, hx, hchain⟩ := levels_noRounding latest2
    refine ⟨_, lx, hcreate noRounding, rfl, rfl, hx, ?_⟩
    intro lk hlk h1 h2
    have e : lk = latest2 := by rw [hl] at hlk; exact (Option.some.inj hlk).symm
    subst e
    exact hchain h1 h2

/-- Witness of C31: the two K-lines of `sampleKlines` are accepted, and the
levels of the last one are finite. -/
theorem C31_levels_and_stage_order_witness :
    SupportResistanceCalculator.create binary64 sampleKlines TimeFrame.DAILY =
        Except.ok sampleCalculator ∧
      ((∀ kd ∈ sampleKlines, sampleCalculator.lowestLow ≤ kd.low ∧ kd.low ≤ kd.high ∧
          kd.high ≤ sampleCalculator.highestHigh) ∧
        (∀ lv, sampleCalculator.levels = some lv →
          lv.s3 ≤ lv.s2 ∧ lv.s2 ≤ lv.pivotPoint ∧ lv.pivotPoint ≤ lv.r2 ∧ lv.r2 ≤ lv.r3 ∧
            lv.s1 ≤ lv.r1) ∧
        ∃ cx lx, SupportResistanceCalculator.create noRounding sampleKlines TimeFrame.DAILY =
            Except.ok cx ∧
          cx.highestHigh = sampleCalculator.highestHigh ∧
          cx.lowestLow = sampleCalculator.lowestLow ∧ cx.levels = some lx ∧
          ∀ latestKline, sampleKlines.getLast? = some latestKline →
            latestKline.low ≤ latestKline.close → latestKline.close ≤ latestKline.high →
            lx.s3 ≤ lx.s2 ∧ lx.s2 ≤ lx.s1 ∧ lx.s1 ≤ lx.pivotPoint ∧ lx.pivotPoint ≤ lx.r1 ∧
              lx.r1 ≤ lx.r2 ∧ lx.r2 ≤ lx.r3) := by
  have h1 : calculatePivotPoint binary64 ⟨105, 108, 101, 205 / 2, 0⟩ = some sampleLevels := by
    decide!
  have h : SupportResistanceCalculator.create binary64 sampleKlines TimeFrame.DAILY =
      Except.ok sampleCalculator := by
    simp [SupportResistanceCalculator.create, validateKlineList, calculateHistoryHighLow, h1,
      sampleKlines, sampleCalculator]
    norm_num
  exact ⟨h, C31_levels_and_stage_order sampleKlines TimeFrame.DAILY sampleCalculator h⟩

end TradeCheck
